import Mathlib

/-!
Verification of the pug-parser syntactic analyser (src/index.js): a shallow
embedding of the token-to-AST parser together with proofs about its
attribute deduplication, if/else linking, mixin scoping, raw-HTML merging
and output-shape invariants.

AST nodes are JavaScript objects whose field set varies dynamically, so they
are modelled by a JSON-like value type `JVal` (with an `undef` value for
JavaScript's `undefined`); tokens, which the parser only reads (plus one
back-patched `hasIf` flag), are modelled by a flat record `Tok`.
All parsing functions are fuel-indexed so that every definition is
structurally recursive and executable.
-/

set_option maxHeartbeats 1000000

mutual

/-- Mutual JSON-like value type for JavaScript values: `undef` models
`undefined`; arrays and objects carry their elements in order, exactly as
JavaScript preserves insertion order. -/
inductive JVal : Type where
  | undef : JVal
  | null : JVal
  | bool : Bool → JVal
  | num : Nat → JVal
  | str : String → JVal
  | arr : JArr → JVal
  | obj : JObj → JVal

/-- Ordered sequence of `JVal`s (a JavaScript array). -/
inductive JArr : Type where
  | nil : JArr
  | cons : JVal → JArr → JArr

/-- Ordered string-keyed fields of a JavaScript object. -/
inductive JObj : Type where
  | nil : JObj
  | cons : String → JVal → JObj → JObj

end

/-- Append two JavaScript arrays. -/
def JArr.append : JArr → JArr → JArr
  | .nil, b => b
  | .cons v rest, b => .cons v (JArr.append rest b)

/-- Convert a `JArr` to a Lean list. -/
def JArr.toList : JArr → List JVal
  | .nil => []
  | .cons v rest => v :: JArr.toList rest

/-- Convert a Lean list to a `JArr`. -/
def JArr.ofList : List JVal → JArr
  | [] => .nil
  | v :: rest => .cons v (JArr.ofList rest)

/-- Number of elements of a JavaScript array. -/
def JArr.length : JArr → Nat
  | .nil => 0
  | .cons _ rest => JArr.length rest + 1

/-- Read a field of an object field list; `undef` when absent (JavaScript
property access on a missing key). -/
def JObj.get : JObj → String → JVal
  | .nil, _ => .undef
  | .cons k v rest, key => if k == key then v else JObj.get rest key

/-- JavaScript assignment `o[key] = v`: replace the value in place when the
key exists, otherwise append the key at the end. -/
def JObj.set : JObj → String → JVal → JObj
  | .nil, key, v => .cons key v .nil
  | .cons k w rest, key, v =>
    if k == key then .cons k v rest else .cons k w (JObj.set rest key v)

/-- JavaScript `delete o[key]`. -/
def JObj.del : JObj → String → JObj
  | .nil, _ => .nil
  | .cons k w rest, key =>
    if k == key then JObj.del rest key else .cons k w (JObj.del rest key)

/-- Property read on an arbitrary value (`undef` on non-objects, as the
source never reads properties of primitives). -/
def JVal.get : JVal → String → JVal
  | .obj f, key => JObj.get f key
  | _, _ => JVal.undef

/-- Property assignment on an arbitrary value (no-op on non-objects). -/
def JVal.set : JVal → String → JVal → JVal
  | .obj f, key, v => .obj (JObj.set f key v)
  | v, _, _ => v

/-- Property deletion on an arbitrary value. -/
def JVal.del : JVal → String → JVal
  | .obj f, key => .obj (JObj.del f key)
  | v, _ => v

/-- Build an object from an ordered key/value list. -/
def mkObj : List (String × JVal) → JVal
  | [] => .obj .nil
  | (k, v) :: rest =>
    match mkObj rest with
    | .obj f => .obj (.cons k v f)
    | _ => .obj (.cons k v .nil)

/-- Build an array value from a list. -/
def mkArr (l : List JVal) : JVal := .arr (JArr.ofList l)

/-- JavaScript truthiness for the values this code branches on. -/
def truthy : JVal → Bool
  | .undef => false
  | .null => false
  | .bool b => b
  | .num n => n != 0
  | .str s => s != ""
  | .arr _ => true
  | .obj _ => true

/-- Extract a string value (the source only does so on actual strings). -/
def asStr : JVal → String
  | .str s => s
  | _ => ""

/-- JavaScript `o.key.push v` for an array-valued property: appends `v` at
the end of the array stored under `key` (no-op when the property is not an
array, which the source never does). -/
def JVal.pushKey (o : JVal) (key : String) (v : JVal) : JVal :=
  match o.get key with
  | .arr l => o.set key (.arr (l.append (.cons v .nil)))
  | _ => o

mutual

/-- Model of `JSON.parse(JSON.stringify v)` on values built from
`undef`/`null`/booleans/numbers/strings/arrays/objects: object fields whose
value is `undefined` are dropped, `undefined` array elements become `null`,
everything else is preserved (key order included). -/
def stripUndef : JVal → JVal
  | .undef => .undef
  | .null => .null
  | .bool b => .bool b
  | .num n => .num n
  | .str s => .str s
  | .arr l => .arr (stripArr l)
  | .obj f => .obj (stripObj f)

/-- Serialization of array elements: `undefined` serializes as `null`. -/
def stripArr : JArr → JArr
  | .nil => .nil
  | .cons .undef rest => .cons .null (stripArr rest)
  | .cons v rest => .cons (stripUndef v) (stripArr rest)

/-- Serialization of object fields: `undefined`-valued keys are dropped. -/
def stripObj : JObj → JObj
  | .nil => .nil
  | .cons _ .undef rest => stripObj rest
  | .cons k v rest => .cons k (stripUndef v) (stripObj rest)

end

/-- JSON round trip, as performed by `parse` on the finished AST
(src/index.js line 14). -/
def jsonRound (v : JVal) : JVal := stripUndef v

/-- Attribute entry of an `attrs` token (`{name, val, escaped}`); `val` is
an opaque JavaScript value copied verbatim by the parser. -/
structure Attr where
  name : String
  val : JVal
  escaped : Bool

/-- Lexer token. The lexer is an external collaborator, so this record is
the input contract of §3 of the spec: a `type` discriminant plus the
type-specific fields the parser reads. Boolean flags the lexer may omit
default to `false` (they are only ever tested for truthiness);
`selfClosing` is kept optional because the parser itself synthesizes a
deferred `div` tag token without that field. `includeAttrs` models the
attrs token a lexer attaches to an `include` token (`tok.attrs.attrs`),
and `filter` the optional filter of a filtered include. -/
structure Tok where
  type : String
  val : String := ""
  line : Nat := 0
  selfClosing : Option Bool := none
  attrs : List Attr := []
  includeAttrs : Option (List Attr) := none
  filter : Option String := none
  mode : String := ""
  args : Option String := none
  code : String := ""
  key : Option String := none
  buffer : Bool := false
  escape : Bool := false
  isElse : Bool := false
  isIf : Bool := false
  hasIf : Bool := false
  requiresBlock : Bool := false

/-- Parser state: the remaining token stream, the `filename` and the
process-wide `inMixin` flag of the `Parser` constructor (src/index.js
lines 26-30), plus the cursor's record of the line of the most recently
consumed token. -/
structure Parser where
  tokens : List Tok
  filename : String
  inMixin : Bool := false
  lineno : Nat := 0

/-- End-of-stream token. Modelled from the spec: the TokenCursor
(the external `token-stream` module) logically terminates every stream
with an `eos` token, supplied implicitly if the sequence is exhausted. -/
def eosTok : Tok := { type := "eos" }

/-- Modelled from the spec: TokenCursor `peek()` — the next token, not
consumed. -/
def Parser.peek (p : Parser) : Tok := p.tokens.headD eosTok

/-- Modelled from the spec: TokenCursor `lookahead(n)`. The index is
0-based, `lookahead 0 = peek`: §4.1's parenthetical says 1-indexed, but
`parseCode` (src/index.js line 373) reads `lookahead(1)` after seeing that
`peek()` is a `newline` in order to reach the token *after* the newline,
which is also how §4.4 and §3 describe if/else linking across a blank
line, so the 0-based reading is forced. -/
def Parser.lookahead (p : Parser) (n : Nat) : Tok := (p.tokens.drop n).headD eosTok

/-- Modelled from the spec: TokenCursor `advance()` — consume and return
the next token, recording its line number. -/
def Parser.advance (p : Parser) : Tok × Parser :=
  match p.tokens with
  | [] => (eosTok, p)
  | t :: ts => (t, { p with tokens := ts, lineno := t.line })

/-- Modelled from the spec: TokenCursor `line()` — the line number of the
most recently consumed token. -/
def Parser.line (p : Parser) : Nat := p.lineno

/-- Modelled from the spec: TokenCursor `defer(token)` — push a synthetic
token onto the front of the stream. -/
def Parser.defer (p : Parser) (t : Tok) : Parser := { p with tokens := t :: p.tokens }

/-- Throws unless the next token has the given type (src/index.js 125-131). -/
def Parser.expect (p : Parser) (ty : String) : Except String (Tok × Parser) :=
  if p.peek.type == ty then .ok p.advance
  else .error ("expected \"" ++ ty ++ "\", but got \"" ++ p.peek.type ++ "\"")

/-- Consumes the next token only when it has the given type
(src/index.js 140-144). -/
def Parser.accept (p : Parser) (ty : String) : Option (Tok × Parser) :=
  if p.peek.type == ty then some p.advance else none

/-- Modelled from the spec: the static inline-element name table
(`require('./lib/inline-tags')`, repository code not under src/), the
standard HTML inline elements; `parseTag` tests membership of the tag
name in it. -/
def inlineTags : List String :=
  ["a", "abbr", "acronym", "b", "br", "code", "em", "font", "i", "img",
   "ins", "kbd", "map", "samp", "small", "span", "strong", "sub", "sup"]

/-- Characters trimmed by JavaScript `String.prototype.trim`. -/
def isSpaceChar (c : Char) : Bool := c == ' ' || c == '\t' || c == '\n' || c == '\r'

/-- JavaScript `s.trim()`. -/
def trimStr (s : String) : String :=
  String.mk (((s.data.dropWhile isSpaceChar).reverse.dropWhile isSpaceChar).reverse)

/-- Leading-space stripper for the `/^ *else/` test of parseCode. -/
def dropSpaces : List Char → List Char
  | [] => []
  | c :: cs => if c == ' ' then dropSpaces cs else c :: cs

/-- The regular expression test `node.val.match(/^ *else/)` of
src/index.js line 350. -/
def matchElse (s : String) : Bool := "else".data.isPrefixOf (dropSpaces s.data)

/-- JVal image of an optional boolean token field. -/
def optBoolJ : Option Bool → JVal
  | none => .undef
  | some b => .bool b

/-- JVal image of a token field the lexer sets to a string or `null`. -/
def optStrNullJ : Option String → JVal
  | none => .null
  | some s => .str s

/-- JVal image of a token field the lexer sets to a string or omits. -/
def optStrUndefJ : Option String → JVal
  | none => .undef
  | some s => .str s

/-- JVal image of one attribute entry. -/
def attrJ (a : Attr) : JVal :=
  mkObj [("name", .str a.name), ("val", a.val), ("escaped", .bool a.escaped)]

/-- JVal image of an attribute list. -/
def attrsJ (l : List Attr) : JVal := mkArr (l.map attrJ)

/-- Fresh empty `Block` node literal (`{type: 'Block', nodes: []}`). -/
def emptyBlock : JVal := mkObj [("type", .str "Block"), ("nodes", mkArr [])]

/-- Set `hasIf := true` on the token `i` positions ahead in the stream:
the back-patch of `this.peek().hasIf = true` /
`this.lookahead(1).hasIf = true` (src/index.js lines 371-375). -/
def setHasIf : List Tok → Nat → List Tok
  | [], _ => []
  | t :: ts, 0 => { t with hasIf := true } :: ts
  | t :: ts, n + 1 => t :: setHasIf ts n

/-- The if/else linking step at the end of parseCode (src/index.js lines
370-375): if the consumed token `isIf` and the next token (or the token
after a `newline`) `isElse`, mark it `hasIf`. -/
def Parser.applyIfPatch (tok : Tok) (p : Parser) : Parser :=
  if tok.isIf && p.peek.isElse then { p with tokens := setHasIf p.tokens 0 }
  else if tok.isIf && p.peek.type == "newline" && (p.lookahead 1).isElse then
    { p with tokens := setHasIf p.tokens 1 }
  else p

/-- Skip `while ('newline' == this.peek().type) this.advance();`
over the raw token list, tracking the consumed line numbers. -/
def skipNewlinesL : List Tok → Nat → List Tok × Nat
  | [], ln => ([], ln)
  | t :: ts, ln => if t.type == "newline" then skipNewlinesL ts t.line else (t :: ts, ln)

/-- State-level wrapper of `skipNewlinesL` (src/index.js line 730). -/
def Parser.skipNewlines (p : Parser) : Parser :=
  let r := skipNewlinesL p.tokens p.lineno
  { p with tokens := r.1, lineno := r.2 }

/-- Append a list of nodes to the `nodes` array of a block object
(`block.nodes = block.nodes.concat(...)`, src/index.js line 105). -/
def concatNodes (blk : JVal) (ns : List JVal) : JVal :=
  match blk.get "nodes" with
  | .arr l => blk.set "nodes" (.arr (l.append (JArr.ofList ns)))
  | _ => blk

/-- The duplicate-attribute error message of src/index.js lines 658/681. -/
def dupMsg (n : String) : String :=
  "Duplicate attribute \"" ++ n ++ "\" is not allowed."

/-- The inner `for` loop over one `attrs` token's entries (src/index.js
lines 678-690): each non-`class` name is checked against and then added to
the cumulative `attributeNames`, and every entry is appended to
`tag.attrs`. -/
def attrEntries : List Attr → JVal → List String → Except String (JVal × List String)
  | [], tg, names => .ok (tg, names)
  | a :: rest, tg, names =>
    if a.name != "class" && names.contains a.name then .error (dupMsg a.name)
    else
      let names' := if a.name != "class" then names ++ [a.name] else names
      attrEntries rest
        (tg.pushKey "attrs"
          (mkObj [("name", .str a.name), ("val", a.val), ("escaped", .bool a.escaped)]))
        names'

/-- Flush the running raw-HTML text node, if any. -/
def flushCur : Option JVal → List JVal
  | none => []
  | some c => [c]

/-- Merge the value of a following raw-HTML node into the running text
node (`currentNode.val += '\n' + node.val`). -/
def mergeHtmlVal (c : JVal) (v : String) : JVal :=
  c.set "val" (.str (asStr (c.get "val") ++ "\n" ++ v))

/-- The `block.nodes.forEach` body of parseTextHtml (src/index.js lines
252-264): nodes of a nested block are merged into the running raw-HTML
text node while they are `isHtml`, and any other node flushes the run and
is appended verbatim. -/
def htmlMergeFold : List JVal → List JVal → Option JVal → List JVal × Option JVal
  | [], acc, cur => (acc, cur)
  | nd :: rest, acc, cur =>
    if truthy (nd.get "isHtml") then
      match cur with
      | none => htmlMergeFold rest acc (some nd)
      | some c => htmlMergeFold rest acc (some (mergeHtmlVal c (asStr (nd.get "val"))))
    else htmlMergeFold rest (acc ++ flushCur cur ++ [nd]) none

/-- View an array value as a Lean list (empty for non-arrays). -/
def JVal.getArrList : JVal → List JVal
  | .arr l => l.toList
  | _ => []

/-- JavaScript `xs.length` for an array value (`0` for non-arrays, which
the source never queries). -/
def JVal.getArrLen : JVal → Nat
  | .arr l => l.length
  | _ => 0

/-- Fuel-exhaustion marker (never produced on any run with enough fuel;
distinct from every parser error message). -/
def fuelMsg : String := "out of fuel"

/-- parseDoctype (src/index.js 398-401). -/
def Parser.parseDoctype (p : Parser) : Except String (JVal × Parser) := do
  let (tok, p) ← p.expect "doctype"
  .ok (mkObj [("type", .str "Doctype"), ("val", .str tok.val), ("line", .num tok.line)], p)

/-- parseExtends (src/index.js 442-444). -/
def Parser.parseExtends (p : Parser) : Except String (JVal × Parser) := do
  let (tok, p) ← p.expect "extends"
  .ok (mkObj [("type", .str "Extends"), ("path", .str (trimStr tok.val))], p)

/-- parseMixinBlock (src/index.js 462-468): a `mixin-block` token is only
legal while the `inMixin` flag is set. -/
def Parser.parseMixinBlock (p : Parser) : Except String (JVal × Parser) := do
  let (_, p) ← p.expect "mixin-block"
  if !p.inMixin then
    .error "Anonymous blocks are not allowed unless they are part of a mixin."
  else .ok (mkObj [("type", .str "MixinBlock")], p)

mutual

/-- parseExpr (src/index.js 162-207): dispatch on the peeked token type;
`id`/`class` defer a synthetic `div` tag token and retry. -/
def Parser.parseExpr : Nat → Parser → Except String (JVal × Parser)
  | 0, _ => .error fuelMsg
  | n + 1, p =>
    match p.peek.type with
    | "tag" => Parser.parseTag n p
    | "mixin" => Parser.parseMixin n p
    | "block" => Parser.parseBlock n p
    | "mixin-block" => Parser.parseMixinBlock p
    | "case" => Parser.parseCase n p
    | "extends" => Parser.parseExtends p
    | "include" => Parser.parseInclude n p
    | "doctype" => Parser.parseDoctype p
    | "filter" => Parser.parseFilter n p
    | "comment" => Parser.parseComment n p
    | "text" => Parser.parseText n p true
    | "start-jade-interpolation" => Parser.parseText n p true
    | "each" => Parser.parseEach n p
    | "code" => Parser.parseCode n p
    | "call" => Parser.parseCall n p
    | "interpolation" => Parser.parseInterpolation n p
    | "yield" =>
      let (_, p) := p.advance
      .ok (emptyBlock.set "yield" (.bool true), p)
    | "id" =>
      Parser.parseExpr n (p.defer { type := "tag", line := p.peek.line, val := "div" })
    | "class" =>
      Parser.parseExpr n (p.defer { type := "tag", line := p.peek.line, val := "div" })
    | other => .error ("unexpected token \"" ++ other ++ "\"")

/-- parseText (src/index.js 213-231): a run of `text`,
inline-interpolation and (at block level) `newline` tokens; a single
resulting node is returned unwrapped, several are wrapped in a Block. -/
def Parser.parseText : Nat → Parser → Bool → Except String (JVal × Parser)
  | 0, _, _ => .error fuelMsg
  | n + 1, p, blockOpt => do
    let (tags, p) ← Parser.parseTextLoop n p blockOpt []
    if tags.length == 1 then .ok (tags.headD .undef, p)
    else .ok (mkObj [("type", .str "Block"), ("nodes", mkArr tags)], p)

/-- The `while` loop of parseText (src/index.js 215-228). -/
def Parser.parseTextLoop : Nat → Parser → Bool → List JVal → Except String (List JVal × Parser)
  | 0, _, _, _ => .error fuelMsg
  | n + 1, p, blockOpt, acc =>
    if p.peek.type == "text" then
      let (tok, p) := p.advance
      Parser.parseTextLoop n p blockOpt
        (acc ++ [mkObj [("type", .str "Text"), ("val", .str tok.val)]])
    else if blockOpt && p.peek.type == "newline" then
      let (_, p) := p.advance
      if p.peek.type == "text" then
        Parser.parseTextLoop n p blockOpt
          (acc ++ [mkObj [("type", .str "Text"), ("val", .str "\n")]])
      else Parser.parseTextLoop n p blockOpt acc
    else if p.peek.type == "start-jade-interpolation" then do
      let (_, p) ← p.expect "start-jade-interpolation"
      let (e, p) ← Parser.parseExpr n p
      let (_, p) ← p.expect "end-jade-interpolation"
      Parser.parseTextLoop n p blockOpt (acc ++ [e])
    else .ok (acc, p)

/-- parseTextHtml (src/index.js 233-270). -/
def Parser.parseTextHtml : Nat → Parser → Except String (List JVal × Parser)
  | 0, _ => .error fuelMsg
  | n + 1, p => Parser.textHtmlLoop n p [] none

/-- The `while` loop of parseTextHtml (src/index.js 236-268): merge
consecutive `text-html` tokens into one running `Text` node (newline
joined), fold the nodes of a following indented block through
`htmlMergeFold`, consume a trailing lone `newline`. -/
def Parser.textHtmlLoop : Nat → Parser → List JVal → Option JVal → Except String (List JVal × Parser)
  | 0, _, _, _ => .error fuelMsg
  | n + 1, p, acc, cur =>
    if p.peek.type == "text-html" then
      let (text, p) := p.advance
      let cur : Option JVal :=
        match cur with
        | none => some (mkObj [("type", .str "Text"), ("val", .str text.val),
            ("filename", .str p.filename), ("line", .num text.line), ("isHtml", .bool true)])
        | some c => some (mergeHtmlVal c text.val)
      if p.peek.type == "indent" then do
        let (blk, p) ← Parser.block n p
        let st := htmlMergeFold (blk.get "nodes" |>.getArrList) acc cur
        Parser.textHtmlLoop n p st.1 st.2
      else if p.peek.type == "newline" then
        Parser.textHtmlLoop n p.advance.2 acc cur
      else
        Parser.textHtmlLoop n p acc cur
    else .ok (acc ++ flushCur cur, p)

/-- parseBlockExpansion (src/index.js 277-284): `:` followed by a single
expression, or an indented block. -/
def Parser.parseBlockExpansion : Nat → Parser → Except String (JVal × Parser)
  | 0, _ => .error fuelMsg
  | n + 1, p =>
    if p.peek.type == ":" then do
      let (_, p) := p.advance
      let (e, p) ← Parser.parseExpr n p
      .ok (mkObj [("type", .str "Block"), ("nodes", mkArr [e])], p)
    else Parser.block n p

/-- parseCase (src/index.js 290-318). -/
def Parser.parseCase : Nat → Parser → Except String (JVal × Parser)
  | 0, _ => .error fuelMsg
  | n + 1, p => do
    let (tok, p) ← p.expect "case"
    let node := mkObj [("type", .str "Case"), ("expr", .str tok.val), ("line", .num tok.line)]
    let blk := emptyBlock.set "filename" (.str p.filename)
    let (_, p) ← p.expect "indent"
    let (blk, p) ← Parser.caseLoop n p blk
    let (_, p) ← p.expect "outdent"
    .ok (node.set "block" blk, p)

/-- The `while` loop of parseCase (src/index.js 297-312). -/
def Parser.caseLoop : Nat → Parser → JVal → Except String (JVal × Parser)
  | 0, _, _ => .error fuelMsg
  | n + 1, p, blk =>
    if p.peek.type == "outdent" then .ok (blk, p)
    else match p.peek.type with
      | "newline" => Parser.caseLoop n p.advance.2 blk
      | "when" => do
        let (w, p) ← Parser.parseWhen n p
        Parser.caseLoop n p (blk.pushKey "nodes" w)
      | "default" => do
        let (w, p) ← Parser.parseDefault n p
        Parser.caseLoop n p (blk.pushKey "nodes" w)
      | t => .error ("Unexpected token \"" ++ t ++ "\", expected \"when\", \"default\" or \"newline\"")

/-- parseWhen (src/index.js 324-331). -/
def Parser.parseWhen : Nat → Parser → Except String (JVal × Parser)
  | 0, _ => .error fuelMsg
  | n + 1, p => do
    let (tok, p) ← p.expect "when"
    if p.peek.type != "newline" then do
      let (blk, p) ← Parser.parseBlockExpansion n p
      .ok (mkObj [("type", .str "When"), ("expr", .str tok.val), ("block", blk),
        ("debug", .bool false)], p)
    else
      .ok (mkObj [("type", .str "When"), ("expr", .str tok.val), ("debug", .bool false)], p)

/-- parseDefault (src/index.js 337-340). -/
def Parser.parseDefault : Nat → Parser → Except String (JVal × Parser)
  | 0, _ => .error fuelMsg
  | n + 1, p => do
    let (_, p) ← p.expect "default"
    let (blk, p) ← Parser.parseBlockExpansion n p
    .ok (mkObj [("type", .str "When"), ("expr", .str "default"), ("block", blk),
      ("debug", .bool false)], p)

/-- parseCode (src/index.js 346-378): builds a `Code` node, rejects an
`else` without a linked `if`, attaches a following indented block (or an
empty one when the token `requiresBlock`), then runs the if/else linking
patch on the next unconsumed token(s). -/
def Parser.parseCode : Nat → Parser → Except String (JVal × Parser)
  | 0, _ => .error fuelMsg
  | n + 1, p => do
    let (tok, p) ← p.expect "code"
    let node := mkObj [("type", .str "Code"), ("val", .str tok.val),
      ("buffer", .bool tok.buffer), ("escape", .bool tok.escape)]
    let node := if matchElse tok.val then node.set "debug" (.bool false) else node
    let node := node.set "line" (.num p.line)
    if tok.isElse && !tok.hasIf then
      .error "Unexpected else without if"
    else do
      let hasBlk := p.peek.type == "indent"
      let (node, p) ←
        if hasBlk then do
          let (b, p) ← Parser.block n p
          pure (node.set "block" b, p)
        else pure (node, p)
      let node := if tok.requiresBlock && !hasBlk then node.set "block" emptyBlock else node
      .ok (node, Parser.applyIfPatch tok p)

/-- parseComment (src/index.js 384-392). -/
def Parser.parseComment : Nat → Parser → Except String (JVal × Parser)
  | 0, _ => .error fuelMsg
  | n + 1, p => do
    let (tok, p) ← p.expect "comment"
    let (ob, p) ← Parser.parseTextBlock n p
    match ob with
    | some blk =>
      .ok (mkObj [("type", .str "BlockComment"), ("val", .str tok.val), ("block", blk),
        ("buffer", .bool tok.buffer), ("line", .num tok.line)], p)
    | none =>
      .ok (mkObj [("type", .str "Comment"), ("val", .str tok.val),
        ("buffer", .bool tok.buffer), ("line", .num tok.line)], p)

/-- parseFilter (src/index.js 407-415). -/
def Parser.parseFilter : Nat → Parser → Except String (JVal × Parser)
  | 0, _ => .error fuelMsg
  | n + 1, p => do
    let (tok, p) ← p.expect "filter"
    let acc := p.accept "attrs"
    let attrsTok : Option Tok := acc.map (·.1)
    let p := (acc.map (·.2)).getD p
    let (ob, p) ← Parser.parseTextBlock n p
    let blk := ob.getD emptyBlock
    .ok (mkObj [("type", .str "Filter"), ("name", .str tok.val), ("block", blk),
      ("attrs", match attrsTok with | some t => attrsJ t.attrs | none => mkArr []),
      ("line", .num tok.line)], p)

/-- parseEach (src/index.js 421-436). -/
def Parser.parseEach : Nat → Parser → Except String (JVal × Parser)
  | 0, _ => .error fuelMsg
  | n + 1, p => do
    let (tok, p) ← p.expect "each"
    let (blk, p) ← Parser.block n p
    let node := mkObj [("type", .str "Each"), ("obj", .str tok.code), ("val", .str tok.val),
      ("key", optStrNullJ tok.key), ("block", blk), ("line", .num tok.line)]
    if p.peek.type == "code" && p.peek.val == "else" then do
      let (_, p) := p.advance
      let (alt, p) ← Parser.block n p
      .ok (node.set "alternative" alt, p)
    else .ok (node, p)

/-- parseBlock (src/index.js 450-460): a named block. -/
def Parser.parseBlock : Nat → Parser → Except String (JVal × Parser)
  | 0, _ => .error fuelMsg
  | n + 1, p => do
    let (tok, p) ← p.expect "block"
    let (node, p) ←
      if p.peek.type == "indent" then Parser.block n p
      else pure (emptyBlock, p)
    let node := node.set "type" (.str "NamedBlock")
    let node := node.set "name" (.str (trimStr tok.val))
    let node := node.set "mode" (.str tok.mode)
    let node := node.set "line" (.num tok.line)
    .ok (node, p)

/-- parseInclude (src/index.js 474-484). -/
def Parser.parseInclude : Nat → Parser → Except String (JVal × Parser)
  | 0, _ => .error fuelMsg
  | n + 1, p => do
    let (tok, p) ← p.expect "include"
    let (blk, p) ←
      if p.peek.type == "indent" then Parser.block n p
      else pure (emptyBlock, p)
    .ok (mkObj [("type", .str "Include"), ("path", .str (trimStr tok.val)),
      ("filter", optStrUndefJ tok.filter),
      ("attrs", match tok.includeAttrs with | some l => attrsJ l | none => mkArr []),
      ("block", blk)], p)

/-- parseCall (src/index.js 490-511): builds a call-mode `Mixin` node,
reuses the tag machinery for attributes/inline content, splices an inline
`code` node into the block and nils out an empty block. -/
def Parser.parseCall : Nat → Parser → Except String (JVal × Parser)
  | 0, _ => .error fuelMsg
  | n + 1, p => do
    let (tok, p) ← p.expect "call"
    let mixin := mkObj [("type", .str "Mixin"), ("name", .str tok.val),
      ("args", optStrNullJ tok.args), ("block", emptyBlock), ("call", .bool true),
      ("attrs", mkArr []), ("attributeBlocks", mkArr [])]
    let (mixin, p) ← Parser.tag n p mixin
    let mixin :=
      if truthy (mixin.get "code") then
        ((mixin.set "block" ((mixin.get "block").pushKey "nodes" (mixin.get "code"))).del "code")
      else mixin
    let mixin :=
      if ((mixin.get "block").get "nodes").getArrLen == 0 then mixin.set "block" .null
      else mixin
    .ok (mixin, p)

/-- parseMixin (src/index.js 517-546): definition branch sets the
process-wide `inMixin` flag, parses the body, then clears the flag;
the legacy call branch (deprecation warning ignored) returns a call-mode
node with a `null` block. -/
def Parser.parseMixin : Nat → Parser → Except String (JVal × Parser)
  | 0, _ => .error fuelMsg
  | n + 1, p => do
    let (tok, p) ← p.expect "mixin"
    if p.peek.type == "indent" then do
      let p := { p with inMixin := true }
      let (blk, p) ← Parser.block n p
      let mixin := mkObj [("type", .str "Mixin"), ("name", .str tok.val),
        ("args", optStrNullJ tok.args), ("block", blk), ("call", .bool false)]
      let p := { p with inMixin := false }
      .ok (mixin, p)
    else
      .ok (mkObj [("type", .str "Mixin"), ("name", .str tok.val),
        ("args", optStrNullJ tok.args), ("block", .null), ("call", .bool true)], p)

/-- parseTextBlock (src/index.js 552-575): a pipeless text region;
`none` when the next token is not `start-pipeless-text` (the JavaScript
function returns `undefined` there). -/
def Parser.parseTextBlock : Nat → Parser → Except String (Option JVal × Parser)
  | 0, _ => .error fuelMsg
  | n + 1, p =>
    if p.peek.type != "start-pipeless-text" then .ok (none, p)
    else do
      let (_, p) := p.advance
      let (blk, p) ← Parser.textBlockLoop n p emptyBlock
      let (_, p) := p.advance
      .ok (some blk, p)

/-- The `while` loop of parseTextBlock (src/index.js 556-572). -/
def Parser.textBlockLoop : Nat → Parser → JVal → Except String (JVal × Parser)
  | 0, _, _ => .error fuelMsg
  | n + 1, p, blk =>
    if p.peek.type == "end-pipeless-text" then .ok (blk, p)
    else
      let (tok, p) := p.advance
      match tok.type with
      | "text" =>
        Parser.textBlockLoop n p
          (blk.pushKey "nodes" (mkObj [("type", .str "Text"), ("val", .str tok.val)]))
      | "newline" =>
        Parser.textBlockLoop n p
          (blk.pushKey "nodes" (mkObj [("type", .str "Text"), ("val", .str "\n")]))
      | "start-jade-interpolation" => do
        let (e, p) ← Parser.parseExpr n p
        let (_, p) ← p.expect "end-jade-interpolation"
        Parser.textBlockLoop n p (blk.pushKey "nodes" e)
      | t => .error ("Unexpected token type: " ++ t)

/-- block (src/index.js 581-599): an indent/outdent-delimited sequence of
expressions; every dispatched node gets the parse's `filename`. -/
def Parser.block : Nat → Parser → Except String (JVal × Parser)
  | 0, _ => .error fuelMsg
  | n + 1, p => do
    let blk := emptyBlock.set "line" (.num p.line)
    let blk := blk.set "filename" (.str p.filename)
    let (_, p) ← p.expect "indent"
    let (blk, p) ← Parser.blockLoop n p blk
    let (_, p) ← p.expect "outdent"
    .ok (blk, p)

/-- The `while` loop of block (src/index.js 586-596). -/
def Parser.blockLoop : Nat → Parser → JVal → Except String (JVal × Parser)
  | 0, _, _ => .error fuelMsg
  | n + 1, p, blk =>
    if p.peek.type == "outdent" then .ok (blk, p)
    else if p.peek.type == "newline" then Parser.blockLoop n p.advance.2 blk
    else if p.peek.type == "text-html" then do
      let (ns, p) ← Parser.parseTextHtml n p
      Parser.blockLoop n p (concatNodes blk ns)
    else do
      let (expr, p) ← Parser.parseExpr n p
      let expr := expr.set "filename" (.str p.filename)
      Parser.blockLoop n p (blk.pushKey "nodes" expr)

/-- parseInterpolation (src/index.js 605-619): an interpolated tag; note
`isInline` is the literal `false`. -/
def Parser.parseInterpolation : Nat → Parser → Except String (JVal × Parser)
  | 0, _ => .error fuelMsg
  | n + 1, p =>
    let (tok, p) := p.advance
    let tg := mkObj [("type", .str "Tag"), ("name", .str tok.val),
      ("selfClosing", optBoolJ tok.selfClosing), ("block", emptyBlock),
      ("attrs", mkArr []), ("attributeBlocks", mkArr []),
      ("buffer", .bool true), ("isInline", .bool false)]
    Parser.tag n p tg

/-- parseTag (src/index.js 625-638): a plain tag; `isInline` is membership
of the tag name in the static inline-tags table
(`inlineTags.indexOf(tok.val) !== -1`). -/
def Parser.parseTag : Nat → Parser → Except String (JVal × Parser)
  | 0, _ => .error fuelMsg
  | n + 1, p =>
    let (tok, p) := p.advance
    let tg := mkObj [("type", .str "Tag"), ("name", .str tok.val),
      ("selfClosing", optBoolJ tok.selfClosing), ("block", emptyBlock),
      ("attrs", mkArr []), ("attributeBlocks", mkArr []),
      ("isInline", .bool (inlineTags.contains tok.val))]
    Parser.tag n p tg

/-- tag (src/index.js 644-743): the shared tag machinery — attribute
loop, optional `dot`, one optional inline `text`/`code`/`:`-expression,
trailing newlines, then a pipeless text block (`textOnly`) or a nested
indented block whose nodes are appended onto the tag's block. -/
def Parser.tag : Nat → Parser → JVal → Except String (JVal × Parser)
  | 0, _, _ => .error fuelMsg
  | n + 1, p, tg => do
    let tg := tg.set "line" (.num p.line)
    let (tg, p) ← Parser.tagAttrs n p tg false []
    let r := if p.peek.type == "dot" then (tg.set "textOnly" (.bool true), p.advance.2) else (tg, p)
    let tg := r.1
    let p := r.2
    let (tg, p) ←
      match p.peek.type with
      | "text" => do
        let (t, p) ← Parser.parseText n p false
        pure (tg.set "block" ((tg.get "block").pushKey "nodes" t), p)
      | "code" => do
        let (c, p) ← Parser.parseCode n p
        pure (tg.set "code" c, p)
      | ":" => do
        let (_, p) := p.advance
        let (e, p) ← Parser.parseExpr n p
        pure (tg.set "block" (mkObj [("type", .str "Block"), ("nodes", mkArr [e])]), p)
      | "newline" => pure (tg, p)
      | "indent" => pure (tg, p)
      | "outdent" => pure (tg, p)
      | "eos" => pure (tg, p)
      | "start-pipeless-text" => pure (tg, p)
      | t => .error ("Unexpected token `" ++ t ++ "` expected `text`, `code`, `:`, `newline` or `eos`")
    let p := p.skipNewlines
    if truthy (tg.get "textOnly") then do
      let (ob, p) ← Parser.parseTextBlock n p
      .ok (tg.set "block" (ob.getD emptyBlock), p)
    else if p.peek.type == "indent" then do
      let (blk, p) ← Parser.block n p
      .ok (tg.set "block" (concatNodes (tg.get "block") (blk.get "nodes").getArrList), p)
    else .ok (tg, p)

/-- The `(attrs | class | id)*` loop of tag (src/index.js 650-699):
accumulates shorthand ids/classes, attribute groups and `&attributes`
expressions, tracking seen non-`class` attribute names cumulatively and
failing on any repeat; an `attrs` token flagged self-closing forces the
tag self-closing. -/
def Parser.tagAttrs : Nat → Parser → JVal → Bool → List String → Except String (JVal × Parser)
  | 0, _, _, _, _ => .error fuelMsg
  | n + 1, p, tg, seenAttrs, names =>
    if p.peek.type == "id" || p.peek.type == "class" then
      let (tok, p) := p.advance
      if tok.type == "id" && names.contains "id" then .error (dupMsg "id")
      else
        let names := if tok.type == "id" then names ++ ["id"] else names
        let tg := tg.pushKey "attrs" (mkObj [("name", .str tok.type),
          ("val", .str ("\x27" ++ tok.val ++ "\x27")), ("escaped", .bool false)])
        Parser.tagAttrs n p tg seenAttrs names
    else if p.peek.type == "attrs" then
      let (tok, p) := p.advance
      let tg := if tok.selfClosing.getD false then tg.set "selfClosing" (.bool true) else tg
      match attrEntries tok.attrs tg names with
      | .error e => .error e
      | .ok (tg, names) => Parser.tagAttrs n p tg true names
    else if p.peek.type == "&attributes" then
      let (tok, p) := p.advance
      Parser.tagAttrs n p (tg.pushKey "attributeBlocks" (.str tok.val)) seenAttrs names
    else .ok (tg, p)

/-- The top-level `while` loop of Parser.prototype.parse
(src/index.js 101-113). -/
def Parser.parseLoop : Nat → Parser → JVal → Except String (JVal × Parser)
  | 0, _, _ => .error fuelMsg
  | n + 1, p, blk =>
    if p.peek.type == "eos" then .ok (blk, p)
    else if p.peek.type == "newline" then Parser.parseLoop n p.advance.2 blk
    else if p.peek.type == "text-html" then do
      let (ns, p) ← Parser.parseTextHtml n p
      Parser.parseLoop n p (concatNodes blk ns)
    else do
      let next := p.peek
      let (expr, p) ← Parser.parseExpr n p
      let fv := expr.get "filename"
      let expr := expr.set "filename" (if truthy fv then fv else .str p.filename)
      let expr := expr.set "line" (.num next.line)
      Parser.parseLoop n p (blk.pushKey "nodes" expr)

/-- Parser.prototype.parse (src/index.js 96-116): a root `Block` with
line 0 and the parse's filename, filled by the top-level loop. -/
def Parser.parse : Nat → Parser → Except String (JVal × Parser)
  | 0, _ => .error fuelMsg
  | n + 1, p =>
    let blk := mkObj [("type", .str "Block"), ("nodes", mkArr [])]
    let blk := blk.set "line" (.num 0)
    let blk := blk.set "filename" (.str p.filename)
    Parser.parseLoop n p blk

end

/-- The exported parse function (src/index.js 11-15): run the parser and
deep-clone the AST through `JSON.parse(JSON.stringify(ast))`. -/
def parse (fuel : Nat) (tokens : List Tok) (filename : String) : Except String JVal :=
  match Parser.parse fuel { tokens := tokens, filename := filename } with
  | .ok r => .ok (jsonRound r.1)
  | .error e => .error e

/-! Token constructors for the concrete token streams of the spec's
examples (§8): each builds the token the lexer would produce, with only
the flags the example mentions. -/

/-- Tag token. -/
def tagT (s : String) : Tok := { type := "tag", val := s }

/-- Attrs token with the given attribute list. -/
def attrsT (l : List Attr) : Tok := { type := "attrs", attrs := l }

/-- Shorthand id token (`#x`). -/
def idT (s : String) : Tok := { type := "id", val := s }

/-- Plain text token. -/
def textT (s : String) : Tok := { type := "text", val := s }

/-- Code token. -/
def codeT (s : String) : Tok := { type := "code", val := s }

/-- Indent token. -/
def indentT : Tok := { type := "indent" }

/-- Outdent token. -/
def outdentT : Tok := { type := "outdent" }

/-- Newline token. -/
def newlineT : Tok := { type := "newline" }

/-- Mixin token. -/
def mixinT (s : String) : Tok := { type := "mixin", val := s }

/-- Mixin-block token. -/
def mixinBlockT : Tok := { type := "mixin-block" }

/-- Raw-HTML text token. -/
def htmlT (s : String) : Tok := { type := "text-html", val := s }

/-- Interpolated-tag token. -/
def interpT (s : String) : Tok := { type := "interpolation", val := s }

/-- First element of a node's `nodes` array. -/
def firstNode (r : JVal) : JVal := (r.get "nodes").getArrList.headD JVal.undef

/-- Element `i` of a node's `nodes` array. -/
def nthNode (r : JVal) (i : Nat) : JVal := ((r.get "nodes").getArrList.drop i).headD .undef

mutual

/-- A value is pure JSON data: no `undefined` anywhere (and, by the type
itself, no functions and no cycles). -/
def pureJson : JVal → Bool
  | .undef => false
  | .null => true
  | .bool _ => true
  | .num _ => true
  | .str _ => true
  | .arr l => pureArr l
  | .obj f => pureObj f

/-- Purity of every array element. -/
def pureArr : JArr → Bool
  | .nil => true
  | .cons v rest => pureJson v && pureArr rest

/-- Purity of every object field. -/
def pureObj : JObj → Bool
  | .nil => true
  | .cons _ v rest => pureJson v && pureObj rest

end

/-- The singleton child list contributed by an object-valued node field
(`block`, `code`, `alternative`); non-objects (absent, or the `null`
block of a mixin call) contribute nothing. -/
def objChild : JVal → List JVal
  | .obj f => [.obj f]
  | _ => []

/-- The AST children of a node: the elements of its `nodes` array and its
`block`/`code`/`alternative` sub-nodes — exactly the places the parser
ever stores nodes inside other nodes. -/
def childNodes (v : JVal) : List JVal :=
  (v.get "nodes").getArrList ++ objChild (v.get "block") ++
    objChild (v.get "code") ++ objChild (v.get "alternative")

/-- Every node of the tree carries a string `type` field, recursively
through all node children. -/
inductive NodeTyped : JVal → Prop where
  | mk (v : JVal) (t : String) (ht : v.get "type" = .str t)
      (hc : ∀ c ∈ childNodes v, NodeTyped c) : NodeTyped v

/-- Object keys in order. -/
def keysOf : JObj → List String
  | .nil => []
  | .cons k _ rest => k :: keysOf rest

/-- No element occurs twice. -/
def dupFree : List String → Bool
  | [] => true
  | x :: xs => !xs.contains x && dupFree xs

/-- Well-formed node: an object with pairwise distinct keys (as every
JavaScript object has), a string `type` field, and well-formed node
children. This is the invariant every node the parser builds satisfies;
it is stable under the JSON round trip and implies `NodeTyped`. -/
inductive NodeWF : JVal → Prop where
  | mk (f : JObj) (t : String) (ht : JObj.get f "type" = .str t)
      (hu : dupFree (keysOf f) = true)
      (hc : ∀ c ∈ childNodes (.obj f), NodeWF c) : NodeWF (.obj f)

/-- The non-`class` attribute names registered by the tag attribute loop
for one shorthand/attrs token: `id` for a `#id` shorthand, the non-`class`
entry names of an `attrs` token, nothing for `class` shorthands and
`&attributes`. -/
def tokNames (t : Tok) : List String :=
  if t.type == "id" then ["id"]
  else if t.type == "attrs" then (t.attrs.filter (fun a => a.name != "class")).map (·.name)
  else []

/-- Cumulative registered names of a run of attribute-item tokens. -/
def tagItemNames : List Tok → List String
  | [] => []
  | t :: ts => tokNames t ++ tagItemNames ts

/-- Does registering the names of `l` in order, starting from the already
registered `names`, ever hit a name registered before it? This is "some
name appears more than once, cumulatively" as the tag loop counts it. -/
def introducesDup (names : List String) : List String → Bool
  | [] => false
  | x :: xs => names.contains x || introducesDup (names ++ [x]) xs

/-- Newline join of the values of a raw-HTML token run. -/
def joinNl : List String → String
  | [] => ""
  | [s] => s
  | s :: rest => s ++ "\n" ++ joinNl rest

/-- Repeatedly merge values into a running raw-HTML text node, as the
parseTextHtml loop does one token at a time. -/
def mergeVals (c : JVal) : List String → JVal
  | [] => c
  | v :: rest => mergeVals (mergeHtmlVal c v) rest

/-! Basic object/array lemmas. -/

theorem JObj.get_set_self : (f : JObj) → (k : String) → (v : JVal) → (f.set k v).get k = v
  | .nil, k, v => by simp [JObj.set, JObj.get]
  | .cons k' w rest, k, v => by
    by_cases h : k' == k
    · simp [JObj.set, JObj.get, h]
    · simp only [JObj.set, h, Bool.false_eq_true, if_false, JObj.get,
        JObj.get_set_self rest k v]

theorem JObj.get_set_of_ne : (f : JObj) → (k k' : String) → (v : JVal) → k ≠ k' →
    (f.set k v).get k' = f.get k'
  | .nil, k, k', v, h => by
    simp only [JObj.set, JObj.get]
    rw [if_neg]
    simp [h]
  | .cons ka w rest, k, k', v, h => by
    by_cases hk : ka == k
    · have hke : ka = k := by simpa using hk
      subst hke
      have hne : (ka == k') = false := by simp [h]
      simp only [JObj.set, hk, if_true, JObj.get, hne, Bool.false_eq_true, if_false]
    · simp only [JObj.set, hk, Bool.false_eq_true, if_false, JObj.get,
        JObj.get_set_of_ne rest k k' v h]

theorem JVal.get_set_other (v : JVal) (k k' : String) (x : JVal) (h : k ≠ k') :
    (v.set k x).get k' = v.get k' := by
  cases v <;> simp [JVal.set, JVal.get]
  exact JObj.get_set_of_ne _ _ _ _ h

theorem JVal.get_set_self_obj (f : JObj) (k : String) (x : JVal) :
    ((JVal.obj f).set k x).get k = x := by
  simp [JVal.set, JVal.get, JObj.get_set_self]

theorem JArr.append_toList : (l m : JArr) → (l.append m).toList = l.toList ++ m.toList
  | .nil, m => by simp [JArr.append, JArr.toList]
  | .cons v rest, m => by simp [JArr.append, JArr.toList, JArr.append_toList rest m]

theorem JArr.ofList_toList (l : List JVal) : (JArr.ofList l).toList = l := by
  induction l with
  | nil => simp [JArr.ofList, JArr.toList]
  | cons v rest ih => simp [JArr.ofList, JArr.toList, ih]

/-! Serialization lemmas: the JSON round trip is idempotent and produces
pure JSON data. -/

mutual

theorem stripUndef_idem : (v : JVal) → stripUndef (stripUndef v) = stripUndef v
  | .undef => rfl
  | .null => rfl
  | .bool _ => rfl
  | .num _ => rfl
  | .str _ => rfl
  | .arr l => by simp [stripUndef, stripArr_idem l]
  | .obj f => by simp [stripUndef, stripObj_idem f]

theorem stripArr_idem : (l : JArr) → stripArr (stripArr l) = stripArr l
  | .nil => rfl
  | .cons .undef rest => by simp [stripArr, stripUndef, stripArr_idem rest]
  | .cons .null rest => by simp [stripArr, stripUndef, stripArr_idem rest]
  | .cons (.bool _) rest => by simp [stripArr, stripUndef, stripArr_idem rest]
  | .cons (.num _) rest => by simp [stripArr, stripUndef, stripArr_idem rest]
  | .cons (.str _) rest => by simp [stripArr, stripUndef, stripArr_idem rest]
  | .cons (.arr l) rest => by simp [stripArr, stripUndef, stripArr_idem rest, stripArr_idem l]
  | .cons (.obj f) rest => by simp [stripArr, stripUndef, stripArr_idem rest, stripObj_idem f]

theorem stripObj_idem : (f : JObj) → stripObj (stripObj f) = stripObj f
  | .nil => rfl
  | .cons _ .undef rest => by simp [stripObj, stripObj_idem rest]
  | .cons k .null rest => by simp [stripObj, stripUndef, stripObj_idem rest]
  | .cons k (.bool _) rest => by simp [stripObj, stripUndef, stripObj_idem rest]
  | .cons k (.num _) rest => by simp [stripObj, stripUndef, stripObj_idem rest]
  | .cons k (.str _) rest => by simp [stripObj, stripUndef, stripObj_idem rest]
  | .cons k (.arr l) rest => by simp [stripObj, stripUndef, stripObj_idem rest, stripArr_idem l]
  | .cons k (.obj f) rest => by simp [stripObj, stripUndef, stripObj_idem rest, stripObj_idem f]

end

mutual

theorem pureJson_strip : (v : JVal) → v ≠ .undef → pureJson (stripUndef v) = true
  | .null, _ => rfl
  | .bool _, _ => rfl
  | .num _, _ => rfl
  | .str _, _ => rfl
  | .arr l, _ => by simp [stripUndef, pureJson, pureArr_strip l]
  | .obj f, _ => by simp [stripUndef, pureJson, pureObj_strip f]

theorem pureArr_strip : (l : JArr) → pureArr (stripArr l) = true
  | .nil => rfl
  | .cons .undef rest => by simp [stripArr, pureArr, pureJson, pureArr_strip rest]
  | .cons .null rest => by simp [stripArr, stripUndef, pureArr, pureJson, pureArr_strip rest]
  | .cons (.bool _) rest => by
    simp [stripArr, stripUndef, pureArr, pureJson, pureArr_strip rest]
  | .cons (.num _) rest => by
    simp [stripArr, stripUndef, pureArr, pureJson, pureArr_strip rest]
  | .cons (.str _) rest => by
    simp [stripArr, stripUndef, pureArr, pureJson, pureArr_strip rest]
  | .cons (.arr l) rest => by
    simp [stripArr, stripUndef, pureArr, pureJson, pureArr_strip rest, pureArr_strip l]
  | .cons (.obj f) rest => by
    simp [stripArr, stripUndef, pureArr, pureJson, pureArr_strip rest, pureObj_strip f]

theorem pureObj_strip : (f : JObj) → pureObj (stripObj f) = true
  | .nil => rfl
  | .cons _ .undef rest => by simp [stripObj, pureObj_strip rest]
  | .cons k .null rest => by simp [stripObj, stripUndef, pureObj, pureJson, pureObj_strip rest]
  | .cons k (.bool _) rest => by
    simp [stripObj, stripUndef, pureObj, pureJson, pureObj_strip rest]
  | .cons k (.num _) rest => by
    simp [stripObj, stripUndef, pureObj, pureJson, pureObj_strip rest]
  | .cons k (.str _) rest => by
    simp [stripObj, stripUndef, pureObj, pureJson, pureObj_strip rest]
  | .cons k (.arr l) rest => by
    simp [stripObj, stripUndef, pureObj, pureJson, pureObj_strip rest, pureArr_strip l]
  | .cons k (.obj f) rest => by
    simp [stripObj, stripUndef, pureObj, pureJson, pureObj_strip rest, pureObj_strip f]

end

/-- Reading a key of a stripped object when the original read is not
`undefined`: the first occurrence of the key is kept and its value
stripped. -/
theorem JObj.get_strip_of_ne : (f : JObj) → (k : String) → JObj.get f k ≠ .undef →
    JObj.get (stripObj f) k = stripUndef (JObj.get f k)
  | .nil, k, h => rfl
  | .cons k' v rest, k, h => by
    by_cases hk : k' == k
    · have hv : v ≠ .undef := by
        intro hv
        subst hv
        simp [JObj.get, hk] at h
      cases v <;> simp [stripObj, JObj.get, hk, stripUndef] at h ⊢
    · have hrest : JObj.get rest k ≠ .undef := by
        simpa [JObj.get, hk, Bool.false_eq_true] using h
      cases v <;>
        simp [stripObj, JObj.get, hk, JObj.get_strip_of_ne rest k hrest,
          Bool.false_eq_true]

theorem JVal.pushKey_get_other (o : JVal) (key k : String) (v : JVal) (h : key ≠ k) :
    (o.pushKey key v).get k = o.get k := by
  unfold JVal.pushKey
  cases o.get key <;> simp [JVal.get_set_other _ _ _ _ h]

theorem concatNodes_get_other (blk : JVal) (ns : List JVal) (k : String) (h : k ≠ "nodes") :
    (concatNodes blk ns).get k = blk.get k := by
  unfold concatNodes
  cases blk.get "nodes" <;> simp [JVal.get_set_other _ _ _ _ (Ne.symm h)]

/-- The top-level loop only ever touches the `nodes` field of the root
block. -/
theorem parseLoop_get : (fuel : Nat) → (p : Parser) → (blk b : JVal) → (p' : Parser) →
    Parser.parseLoop fuel p blk = .ok (b, p') → ∀ k, k ≠ "nodes" → b.get k = blk.get k
  | 0, p, blk, b, p', h => by simp [Parser.parseLoop] at h
  | n + 1, p, blk, b, p', h => by
    rw [Parser.parseLoop] at h
    split at h
    · injection h with h1
      injection h1 with h1 h2
      subst h1
      intro k _
      rfl
    · split at h
      · exact parseLoop_get n _ _ _ _ h
      · split at h
        · cases hx : Parser.parseTextHtml n p with
          | error e => rw [hx] at h; simp [Bind.bind, Except.bind] at h
          | ok r =>
            rw [hx] at h
            simp only [Bind.bind, Except.bind] at h
            intro k hk
            rw [parseLoop_get n _ _ _ _ h k hk]
            exact concatNodes_get_other _ _ _ hk
        · cases hx : Parser.parseExpr n p with
          | error e => rw [hx] at h; simp [Bind.bind, Except.bind] at h
          | ok r =>
            rw [hx] at h
            simp only [Bind.bind, Except.bind] at h
            intro k hk
            rw [parseLoop_get n _ _ _ _ h k hk]
            exact JVal.pushKey_get_other _ _ _ _ (Ne.symm hk)

/-- C10: for every valid token sequence, the parse returns a single root
Block node with line 0 and filename set, containing only plain
JSON-representable data (no `undefined`, and by the `JVal` type no
function values or circular references), and serializing the returned AST
and deserializing it (a second `jsonRound`) yields the AST itself. -/
theorem C10_output_contract (fuel : Nat) (ts : List Tok) (fn : String) (b : JVal)
    (h : parse fuel ts fn = .ok b) :
    b.get "type" = .str "Block" ∧ b.get "line" = .num 0 ∧ b.get "filename" = .str fn ∧
      pureJson b = true ∧ jsonRound b = b := by
  cases fuel with
  | zero => simp [parse, Parser.parse] at h
  | succ n =>
    unfold parse at h
    cases hp : Parser.parse (n + 1) { tokens := ts, filename := fn } with
    | error e => rw [hp] at h; simp at h
    | ok r =>
      rw [hp] at h
      obtain ⟨a, p2⟩ := r
      have hb : jsonRound a = b := by injection h
      simp only [Parser.parse] at hp
      have h1 : a.get "type" = .str "Block" :=
        (parseLoop_get n _ _ _ _ hp "type" (by decide)).trans (by rfl)
      have h2 : a.get "line" = .num 0 :=
        (parseLoop_get n _ _ _ _ hp "line" (by decide)).trans (by rfl)
      have h3 : a.get "filename" = .str fn :=
        (parseLoop_get n _ _ _ _ hp "filename" (by decide)).trans (by rfl)
      subst hb
      cases a with
      | obj f =>
        simp only [JVal.get] at h1 h2 h3
        refine ⟨?_, ?_, ?_, ?_, ?_⟩
        · show (stripUndef (.obj f)).get "type" = _
          simp only [stripUndef, JVal.get]
          rw [JObj.get_strip_of_ne f "type" (by rw [h1]; intro hx; cases hx), h1]
          rfl
        · show (stripUndef (.obj f)).get "line" = _
          simp only [stripUndef, JVal.get]
          rw [JObj.get_strip_of_ne f "line" (by rw [h2]; intro hx; cases hx), h2]
          rfl
        · show (stripUndef (.obj f)).get "filename" = _
          simp only [stripUndef, JVal.get]
          rw [JObj.get_strip_of_ne f "filename" (by rw [h3]; intro hx; cases hx), h3]
          rfl
        · exact pureJson_strip _ (by intro hx; cases hx)
        · exact stripUndef_idem _
      | undef => simp [JVal.get] at h1
      | null => simp [JVal.get] at h1
      | bool b' => simp [JVal.get] at h1
      | num n' => simp [JVal.get] at h1
      | str s' => simp [JVal.get] at h1
      | arr l => simp [JVal.get] at h1

/-- Witness for C10 at the one-token stream `[eos]`. -/
theorem C10_output_contract_witness :
    (JVal.obj (.cons "type" (.str "Block") (.cons "nodes" (.arr .nil)
        (.cons "line" (.num 0) (.cons "filename" (.str "f") .nil))))).get "type" =
        .str "Block" ∧
      (JVal.obj (.cons "type" (.str "Block") (.cons "nodes" (.arr .nil)
        (.cons "line" (.num 0) (.cons "filename" (.str "f") .nil))))).get "line" = .num 0 ∧
      (JVal.obj (.cons "type" (.str "Block") (.cons "nodes" (.arr .nil)
        (.cons "line" (.num 0) (.cons "filename" (.str "f") .nil))))).get "filename" =
        .str "f" ∧
      pureJson (JVal.obj (.cons "type" (.str "Block") (.cons "nodes" (.arr .nil)
        (.cons "line" (.num 0) (.cons "filename" (.str "f") .nil))))) = true ∧
      jsonRound (JVal.obj (.cons "type" (.str "Block") (.cons "nodes" (.arr .nil)
        (.cons "line" (.num 0) (.cons "filename" (.str "f") .nil))))) =
        JVal.obj (.cons "type" (.str "Block") (.cons "nodes" (.arr .nil)
        (.cons "line" (.num 0) (.cons "filename" (.str "f") .nil)))) :=
  C10_output_contract 5 [eosTok] "f" _ (by rfl)

/-! Cursor lemmas. -/

theorem Parser.advance_inMixin (p : Parser) : p.advance.2.inMixin = p.inMixin := by
  unfold Parser.advance
  cases p.tokens <;> rfl

theorem Parser.advance_filename (p : Parser) : p.advance.2.filename = p.filename := by
  unfold Parser.advance
  cases p.tokens <;> rfl

theorem Parser.expect_ok (p : Parser) (ty : String) (h : p.peek.type = ty) :
    p.expect ty = .ok p.advance := by
  simp [Parser.expect, h]

theorem Parser.advance_cons (p : Parser) (tok : Tok) (rest : List Tok)
    (h : p.tokens = tok :: rest) :
    p.advance = (tok, { p with tokens := rest, lineno := tok.line }) := by
  simp [Parser.advance, h]

/-- C4: a `mixin-block` token with the inside-mixin flag unset raises the
AnonymousBlockOutsideMixin error, and with the flag set produces a
`MixinBlock` placeholder; concretely, `[mixin-block]` at top level fails
and `[mixin 'm', indent, mixin-block, outdent]` succeeds with a
`MixinBlock` node inside the mixin's block. -/
theorem C4_mixin_block_scope :
    (∀ p : Parser, p.peek.type = "mixin-block" →
      (p.inMixin = false → Parser.parseMixinBlock p =
        .error "Anonymous blocks are not allowed unless they are part of a mixin.") ∧
      (p.inMixin = true → Parser.parseMixinBlock p =
        .ok (mkObj [("type", .str "MixinBlock")], p.advance.2))) ∧
    parse 20 [mixinBlockT, eosTok] "f" =
      .error "Anonymous blocks are not allowed unless they are part of a mixin." ∧
    (parse 20 [mixinT "m", indentT, mixinBlockT, outdentT, eosTok] "f").map
      (fun r => (firstNode ((firstNode r).get "block")).get "type") =
      .ok (.str "MixinBlock") := by
  refine ⟨?_, by rfl, by rfl⟩
  intro p h
  constructor
  · intro hm
    simp [Parser.parseMixinBlock, Parser.expect_ok p _ h, Bind.bind, Except.bind,
      Parser.advance_inMixin, hm]
  · intro hm
    simp [Parser.parseMixinBlock, Parser.expect_ok p _ h, Bind.bind, Except.bind,
      Parser.advance_inMixin, hm]

/-- Witness for C4 at a state whose next token is `mixin-block` with the
flag set. -/
theorem C4_mixin_block_scope_witness :
    ((({ tokens := [mixinBlockT], filename := "f", inMixin := true } : Parser).inMixin = false →
      Parser.parseMixinBlock { tokens := [mixinBlockT], filename := "f", inMixin := true } =
        .error "Anonymous blocks are not allowed unless they are part of a mixin.") ∧
     (({ tokens := [mixinBlockT], filename := "f", inMixin := true } : Parser).inMixin = true →
      Parser.parseMixinBlock { tokens := [mixinBlockT], filename := "f", inMixin := true } =
        .ok (mkObj [("type", .str "MixinBlock")],
          ({ tokens := [mixinBlockT], filename := "f", inMixin := true } : Parser).advance.2))) :=
  C4_mixin_block_scope.1 _ (by rfl)

/-- C6 counterexample: on the stream `[text 'a', text 'b']`,
`lookahead 1` is the second token, not the `peek`ed first one, so the
claim `lookahead(1) = peek()` fails. -/
theorem C6_counterexample :
    Parser.lookahead { tokens := [textT "a", textT "b"], filename := "f" } 1 ≠
      Parser.peek { tokens := [textT "a", textT "b"], filename := "f" } := by
  intro h
  simpa [Parser.lookahead, Parser.peek, textT] using congrArg Tok.val h

/-- C6 (amended): the cursor's lookahead is 0-indexed: `lookahead 0`
returns exactly the `peek`ed token (consuming nothing — it does not touch
the state), and `lookahead (n+1)` is `lookahead n` after one `advance`,
so `lookahead 1` is the token after the next one. -/
theorem C6_lookahead_zero_indexed (p : Parser) (n : Nat) :
    Parser.lookahead p 0 = Parser.peek p ∧
      Parser.lookahead p (n + 1) = Parser.lookahead p.advance.2 n := by
  obtain ⟨ts, fn, im, ln⟩ := p
  cases ts with
  | nil => exact ⟨rfl, by simp [Parser.lookahead, Parser.advance, List.drop_nil]⟩
  | cons t ts => exact ⟨rfl, rfl⟩

/-! parseCode lemmas. -/

theorem parseCode_else_error (n : Nat) (p : Parser) (tok : Tok) (rest : List Tok)
    (hts : p.tokens = tok :: rest) (hty : tok.type = "code")
    (hEl : tok.isElse = true) (hh : tok.hasIf = false) :
    Parser.parseCode (n + 1) p = .error "Unexpected else without if" := by
  have hpeek : p.peek = tok := by simp [Parser.peek, hts]
  rw [Parser.parseCode]
  rw [Parser.expect_ok p _ (by rw [hpeek, hty]), Parser.advance_cons p tok rest hts]
  simp [Bind.bind, Except.bind, hEl, hh]

/-- Every successful parseCode run consumed a `code` token that was not an
unlinked `else`, and its final state is the if/else patch applied to the
state after the optional block. -/
theorem parseCode_ok_shape (n : Nat) (p : Parser) (tok : Tok) (rest : List Tok)
    (v : JVal) (p' : Parser) (hts : p.tokens = tok :: rest)
    (h : Parser.parseCode n p = .ok (v, p')) :
    tok.type = "code" ∧ ¬(tok.isElse = true ∧ tok.hasIf = false) ∧
      ∃ p2 : Parser, p' = Parser.applyIfPatch tok p2 := by
  cases n with
  | zero => simp [Parser.parseCode] at h
  | succ n =>
    have hpeek : p.peek = tok := by simp [Parser.peek, hts]
    rw [Parser.parseCode] at h
    by_cases hty : tok.type = "code"
    · rw [Parser.expect_ok p _ (by rw [hpeek, hty]), Parser.advance_cons p tok rest hts] at h
      simp only [Bind.bind, Except.bind] at h
      refine ⟨hty, ?_, ?_⟩
      · intro ⟨hEl, hh⟩
        rw [hEl, hh] at h
        simp at h
      · cases hc : (tok.isElse && !tok.hasIf) with
        | true => rw [hc] at h; simp at h
        | false =>
          rw [hc] at h
          simp only [Bool.false_eq_true, if_false] at h
          by_cases hblk :
              ({ p with tokens := rest, lineno := tok.line } : Parser).peek.type == "indent"
          · rw [if_pos hblk] at h
            simp only [hblk, if_true, Bind.bind, Except.bind] at h
            cases hb : Parser.block n { p with tokens := rest, lineno := tok.line } with
            | error e => rw [hb] at h; simp at h
            | ok r =>
              rw [hb] at h
              simp only [Except.bind, pure, Except.pure] at h
              refine ⟨r.2, ?_⟩
              injection h with h1
              injection h1 with h1 h2
              exact h2.symm
          · rw [if_neg hblk] at h
            simp only [hblk, Bool.false_eq_true, if_false, Bind.bind, Except.bind,
              pure, Except.pure] at h
            refine ⟨{ p with tokens := rest, lineno := tok.line }, ?_⟩
            injection h with h1
            injection h1 with h1 h2
            exact h2.symm
    · have : (p.peek.type == "code") = false := by
        rw [hpeek]
        simp [hty]
      simp [Parser.expect, this, Bind.bind, Except.bind] at h

/-- After the if/else patch runs for an `isIf` token, the next token, or
the token after a leading `newline`, carries `hasIf` whenever it is
flagged `isElse`. -/
theorem applyIfPatch_spec (tok : Tok) (p : Parser) (hIf : tok.isIf = true) :
    ((Parser.applyIfPatch tok p).peek.isElse = true →
      (Parser.applyIfPatch tok p).peek.hasIf = true) ∧
    ((Parser.applyIfPatch tok p).peek.isElse = false →
      (Parser.applyIfPatch tok p).peek.type = "newline" →
      ((Parser.applyIfPatch tok p).lookahead 1).isElse = true →
      ((Parser.applyIfPatch tok p).lookahead 1).hasIf = true) := by
  obtain ⟨ts, fn, im, ln⟩ := p
  match ts with
  | [] =>
    simp [Parser.applyIfPatch, Parser.peek, Parser.lookahead, eosTok]
  | [t1] =>
    by_cases h1 : t1.isElse
    · simp [Parser.applyIfPatch, Parser.peek, Parser.lookahead, hIf, h1, setHasIf]
    · simp [Parser.applyIfPatch, Parser.peek, Parser.lookahead, hIf, h1, setHasIf, eosTok]
  | t1 :: t2 :: ts =>
    by_cases h1 : t1.isElse
    · simp [Parser.applyIfPatch, Parser.peek, Parser.lookahead, hIf, h1, setHasIf]
    · by_cases hn : t1.type = "newline"
      · by_cases h2 : t2.isElse
        · simp [Parser.applyIfPatch, Parser.peek, Parser.lookahead, hIf, h1, hn, h2, setHasIf]
        · simp [Parser.applyIfPatch, Parser.peek, Parser.lookahead, hIf, h1, hn, h2, setHasIf]
      · simp [Parser.applyIfPatch, Parser.peek, Parser.lookahead, hIf, h1, hn, setHasIf]

/-- C2: after parseCode consumes an `isIf` code token, whenever the next
unconsumed token is flagged `isElse` — or the next is a `newline` and the
one after it is flagged `isElse` — that token carries `hasIf` in the
resulting stream before it is ever parsed; and the spec's example stream
`[code('if x', isIf), indent, code('y'), outdent, code('else', isElse)]`
parses into exactly two `Code` nodes with no block on the second. -/
theorem C2_if_else_linking :
    (∀ (fuel : Nat) (p : Parser) (tok : Tok) (rest : List Tok) (v : JVal) (p' : Parser),
      p.tokens = tok :: rest → tok.isIf = true →
      Parser.parseCode fuel p = .ok (v, p') →
      ((p'.peek.isElse = true → p'.peek.hasIf = true) ∧
       (p'.peek.isElse = false → p'.peek.type = "newline" →
        (p'.lookahead 1).isElse = true → (p'.lookahead 1).hasIf = true))) ∧
    (parse 30 [{ codeT "if x" with isIf := true }, indentT, codeT "y", outdentT,
        { codeT "else" with isElse := true }, eosTok] "f").map
      (fun r => ((r.get "nodes").getArrLen, (nthNode r 0).get "type",
        (nthNode r 1).get "type", (nthNode r 1).get "block")) =
      .ok (2, .str "Code", .str "Code", .undef) := by
  refine ⟨?_, by rfl⟩
  intro fuel p tok rest v p' hts hIf h
  obtain ⟨-, -, p2, hp2⟩ := parseCode_ok_shape fuel p tok rest v p' hts h
  subst hp2
  exact applyIfPatch_spec tok p2 hIf

/-- Witness for C2 at the stream `[code('if x', isIf), code('else', isElse)]`,
on which parseCode succeeds and patches `hasIf` onto the `else` token. -/
theorem C2_if_else_linking_witness :
    ((({ tokens := [{ codeT "else" with isElse := true, hasIf := true }], filename := "f",
          inMixin := false, lineno := 0 } : Parser).peek.isElse = true →
      ({ tokens := [{ codeT "else" with isElse := true, hasIf := true }], filename := "f",
          inMixin := false, lineno := 0 } : Parser).peek.hasIf = true) ∧
     (({ tokens := [{ codeT "else" with isElse := true, hasIf := true }], filename := "f",
          inMixin := false, lineno := 0 } : Parser).peek.isElse = false →
      ({ tokens := [{ codeT "else" with isElse := true, hasIf := true }], filename := "f",
          inMixin := false, lineno := 0 } : Parser).peek.type = "newline" →
      (({ tokens := [{ codeT "else" with isElse := true, hasIf := true }], filename := "f",
          inMixin := false, lineno := 0 } : Parser).lookahead 1).isElse = true →
      (({ tokens := [{ codeT "else" with isElse := true, hasIf := true }], filename := "f",
          inMixin := false, lineno := 0 } : Parser).lookahead 1).hasIf = true)) :=
  C2_if_else_linking.1 10
    { tokens := [{ codeT "if x" with isIf := true }, { codeT "else" with isElse := true }],
      filename := "f" }
    { codeT "if x" with isIf := true } [{ codeT "else" with isElse := true }]
    (mkObj [("type", .str "Code"), ("val", .str "if x"), ("buffer", .bool false),
      ("escape", .bool false), ("line", .num 0)])
    { tokens := [{ codeT "else" with isElse := true, hasIf := true }], filename := "f",
      inMixin := false, lineno := 0 }
    (by rfl) (by rfl) (by rfl)

/-- C7: parseCode raises the ElseWithoutIf error exactly when the consumed
`code` token is flagged `isElse` without `hasIf`: such a token makes it
fail with that error before any node is built, a successful run never
consumed such a token, and the one-token stream `[code('else', isElse)]`
fails with it. -/
theorem C7_else_needs_if :
    (∀ (fuel : Nat) (p : Parser) (tok : Tok) (rest : List Tok),
      p.tokens = tok :: rest → tok.type = "code" → tok.isElse = true → tok.hasIf = false →
      Parser.parseCode (fuel + 1) p = .error "Unexpected else without if") ∧
    (∀ (fuel : Nat) (p : Parser) (tok : Tok) (rest : List Tok) (v : JVal) (p' : Parser),
      p.tokens = tok :: rest → Parser.parseCode fuel p = .ok (v, p') →
      ¬(tok.isElse = true ∧ tok.hasIf = false)) ∧
    parse 20 [{ codeT "else" with isElse := true }, eosTok] "f" =
      .error "Unexpected else without if" := by
  refine ⟨parseCode_else_error, ?_, by rfl⟩
  intro fuel p tok rest v p' hts h
  exact (parseCode_ok_shape fuel p tok rest v p' hts h).2.1

/-- Witness for C7 at the one-token stream `[code('else', isElse)]`. -/
theorem C7_else_needs_if_witness :
    Parser.parseCode (5 + 1)
      { tokens := [{ codeT "else" with isElse := true }], filename := "f" } =
      .error "Unexpected else without if" :=
  C7_else_needs_if.1 5 { tokens := [{ codeT "else" with isElse := true }], filename := "f" }
    { codeT "else" with isElse := true } [] (by rfl) (by rfl) (by rfl) (by rfl)

/-- A successful mixin-definition parse (`indent` follows the `mixin`
token) ends with the shared `inMixin` flag cleared, whatever it was on
entry and whatever the body did. -/
theorem parseMixin_clears (n : Nat) (p : Parser) (v : JVal) (p' : Parser)
    (hind : p.advance.2.peek.type = "indent")
    (h : Parser.parseMixin n p = .ok (v, p')) : p'.inMixin = false := by
  cases n with
  | zero => simp [Parser.parseMixin] at h
  | succ n =>
    rw [Parser.parseMixin] at h
    cases he : p.expect "mixin" with
    | error e => rw [he] at h; simp [Bind.bind, Except.bind] at h
    | ok r =>
      rw [he] at h
      simp only [Bind.bind, Except.bind] at h
      have hr : r = p.advance := by
        unfold Parser.expect at he
        split at he
        · injection he with he; exact he.symm
        · cases he
      subst hr
      rw [hind] at h
      simp only [beq_self_eq_true, if_true] at h
      cases hb : Parser.block n { p.advance.2 with inMixin := true } with
      | error e => rw [hb] at h; simp [Bind.bind, Except.bind] at h
      | ok rb =>
        rw [hb] at h
        simp only [Except.bind] at h
        injection h with h1
        injection h1 with h1 h2
        rw [← h2]

/-- C5: the inside-mixin scope is one shared boolean, cleared
unconditionally when a mixin definition finishes, so after a nested mixin
definition completes, a `mixin-block` later in the outer mixin body hits
AnonymousBlockOutsideMixin. -/
theorem C5_process_wide_mixin_flag :
    (∀ (fuel : Nat) (p : Parser) (v : JVal) (p' : Parser),
      p.advance.2.peek.type = "indent" →
      Parser.parseMixin fuel p = .ok (v, p') → p'.inMixin = false) ∧
    parse 40 [mixinT "o", indentT, mixinBlockT, mixinT "i", indentT, textT "hi",
        outdentT, mixinBlockT, outdentT, eosTok] "f" =
      .error "Anonymous blocks are not allowed unless they are part of a mixin." :=
  ⟨parseMixin_clears, by rfl⟩

/-- Witness for C5: a mixin definition parsed while the flag is already
set still leaves it cleared. -/
theorem C5_process_wide_mixin_flag_witness :
    ({ tokens := ([] : List Tok), filename := "f", inMixin := false,
        lineno := 0 } : Parser).inMixin = false :=
  C5_process_wide_mixin_flag.1 20
    { tokens := [mixinT "m", indentT, mixinBlockT, outdentT], filename := "f", inMixin := true }
    (mkObj [("type", .str "Mixin"), ("name", .str "m"), ("args", .null),
      ("block", mkObj [("type", .str "Block"),
        ("nodes", mkArr [mkObj [("type", .str "MixinBlock"), ("filename", .str "f")]]),
        ("line", .num 0), ("filename", .str "f")]),
      ("call", .bool false)])
    { tokens := [], filename := "f", inMixin := false, lineno := 0 }
    (by rfl) (by rfl)

/-- C9 counterexample: `'a'` is in the inline-tags table, yet the Tag node
built from an interpolated-tag token named `'a'` has `isInline = false`,
contradicting the claim that `isInline` is computed from the table for
interpolated tags as well. -/
theorem C9_counterexample :
    inlineTags.contains "a" = true ∧
      (parse 20 [interpT "a", eosTok] "f").map (fun r => (firstNode r).get "isInline") =
        .ok (.bool false) ∧
      (JVal.bool false) ≠ .bool (inlineTags.contains "a") := by
  refine ⟨rfl, rfl, ?_⟩
  intro h
  injection h with h1
  cases h1

/-- C9 (amended): for plain `tag` tokens the Tag node's `isInline` is
membership of the name in the static inline-element table, but for
interpolated-tag tokens `isInline` is always `false`, whatever the
name. -/
theorem C9_is_inline (name : String) :
    (parse 20 [tagT name, eosTok] "fn").map (fun r => (firstNode r).get "isInline") =
      .ok (.bool (inlineTags.contains name)) ∧
    (parse 20 [interpT name, eosTok] "fn").map (fun r => (firstNode r).get "isInline") =
      .ok (.bool false) :=
  ⟨rfl, rfl⟩

/-- C3 counterexample: in `[tag 'div', text 'a']` the inline-text `Text`
node inside the tag's block carries a `type` but neither `line` nor
`filename`, so not every node carries all three fields. -/
theorem C3_counterexample :
    (parse 20 [tagT "div", textT "a", eosTok] "f").map
      (fun r => ((firstNode ((firstNode r).get "block")).get "type",
        (firstNode ((firstNode r).get "block")).get "line",
        (firstNode ((firstNode r).get "block")).get "filename")) =
      .ok (.str "Text", .undef, .undef) := rfl

/-! Raw-HTML merge lemmas. -/

theorem joinNl_cons_cons (a b : String) (l : List String) :
    joinNl (a :: b :: l) = a ++ "\n" ++ joinNl (b :: l) := rfl

theorem joinNl_glue (s v : String) (l : List String) :
    joinNl ((s ++ "\n" ++ v) :: l) = s ++ "\n" ++ joinNl (v :: l) := by
  cases l with
  | nil => rfl
  | cons r rs =>
    rw [joinNl_cons_cons, joinNl_cons_cons]
    simp [String.append_assoc]

theorem mergeVals_textNode (s fn : String) (ln : Nat) (l : List String) :
    mergeVals (mkObj [("type", .str "Text"), ("val", .str s), ("filename", .str fn),
      ("line", .num ln), ("isHtml", .bool true)]) l =
    mkObj [("type", .str "Text"), ("val", .str (joinNl (s :: l))), ("filename", .str fn),
      ("line", .num ln), ("isHtml", .bool true)] := by
  induction l generalizing s with
  | nil => rfl
  | cons v rest ih =>
    show mergeVals (mergeHtmlVal _ v) rest = _
    have hm : mergeHtmlVal (mkObj [("type", .str "Text"), ("val", .str s),
        ("filename", .str fn), ("line", .num ln), ("isHtml", .bool true)]) v =
        mkObj [("type", .str "Text"), ("val", .str (s ++ "\n" ++ v)),
          ("filename", .str fn), ("line", .num ln), ("isHtml", .bool true)] := rfl
    rw [hm, ih, joinNl_glue, joinNl_cons_cons]

/-- Running the parseTextHtml loop over a run of `text-html` tokens that
is followed by a stopper (not `text-html`, `indent` or `newline`) merges
every value into the running text node, in order. -/
theorem textHtmlLoop_run (vs : List Tok) (rest : List Tok) (fuel : Nat) (p : Parser)
    (acc : List JVal) (c : JVal)
    (hvs : ∀ t ∈ vs, t.type = "text-html") (hts : p.tokens = vs ++ rest)
    (h1 : (rest.headD eosTok).type ≠ "text-html")
    (h2 : (rest.headD eosTok).type ≠ "indent")
    (h3 : (rest.headD eosTok).type ≠ "newline")
    (hfuel : vs.length < fuel) :
    ∃ ln, Parser.textHtmlLoop fuel p acc (some c) =
      .ok (acc ++ [mergeVals c (vs.map (·.val))], { p with tokens := rest, lineno := ln }) := by
  induction vs generalizing fuel p acc c with
  | nil =>
    cases fuel with
    | zero => omega
    | succ n =>
      refine ⟨p.lineno, ?_⟩
      rw [Parser.textHtmlLoop]
      have hpeek : p.peek = rest.headD eosTok := by
        simp [Parser.peek, hts]
      rw [if_neg (by rw [hpeek]; simpa using h1)]
      simp only [mergeVals, flushCur]
      obtain ⟨ts, fn, im, ln⟩ := p
      simp only at hts
      subst hts
      rfl
  | cons v vs ih =>
    cases fuel with
    | zero => simp at hfuel
    | succ n =>
      have hv : v.type = "text-html" := hvs v (by simp)
      have hpeek : p.peek = v := by simp [Parser.peek, hts]
      have hadv : p.advance = (v, { p with tokens := vs ++ rest, lineno := v.line }) :=
        Parser.advance_cons p v (vs ++ rest) hts
      have hnext1 : (((vs ++ rest).headD eosTok).type == "indent") = false := by
        cases vs with
        | nil =>
          simp only [List.nil_append]
          simpa using h2
        | cons v2 vs2 =>
          have hv2 : v2.type = "text-html" := hvs v2 (by simp)
          simp [hv2]
      have hnext2 : (((vs ++ rest).headD eosTok).type == "newline") = false := by
        cases vs with
        | nil =>
          simp only [List.nil_append]
          simpa using h3
        | cons v2 vs2 =>
          have hv2 : v2.type = "text-html" := hvs v2 (by simp)
          simp [hv2]
      rw [Parser.textHtmlLoop, if_pos (by rw [hpeek, hv]; rfl), hadv]
      dsimp only [Parser.peek]
      rw [if_neg (by simp at hnext1 ⊢; exact hnext1), if_neg (by simp at hnext2 ⊢; exact hnext2)]
      obtain ⟨ln2, hrun⟩ := ih n { p with tokens := vs ++ rest, lineno := v.line } acc
        (mergeHtmlVal c v.val) (fun t ht => hvs t (List.mem_cons_of_mem v ht)) rfl
        (by simp at hfuel; omega)
      exact ⟨ln2, hrun⟩

/-- C8: a run of consecutive `text-html` tokens is coalesced into a single
`Text` node marked `isHtml` whose value newline-joins their values; in
particular `[text-html 'a', text-html 'b', newline]` yields exactly one
`Text` node with value `"a\nb"`. -/
theorem C8_text_html_merge :
    (∀ (v : Tok) (vs : List Tok) (rest : List Tok) (fuel : Nat) (p : Parser),
      v.type = "text-html" → (∀ t ∈ vs, t.type = "text-html") →
      p.tokens = v :: vs ++ rest →
      (rest.headD eosTok).type ≠ "text-html" →
      (rest.headD eosTok).type ≠ "indent" →
      (rest.headD eosTok).type ≠ "newline" →
      vs.length + 2 < fuel →
      ∃ p', Parser.parseTextHtml fuel p =
        .ok ([mkObj [("type", .str "Text"),
          ("val", .str (joinNl (v.val :: vs.map (·.val)))), ("filename", .str p.filename),
          ("line", .num v.line), ("isHtml", .bool true)]], p') ∧ p'.tokens = rest) ∧
    (parse 30 [htmlT "a", htmlT "b", newlineT, eosTok] "f").map
      (fun r => ((r.get "nodes").getArrLen, (firstNode r).get "type",
        (firstNode r).get "val", (firstNode r).get "isHtml")) =
      .ok (1, .str "Text", .str "a\nb", .bool true) := by
  refine ⟨?_, by rfl⟩
  intro v vs rest fuel p hv hvs hts h1 h2 h3 hfuel
  obtain ⟨m, rfl⟩ : ∃ m, fuel = m + 2 := ⟨fuel - 2, by omega⟩
  have hpeek : p.peek = v := by simp [Parser.peek, hts]
  have hadv : p.advance = (v, { p with tokens := vs ++ rest, lineno := v.line }) :=
    Parser.advance_cons p v (vs ++ rest) hts
  have hnext1 : (((vs ++ rest).headD eosTok).type == "indent") = false := by
    cases vs with
    | nil =>
      simp only [List.nil_append]
      simpa using h2
    | cons v2 vs2 =>
      have hv2 : v2.type = "text-html" := hvs v2 (by simp)
      simp [hv2]
  have hnext2 : (((vs ++ rest).headD eosTok).type == "newline") = false := by
    cases vs with
    | nil =>
      simp only [List.nil_append]
      simpa using h3
    | cons v2 vs2 =>
      have hv2 : v2.type = "text-html" := hvs v2 (by simp)
      simp [hv2]
  rw [Parser.parseTextHtml, Parser.textHtmlLoop, if_pos (by rw [hpeek, hv]; rfl), hadv]
  dsimp only [Parser.peek]
  rw [if_neg (by simp at hnext1 ⊢; exact hnext1), if_neg (by simp at hnext2 ⊢; exact hnext2)]
  obtain ⟨ln2, hrun⟩ := textHtmlLoop_run vs rest m
    { p with tokens := vs ++ rest, lineno := v.line } []
    (mkObj [("type", .str "Text"), ("val", .str v.val), ("filename", .str p.filename),
      ("line", .num v.line), ("isHtml", .bool true)])
    hvs rfl h1 h2 h3 (by omega)
  refine ⟨{ p with tokens := rest, lineno := ln2 }, ?_, rfl⟩
  rw [hrun, mergeVals_textNode]
  rfl

/-- Witness for C8 at the run `[text-html 'x', text-html 'y']` followed by
`eos`. -/
theorem C8_text_html_merge_witness :
    ∃ p', Parser.parseTextHtml 10
        { tokens := [htmlT "x", htmlT "y", eosTok], filename := "f" } =
      .ok ([mkObj [("type", .str "Text"),
        ("val", .str (joinNl (((htmlT "x").val :: [htmlT "y"].map (·.val))))),
        ("filename",
          .str ({ tokens := [htmlT "x", htmlT "y", eosTok], filename := "f" } : Parser).filename),
        ("line", .num (htmlT "x").line), ("isHtml", .bool true)]], p') ∧
      p'.tokens = [eosTok] :=
  C8_text_html_merge.1 (htmlT "x") [htmlT "y"] [eosTok] 10
    { tokens := [htmlT "x", htmlT "y", eosTok], filename := "f" }
    (by rfl) (by intro t ht; simp at ht; rw [ht]; rfl) (by rfl)
    (by decide) (by decide) (by decide) (by simp)

/-! Attribute-dedup lemmas. -/

theorem introducesDup_append (names l1 l2 : List String) :
    introducesDup names (l1 ++ l2) =
      (introducesDup names l1 || introducesDup (names ++ l1) l2) := by
  induction l1 generalizing names with
  | nil => simp [introducesDup]
  | cons x xs ih =>
    show (names.contains x || introducesDup (names ++ [x]) (xs ++ l2)) = _
    rw [ih (names ++ [x])]
    simp [introducesDup, List.append_assoc, Bool.or_assoc]

/-- The inner attrs-entry loop: it fails with a duplicate-attribute error
when the non-`class` entry names introduce a duplicate over the already
registered names, and otherwise registers them in order. -/
theorem attrEntries_run (al : List Attr) (tg : JVal) (names : List String) :
    (introducesDup names ((al.filter (fun a => a.name != "class")).map (·.name)) = true →
      ∃ nm, attrEntries al tg names = .error (dupMsg nm)) ∧
    (introducesDup names ((al.filter (fun a => a.name != "class")).map (·.name)) = false →
      ∃ tg', attrEntries al tg names =
        .ok (tg', names ++ (al.filter (fun a => a.name != "class")).map (·.name))) := by
  induction al generalizing tg names with
  | nil => exact ⟨by simp [introducesDup], fun _ => ⟨tg, by simp [attrEntries]⟩⟩
  | cons a rest ih =>
    by_cases hc : a.name = "class"
    · have hbne : (a.name != "class") = false := by simp [hc]
      rw [List.filter_cons, hbne]
      simp only [Bool.false_eq_true, if_false]
      constructor
      · intro hdup
        rw [attrEntries, if_neg (by simp [hbne]), hbne]
        simp only [Bool.false_eq_true, if_false]
        exact (ih _ names).1 hdup
      · intro hok
        rw [attrEntries, if_neg (by simp [hbne]), hbne]
        simp only [Bool.false_eq_true, if_false]
        exact (ih _ names).2 hok
    · have hbne : (a.name != "class") = true := by simp [hc]
      rw [List.filter_cons, hbne]
      simp only [if_true, List.map_cons]
      have hstep : introducesDup names
          (a.name :: (rest.filter (fun a => a.name != "class")).map (·.name)) =
          (names.contains a.name || introducesDup (names ++ [a.name])
            ((rest.filter (fun a => a.name != "class")).map (·.name))) := rfl
      rw [hstep]
      cases hmem : names.contains a.name with
      | true =>
        constructor
        · intro _
          exact ⟨a.name, by rw [attrEntries, if_pos (by rw [hbne, hmem]; rfl)]⟩
        · intro hok
          simp at hok
      | false =>
        simp only [Bool.false_or]
        constructor
        · intro hdup
          rw [attrEntries, if_neg (by rw [hbne, hmem]; simp), hbne]
          simp only [if_true]
          exact (ih _ (names ++ [a.name])).1 hdup
        · intro hok
          rw [attrEntries, if_neg (by rw [hbne, hmem]; simp), hbne]
          simp only [if_true]
          obtain ⟨tg', htg'⟩ := (ih _ (names ++ [a.name])).2 hok
          exact ⟨tg', by rw [htg']; simp⟩

/-- The tag attribute loop fails with a duplicate-attribute error whenever
the names its attribute-item tokens register (shorthand `id`s and
non-`class` attrs entries, cumulatively in order) introduce a
duplicate. -/
theorem tagAttrs_dup (items : List Tok) : ∀ (rest : List Tok) (fuel : Nat) (p : Parser)
    (tg : JVal) (seen : Bool) (names : List String),
    (∀ t ∈ items, t.type = "id" ∨ t.type = "class" ∨ t.type = "attrs" ∨
      t.type = "&attributes") →
    p.tokens = items ++ rest →
    introducesDup names (tagItemNames items) = true →
    items.length < fuel →
    ∃ nm, Parser.tagAttrs fuel p tg seen names = .error (dupMsg nm) := by
  induction items with
  | nil =>
    intro rest fuel p tg seen names hitems hts hdup hfuel
    simp [tagItemNames, introducesDup] at hdup
  | cons t ts ih =>
    intro rest fuel p tg seen names hitems hts hdup hfuel
    cases fuel with
    | zero => simp at hfuel
    | succ n =>
      have hpeek : p.peek = t := by simp [Parser.peek, hts]
      have hadv : p.advance = (t, { p with tokens := ts ++ rest, lineno := t.line }) :=
        Parser.advance_cons p t (ts ++ rest) hts
      have hfuel' : ts.length < n := by simp at hfuel; omega
      have hsplit : introducesDup names (tagItemNames (t :: ts)) =
          (introducesDup names (tokNames t) ||
            introducesDup (names ++ tokNames t) (tagItemNames ts)) :=
        introducesDup_append names (tokNames t) (tagItemNames ts)
      rcases hitems t (by simp) with hty | hty | hty | hty
      · have htn : tokNames t = ["id"] := by simp [tokNames, hty]
        rw [Parser.tagAttrs, if_pos (by rw [hpeek, hty]; rfl), hadv]
        dsimp only
        cases hmem : names.contains "id" with
        | true =>
          refine ⟨"id", ?_⟩
          rw [if_pos (by rw [hty]; decide)]
        | false =>
          rw [if_neg (by rw [hty]; decide)]
          rw [show (t.type == "id") = true from by rw [hty]; rfl]
          simp only [if_true]
          refine ih rest n _ _ seen (names ++ ["id"])
            (fun x hx => hitems x (by simp [hx])) rfl ?_ hfuel'
          rw [hsplit, htn] at hdup
          rw [show introducesDup names ["id"] = (names.contains "id" || false) from rfl,
            hmem] at hdup
          simpa using hdup
      · have htn : tokNames t = [] := by simp [tokNames, hty]
        rw [Parser.tagAttrs, if_pos (by rw [hpeek, hty]; rfl), hadv]
        dsimp only
        rw [if_neg (by rw [hty]; simp)]
        rw [show (t.type == "id") = false from by rw [hty]; rfl]
        simp only [Bool.false_eq_true, if_false]
        refine ih rest n _ _ seen names
          (fun x hx => hitems x (by simp [hx])) rfl ?_ hfuel'
        rw [hsplit, htn] at hdup
        simpa [introducesDup] using hdup
      · have htn : tokNames t =
            (t.attrs.filter (fun a => a.name != "class")).map (·.name) := by
          simp [tokNames, hty]
        rw [Parser.tagAttrs, if_neg (by rw [hpeek, hty]; decide),
          if_pos (by rw [hpeek, hty]; rfl), hadv]
        dsimp only
        rw [hsplit, htn] at hdup
        cases hd1 : introducesDup names
            ((t.attrs.filter (fun a => a.name != "class")).map (·.name)) with
        | true =>
          obtain ⟨nm, hnm⟩ := (attrEntries_run t.attrs
            (if t.selfClosing.getD false then tg.set "selfClosing" (.bool true) else tg)
            names).1 hd1
          rw [hnm]
          exact ⟨nm, rfl⟩
        | false =>
          obtain ⟨tg2, htg2⟩ := (attrEntries_run t.attrs
            (if t.selfClosing.getD false then tg.set "selfClosing" (.bool true) else tg)
            names).2 hd1
          rw [htg2]
          refine ih rest n _ tg2 true _
            (fun x hx => hitems x (by simp [hx])) rfl ?_ hfuel'
          rw [hd1] at hdup
          simpa using hdup
      · have htn : tokNames t = [] := by simp [tokNames, hty]
        rw [Parser.tagAttrs, if_neg (by rw [hpeek, hty]; decide),
          if_neg (by rw [hpeek, hty]; decide), if_pos (by rw [hpeek, hty]; rfl), hadv]
        dsimp only
        refine ih rest n _ _ seen names
          (fun x hx => hitems x (by simp [hx])) rfl ?_ hfuel'
        rw [hsplit, htn] at hdup
        simpa [introducesDup] using hdup

/-- C1: duplicated attribute names on one tag — an `id` repeated across
the `#id` shorthand and `attrs` entries, cumulatively over all `attrs`
tokens, or any repeated non-`class` name — make the tag parse fail with a
DuplicateAttribute error, while `class` may repeat: the stream
`[tag 'div', attrs [{class,'a'}], attrs [{class,'b'}]]` parses into a Tag
carrying both class attrs in source order, and
`[tag 'div', id 'x', attrs [{id,'y'}]]` fails. -/
theorem C1_attribute_dedup :
    (∀ (items rest : List Tok) (fuel : Nat) (p : Parser) (tg : JVal),
      (∀ t ∈ items, t.type = "id" ∨ t.type = "class" ∨ t.type = "attrs" ∨
        t.type = "&attributes") →
      p.tokens = items ++ rest →
      introducesDup [] (tagItemNames items) = true →
      items.length < fuel →
      ∃ nm, Parser.tag (fuel + 1) p tg = .error (dupMsg nm)) ∧
    (parse 30 [tagT "div", attrsT [⟨"class", .str "a", false⟩],
        attrsT [⟨"class", .str "b", false⟩], eosTok] "f").map
      (fun r => (firstNode r).get "attrs") =
      .ok (mkArr [attrJ ⟨"class", .str "a", false⟩, attrJ ⟨"class", .str "b", false⟩]) ∧
    parse 30 [tagT "div", idT "x", attrsT [⟨"id", .str "y", false⟩], eosTok] "f" =
      .error (dupMsg "id") := by
  refine ⟨?_, by rfl, by rfl⟩
  intro items rest fuel p tg hitems hts hdup hfuel
  obtain ⟨nm, hnm⟩ := tagAttrs_dup items rest fuel p (tg.set "line" (.num p.line)) false []
    hitems hts hdup hfuel
  refine ⟨nm, ?_⟩
  rw [Parser.tag]
  simp [Bind.bind, Except.bind, hnm]

/-- Witness for C1: the duplicate-id stream `[id 'x', attrs [{id,'y'}]]`
makes the tag machinery fail. -/
theorem C1_attribute_dedup_witness :
    ∃ nm, Parser.tag (5 + 1)
      { tokens := [idT "x", attrsT [⟨"id", .str "y", false⟩], eosTok], filename := "f" }
      (mkObj [("type", .str "Tag"), ("name", .str "div")]) = .error (dupMsg nm) :=
  C1_attribute_dedup.1 [idT "x", attrsT [⟨"id", .str "y", false⟩]] [eosTok] 5
    { tokens := [idT "x", attrsT [⟨"id", .str "y", false⟩], eosTok], filename := "f" }
    (mkObj [("type", .str "Tag"), ("name", .str "div")])
    (by
      intro t ht
      rcases List.mem_cons.mp ht with h | h
      · subst h
        exact Or.inl rfl
      · rcases List.mem_cons.mp h with h2 | h2
        · subst h2
          exact Or.inr (Or.inr (Or.inl rfl))
        · cases h2)
    (by rfl) (by rfl) (by decide)

/-! Well-formedness lemmas. -/

theorem get_eq_undef_of_not_mem : (f : JObj) → (k : String) → k ∉ keysOf f →
    JObj.get f k = .undef
  | .nil, _, _ => rfl
  | .cons k' v rest, k, h => by
    have h1 : (k' == k) = false := by
      have : k' ≠ k := fun he => h (by simp [keysOf, he])
      simpa using this
    have h2 : k ∉ keysOf rest := fun hm => h (by simp [keysOf, hm])
    simp [JObj.get, h1, get_eq_undef_of_not_mem rest k h2]

theorem keysOf_strip_sub : (f : JObj) → ∀ k, k ∈ keysOf (stripObj f) → k ∈ keysOf f
  | .nil, k, h => h
  | .cons k' v rest, k, h => by
    cases v with
    | undef =>
      have := keysOf_strip_sub rest k (by simpa [stripObj] using h)
      simp [keysOf, this]
    | null =>
      rcases (by simpa [stripObj, keysOf] using h : k = k' ∨ k ∈ keysOf (stripObj rest)) with
        he | hm
      · simp [keysOf, he]
      · simp [keysOf, keysOf_strip_sub rest k hm]
    | bool b =>
      rcases (by simpa [stripObj, keysOf] using h : k = k' ∨ k ∈ keysOf (stripObj rest)) with
        he | hm
      · simp [keysOf, he]
      · simp [keysOf, keysOf_strip_sub rest k hm]
    | num m =>
      rcases (by simpa [stripObj, keysOf] using h : k = k' ∨ k ∈ keysOf (stripObj rest)) with
        he | hm
      · simp [keysOf, he]
      · simp [keysOf, keysOf_strip_sub rest k hm]
    | str s =>
      rcases (by simpa [stripObj, keysOf] using h : k = k' ∨ k ∈ keysOf (stripObj rest)) with
        he | hm
      · simp [keysOf, he]
      · simp [keysOf, keysOf_strip_sub rest k hm]
    | arr l =>
      rcases (by simpa [stripObj, keysOf] using h : k = k' ∨ k ∈ keysOf (stripObj rest)) with
        he | hm
      · simp [keysOf, he]
      · simp [keysOf, keysOf_strip_sub rest k hm]
    | obj g =>
      rcases (by simpa [stripObj, keysOf] using h : k = k' ∨ k ∈ keysOf (stripObj rest)) with
        he | hm
      · simp [keysOf, he]
      · simp [keysOf, keysOf_strip_sub rest k hm]

theorem uniq_get_strip : (f : JObj) → (k : String) → dupFree (keysOf f) = true →
    JObj.get (stripObj f) k = stripUndef (JObj.get f k)
  | .nil, _, _ => rfl
  | .cons k' v rest, k, hu => by
    have hu0 : (!(keysOf rest).contains k' && dupFree (keysOf rest)) = true := by
      simpa [keysOf, dupFree] using hu
    have hu1 : dupFree (keysOf rest) = true := by
      cases hx : dupFree (keysOf rest)
      · rw [hx] at hu0; simp at hu0
      · rfl
    have hnotin : k' ∉ keysOf rest := by
      intro hm
      have : (keysOf rest).contains k' = true := by simpa using hm
      rw [this] at hu0
      simp at hu0
    by_cases hk : (k' == k) = true
    · have hke : k' = k := by simpa using hk
      subst hke
      cases v with
      | undef =>
        have hnd : JObj.get (stripObj rest) k' = .undef :=
          get_eq_undef_of_not_mem _ _ (fun hm => hnotin (keysOf_strip_sub rest k' hm))
        simp [stripObj, JObj.get, hnd, stripUndef]
      | null => simp [stripObj, JObj.get, stripUndef]
      | bool b => simp [stripObj, JObj.get, stripUndef]
      | num m => simp [stripObj, JObj.get, stripUndef]
      | str s => simp [stripObj, JObj.get, stripUndef]
      | arr l => simp [stripObj, JObj.get, stripUndef]
      | obj g => simp [stripObj, JObj.get, stripUndef]
    · have hkf : (k' == k) = false := by simpa using hk
      cases v with
      | undef => simp [stripObj, JObj.get, hkf, uniq_get_strip rest k hu1]
      | null => simp [stripObj, JObj.get, hkf, uniq_get_strip rest k hu1]
      | bool b => simp [stripObj, JObj.get, hkf, uniq_get_strip rest k hu1]
      | num m => simp [stripObj, JObj.get, hkf, uniq_get_strip rest k hu1]
      | str s => simp [stripObj, JObj.get, hkf, uniq_get_strip rest k hu1]
      | arr l => simp [stripObj, JObj.get, hkf, uniq_get_strip rest k hu1]
      | obj g => simp [stripObj, JObj.get, hkf, uniq_get_strip rest k hu1]

theorem mem_keysOf_set : (f : JObj) → (k x : String) → (v : JVal) →
    x ∈ keysOf (JObj.set f k v) → x ∈ keysOf f ∨ x = k
  | .nil, k, x, v, h => by
    right
    simpa [JObj.set, keysOf] using h
  | .cons k' w rest, k, x, v, h => by
    by_cases hk : (k' == k) = true
    · rw [JObj.set, if_pos hk] at h
      left
      simpa [keysOf] using h
    · rw [JObj.set, if_neg hk] at h
      rcases (by simpa [keysOf] using h : x = k' ∨ x ∈ keysOf (JObj.set rest k v)) with he | hm
      · left; simp [keysOf, he]
      · rcases mem_keysOf_set rest k x v hm with hm' | he'
        · left; simp [keysOf, hm']
        · right; exact he'

theorem dupFree_keysOf_set : (f : JObj) → (k : String) → (v : JVal) →
    dupFree (keysOf f) = true → dupFree (keysOf (JObj.set f k v)) = true
  | .nil, k, v, _ => by simp [JObj.set, keysOf, dupFree]
  | .cons k' w rest, k, v, hu => by
    have hu0 : (!(keysOf rest).contains k' && dupFree (keysOf rest)) = true := by
      simpa [keysOf, dupFree] using hu
    have hu1 : dupFree (keysOf rest) = true := by
      cases hx : dupFree (keysOf rest)
      · rw [hx] at hu0; simp at hu0
      · rfl
    have hnotin : k' ∉ keysOf rest := by
      intro hm
      have : (keysOf rest).contains k' = true := by simpa using hm
      rw [this] at hu0
      simp at hu0
    by_cases hk : (k' == k) = true
    · rw [JObj.set, if_pos hk]
      exact hu
    · rw [JObj.set, if_neg hk]
      have hke : k' ≠ k := by simpa using hk
      have hni : k' ∉ keysOf (JObj.set rest k v) := by
        intro hm
        rcases mem_keysOf_set rest k k' v hm with hm' | he'
        · exact hnotin hm'
        · exact hke he'
      show dupFree (k' :: keysOf (JObj.set rest k v)) = true
      simp [dupFree, dupFree_keysOf_set rest k v hu1, hni]

theorem mem_keysOf_del : (f : JObj) → (k x : String) → x ∈ keysOf (JObj.del f k) →
    x ∈ keysOf f
  | .nil, _, _, h => h
  | .cons k' w rest, k, x, h => by
    by_cases hk : (k' == k) = true
    · rw [JObj.del, if_pos hk] at h
      simp [keysOf, mem_keysOf_del rest k x h]
    · rw [JObj.del, if_neg hk] at h
      rcases (by simpa [keysOf] using h : x = k' ∨ x ∈ keysOf (JObj.del rest k)) with he | hm
      · simp [keysOf, he]
      · simp [keysOf, mem_keysOf_del rest k x hm]

theorem dupFree_keysOf_del : (f : JObj) → (k : String) →
    dupFree (keysOf f) = true → dupFree (keysOf (JObj.del f k)) = true
  | .nil, _, _ => rfl
  | .cons k' w rest, k, hu => by
    have hu0 : (!(keysOf rest).contains k' && dupFree (keysOf rest)) = true := by
      simpa [keysOf, dupFree] using hu
    have hu1 : dupFree (keysOf rest) = true := by
      cases hx : dupFree (keysOf rest)
      · rw [hx] at hu0; simp at hu0
      · rfl
    have hnotin : k' ∉ keysOf rest := by
      intro hm
      have : (keysOf rest).contains k' = true := by simpa using hm
      rw [this] at hu0
      simp at hu0
    by_cases hk : (k' == k) = true
    · rw [JObj.del, if_pos hk]
      exact dupFree_keysOf_del rest k hu1
    · rw [JObj.del, if_neg hk]
      have hni : k' ∉ keysOf (JObj.del rest k) := fun hm => hnotin (mem_keysOf_del rest k k' hm)
      show dupFree (k' :: keysOf (JObj.del rest k)) = true
      simp [dupFree, dupFree_keysOf_del rest k hu1, hni]

theorem JObj.get_del_other : (f : JObj) → (k k' : String) → k ≠ k' →
    JObj.get (JObj.del f k) k' = JObj.get f k'
  | .nil, _, _, _ => rfl
  | .cons ka w rest, k, k', h => by
    by_cases hk : (ka == k) = true
    · have hke : ka = k := by simpa using hk
      have hne : (ka == k') = false := by subst hke; simpa using h
      rw [JObj.del, if_pos hk, JObj.get_del_other rest k k' h]
      simp [JObj.get, hne]
    · rw [JObj.del, if_neg hk]
      by_cases hk2 : (ka == k') = true
      · simp [JObj.get, hk2]
      · simp only [JObj.get, hk2, Bool.false_eq_true, if_false,
          JObj.get_del_other rest k k' h]

theorem NodeWF.isObj {v : JVal} (h : NodeWF v) : ∃ f, v = .obj f := by
  cases h
  exact ⟨_, rfl⟩

theorem NodeWF.typeStr {v : JVal} (h : NodeWF v) : ∃ t, v.get "type" = .str t := by
  cases h with
  | mk f t ht hu hc => exact ⟨t, ht⟩

theorem NodeWF.children {v : JVal} (h : NodeWF v) : ∀ c ∈ childNodes v, NodeWF c := by
  cases h with
  | mk f t ht hu hc => exact hc

theorem objChild_cases (b : JVal) : ∀ c ∈ objChild b, c = b := by
  cases b <;> simp [objChild]

theorem objChild_of_wf {b : JVal} (h : NodeWF b) : ∀ c ∈ objChild b, NodeWF c := by
  intro c hc
  rw [objChild_cases b c hc]
  exact h

theorem childNodes_set_other (v : JVal) (k : String) (x : JVal)
    (h2 : k ≠ "nodes") (h3 : k ≠ "block") (h4 : k ≠ "code") (h5 : k ≠ "alternative") :
    childNodes (v.set k x) = childNodes v := by
  unfold childNodes
  rw [JVal.get_set_other v k "nodes" x h2, JVal.get_set_other v k "block" x h3,
    JVal.get_set_other v k "code" x h4, JVal.get_set_other v k "alternative" x h5]

/-- NodeWF is preserved by assigning any key other than `type` and the
four child-carrying keys. -/
theorem NodeWF.set_other {v : JVal} (h : NodeWF v) (k : String) (x : JVal)
    (h1 : k ≠ "type") (h2 : k ≠ "nodes") (h3 : k ≠ "block") (h4 : k ≠ "code")
    (h5 : k ≠ "alternative") : NodeWF (v.set k x) := by
  have hcn := childNodes_set_other v k x h2 h3 h4 h5
  cases h with
  | mk f t ht hu hc =>
    have hcn' : childNodes (JVal.obj (JObj.set f k x)) = childNodes (.obj f) := hcn
    refine NodeWF.mk (JObj.set f k x) t ?_ (dupFree_keysOf_set f k x hu) ?_
    · rw [JObj.get_set_of_ne f k "type" x h1]
      exact ht
    · intro c hcm
      exact hc c (hcn' ▸ hcm)

/-- NodeWF is preserved by overwriting `type` with another string. -/
theorem NodeWF.set_type {v : JVal} (h : NodeWF v) (t' : String) :
    NodeWF (v.set "type" (.str t')) := by
  have hcn := childNodes_set_other v "type" (.str t') (by decide) (by decide) (by decide)
    (by decide)
  cases h with
  | mk f t ht hu hc =>
    have hcn' : childNodes (JVal.obj (JObj.set f "type" (.str t'))) = childNodes (.obj f) := hcn
    refine NodeWF.mk (JObj.set f "type" (.str t')) t' (JObj.get_set_self f "type" (.str t'))
      (dupFree_keysOf_set f "type" (.str t') hu) ?_
    intro c hcm
    exact hc c (hcn' ▸ hcm)

theorem JObj.get_del_self : (f : JObj) → (k : String) → JObj.get (JObj.del f k) k = .undef
  | .nil, _ => rfl
  | .cons ka w rest, k => by
    by_cases hk : (ka == k) = true
    · rw [JObj.del, if_pos hk, JObj.get_del_self rest k]
    · rw [JObj.del, if_neg hk]
      simp only [JObj.get, hk, Bool.false_eq_true, if_false, JObj.get_del_self rest k]

theorem childNodes_set_block (f : JObj) (b : JVal) :
    childNodes ((JVal.obj f).set "block" b) =
      ((JVal.obj f).get "nodes").getArrList ++ objChild b ++
        objChild ((JVal.obj f).get "code") ++ objChild ((JVal.obj f).get "alternative") := by
  unfold childNodes
  rw [JVal.get_set_other _ _ "nodes" _ (by decide), JVal.get_set_self_obj f "block" b,
    JVal.get_set_other _ _ "code" _ (by decide),
    JVal.get_set_other _ _ "alternative" _ (by decide)]

theorem childNodes_set_code (f : JObj) (b : JVal) :
    childNodes ((JVal.obj f).set "code" b) =
      ((JVal.obj f).get "nodes").getArrList ++ objChild ((JVal.obj f).get "block") ++
        objChild b ++ objChild ((JVal.obj f).get "alternative") := by
  unfold childNodes
  rw [JVal.get_set_other _ _ "nodes" _ (by decide), JVal.get_set_self_obj f "code" b,
    JVal.get_set_other _ _ "block" _ (by decide),
    JVal.get_set_other _ _ "alternative" _ (by decide)]

theorem childNodes_set_alternative (f : JObj) (b : JVal) :
    childNodes ((JVal.obj f).set "alternative" b) =
      ((JVal.obj f).get "nodes").getArrList ++ objChild ((JVal.obj f).get "block") ++
        objChild ((JVal.obj f).get "code") ++ objChild b := by
  unfold childNodes
  rw [JVal.get_set_other _ _ "nodes" _ (by decide), JVal.get_set_self_obj f "alternative" b,
    JVal.get_set_other _ _ "block" _ (by decide),
    JVal.get_set_other _ _ "code" _ (by decide)]

theorem childNodes_set_nodes (f : JObj) (a : JArr) :
    childNodes ((JVal.obj f).set "nodes" (.arr a)) =
      a.toList ++ objChild ((JVal.obj f).get "block") ++
        objChild ((JVal.obj f).get "code") ++ objChild ((JVal.obj f).get "alternative") := by
  unfold childNodes
  rw [JVal.get_set_self_obj f "nodes" (.arr a), JVal.get_set_other _ _ "block" _ (by decide),
    JVal.get_set_other _ _ "code" _ (by decide),
    JVal.get_set_other _ _ "alternative" _ (by decide)]
  rfl

theorem NodeWF.set_block {v b : JVal} (h : NodeWF v)
    (hb : ∀ c ∈ objChild b, NodeWF c) : NodeWF (v.set "block" b) := by
  cases h with
  | mk f t ht hu hc =>
    have hcn := childNodes_set_block f b
    refine NodeWF.mk (JObj.set f "block" b) t ?_ (dupFree_keysOf_set f "block" b hu) ?_
    · rw [JObj.get_set_of_ne f _ "type" _ (by decide)]
      exact ht
    · intro c hcm
      have hcm' : c ∈ ((JVal.obj f).get "nodes").getArrList ++ objChild b ++
          objChild ((JVal.obj f).get "code") ++ objChild ((JVal.obj f).get "alternative") :=
        hcn ▸ hcm
      simp only [List.mem_append] at hcm'
      rcases hcm' with ((hA | hB) | hC) | hD
      · exact hc c (by unfold childNodes; simp only [List.mem_append]; exact Or.inl (Or.inl (Or.inl hA)))
      · exact hb c hB
      · exact hc c (by unfold childNodes; simp only [List.mem_append]; exact Or.inl (Or.inr hC))
      · exact hc c (by unfold childNodes; simp only [List.mem_append]; exact Or.inr hD)

theorem NodeWF.set_code {v b : JVal} (h : NodeWF v)
    (hb : ∀ c ∈ objChild b, NodeWF c) : NodeWF (v.set "code" b) := by
  cases h with
  | mk f t ht hu hc =>
    have hcn := childNodes_set_code f b
    refine NodeWF.mk (JObj.set f "code" b) t ?_ (dupFree_keysOf_set f "code" b hu) ?_
    · rw [JObj.get_set_of_ne f _ "type" _ (by decide)]
      exact ht
    · intro c hcm
      have hcm' : c ∈ ((JVal.obj f).get "nodes").getArrList ++
          objChild ((JVal.obj f).get "block") ++ objChild b ++
          objChild ((JVal.obj f).get "alternative") :=
        hcn ▸ hcm
      simp only [List.mem_append] at hcm'
      rcases hcm' with ((hA | hB) | hC) | hD
      · exact hc c (by unfold childNodes; simp only [List.mem_append]; exact Or.inl (Or.inl (Or.inl hA)))
      · exact hc c (by unfold childNodes; simp only [List.mem_append]; exact Or.inl (Or.inl (Or.inr hB)))
      · exact hb c hC
      · exact hc c (by unfold childNodes; simp only [List.mem_append]; exact Or.inr hD)

theorem NodeWF.set_alternative {v b : JVal} (h : NodeWF v)
    (hb : ∀ c ∈ objChild b, NodeWF c) : NodeWF (v.set "alternative" b) := by
  cases h with
  | mk f t ht hu hc =>
    have hcn := childNodes_set_alternative f b
    refine NodeWF.mk (JObj.set f "alternative" b) t ?_
      (dupFree_keysOf_set f "alternative" b hu) ?_
    · rw [JObj.get_set_of_ne f _ "type" _ (by decide)]
      exact ht
    · intro c hcm
      have hcm' : c ∈ ((JVal.obj f).get "nodes").getArrList ++
          objChild ((JVal.obj f).get "block") ++ objChild ((JVal.obj f).get "code") ++
          objChild b :=
        hcn ▸ hcm
      simp only [List.mem_append] at hcm'
      rcases hcm' with ((hA | hB) | hC) | hD
      · exact hc c (by unfold childNodes; simp only [List.mem_append]; exact Or.inl (Or.inl (Or.inl hA)))
      · exact hc c (by unfold childNodes; simp only [List.mem_append]; exact Or.inl (Or.inl (Or.inr hB)))
      · exact hc c (by unfold childNodes; simp only [List.mem_append]; exact Or.inl (Or.inr hC))
      · exact hb c hD

theorem mem_childNodes_nodes {f : JObj} {c : JVal}
    (h : c ∈ ((JVal.obj f).get "nodes").getArrList) : c ∈ childNodes (.obj f) := by
  unfold childNodes
  simp only [List.mem_append]
  exact Or.inl (Or.inl (Or.inl h))

theorem mem_childNodes_block {f : JObj} {c : JVal}
    (h : c ∈ objChild ((JVal.obj f).get "block")) : c ∈ childNodes (.obj f) := by
  unfold childNodes
  simp only [List.mem_append]
  exact Or.inl (Or.inl (Or.inr h))

theorem mem_childNodes_code {f : JObj} {c : JVal}
    (h : c ∈ objChild ((JVal.obj f).get "code")) : c ∈ childNodes (.obj f) := by
  unfold childNodes
  simp only [List.mem_append]
  exact Or.inl (Or.inr h)

theorem mem_childNodes_alternative {f : JObj} {c : JVal}
    (h : c ∈ objChild ((JVal.obj f).get "alternative")) : c ∈ childNodes (.obj f) := by
  unfold childNodes
  simp only [List.mem_append]
  exact Or.inr h

theorem NodeWF.push_nodes {v x : JVal} (h : NodeWF v) (hx : NodeWF x) :
    NodeWF (v.pushKey "nodes" x) := by
  obtain ⟨f, rfl⟩ := h.isObj
  unfold JVal.pushKey
  cases hn : (JVal.obj f).get "nodes" with
  | arr l =>
    cases h with
    | mk f t ht hu hc =>
      have hcn := childNodes_set_nodes f (l.append (.cons x .nil))
      refine NodeWF.mk (JObj.set f "nodes" (.arr (l.append (.cons x .nil)))) t ?_
        (dupFree_keysOf_set f "nodes" _ hu) ?_
      · rw [JObj.get_set_of_ne f _ "type" _ (by decide)]
        exact ht
      · intro c hcm
        have hcm' : c ∈ (l.append (.cons x .nil)).toList ++
            objChild ((JVal.obj f).get "block") ++ objChild ((JVal.obj f).get "code") ++
            objChild ((JVal.obj f).get "alternative") :=
          hcn ▸ hcm
        rw [JArr.append_toList] at hcm'
        simp only [List.mem_append] at hcm'
        rcases hcm' with (((hA | hX) | hB) | hC) | hD
        · exact hc c (mem_childNodes_nodes (by rw [hn]; simpa [JVal.getArrList] using hA))
        · have hcx : c = x := by simpa [JArr.toList] using hX
          rw [hcx]
          exact hx
        · exact hc c (mem_childNodes_block hB)
        · exact hc c (mem_childNodes_code hC)
        · exact hc c (mem_childNodes_alternative hD)
  | undef => exact h
  | null => exact h
  | bool b => exact h
  | num n => exact h
  | str s => exact h
  | obj g => exact h

theorem NodeWF.push_other {v x : JVal} (h : NodeWF v) (k : String) (h1 : k ≠ "type")
    (h2 : k ≠ "nodes") (h3 : k ≠ "block") (h4 : k ≠ "code") (h5 : k ≠ "alternative") :
    NodeWF (v.pushKey k x) := by
  unfold JVal.pushKey
  cases v.get k with
  | arr l => exact h.set_other k _ h1 h2 h3 h4 h5
  | undef => exact h
  | null => exact h
  | bool b => exact h
  | num n => exact h
  | str s => exact h
  | obj g => exact h

theorem NodeWF.concat {v : JVal} {ns : List JVal} (h : NodeWF v)
    (hns : ∀ x ∈ ns, NodeWF x) : NodeWF (concatNodes v ns) := by
  obtain ⟨f, rfl⟩ := h.isObj
  unfold concatNodes
  cases hn : (JVal.obj f).get "nodes" with
  | arr l =>
    cases h with
    | mk f t ht hu hc =>
      have hcn := childNodes_set_nodes f (l.append (JArr.ofList ns))
      refine NodeWF.mk (JObj.set f "nodes" (.arr (l.append (JArr.ofList ns)))) t ?_
        (dupFree_keysOf_set f "nodes" _ hu) ?_
      · rw [JObj.get_set_of_ne f _ "type" _ (by decide)]
        exact ht
      · intro c hcm
        have hcm' : c ∈ (l.append (JArr.ofList ns)).toList ++
            objChild ((JVal.obj f).get "block") ++ objChild ((JVal.obj f).get "code") ++
            objChild ((JVal.obj f).get "alternative") :=
          hcn ▸ hcm
        rw [JArr.append_toList, JArr.ofList_toList] at hcm'
        simp only [List.mem_append] at hcm'
        rcases hcm' with (((hA | hX) | hB) | hC) | hD
        · exact hc c (mem_childNodes_nodes (by rw [hn]; simpa [JVal.getArrList] using hA))
        · exact hns c hX
        · exact hc c (mem_childNodes_block hB)
        · exact hc c (mem_childNodes_code hC)
        · exact hc c (mem_childNodes_alternative hD)
  | undef => exact h
  | null => exact h
  | bool b => exact h
  | num n => exact h
  | str s => exact h
  | obj g => exact h

theorem NodeWF.del_code {v : JVal} (h : NodeWF v) : NodeWF (v.del "code") := by
  cases h with
  | mk f t ht hu hc =>
    show NodeWF (.obj (JObj.del f "code"))
    refine NodeWF.mk (JObj.del f "code") t ?_ (dupFree_keysOf_del f "code" hu) ?_
    · rw [JObj.get_del_other f "code" "type" (by decide)]
      exact ht
    · intro c hcm
      have hcm' : c ∈ ((JVal.obj f).get "nodes").getArrList ++
          objChild ((JVal.obj f).get "block") ++ objChild (JVal.undef) ++
          objChild ((JVal.obj f).get "alternative") := by
        have e1 : (JVal.obj (JObj.del f "code")).get "nodes" = (JVal.obj f).get "nodes" :=
          JObj.get_del_other f "code" "nodes" (by decide)
        have e2 : (JVal.obj (JObj.del f "code")).get "block" = (JVal.obj f).get "block" :=
          JObj.get_del_other f "code" "block" (by decide)
        have e3 : (JVal.obj (JObj.del f "code")).get "code" = JVal.undef :=
          JObj.get_del_self f "code"
        have e4 : (JVal.obj (JObj.del f "code")).get "alternative" =
            (JVal.obj f).get "alternative" :=
          JObj.get_del_other f "code" "alternative" (by decide)
        unfold childNodes at hcm
        rw [e1, e2, e3, e4] at hcm
        exact hcm
      simp only [List.mem_append] at hcm'
      rcases hcm' with ((hA | hB) | hC) | hD
      · exact hc c (mem_childNodes_nodes hA)
      · exact hc c (mem_childNodes_block hB)
      · simp [objChild] at hC
      · exact hc c (mem_childNodes_alternative hD)

/-- Constructor wrapper for concrete node literals. -/
theorem NodeWF_build (v : JVal) (f : JObj) (t : String) (hv : v = .obj f)
    (ht : JObj.get f "type" = .str t) (hu : dupFree (keysOf f) = true)
    (hch : ∀ c ∈ childNodes v, NodeWF c) : NodeWF v := by
  subst hv
  exact NodeWF.mk f t ht hu hch

/-- The empty `Block` literal is well-formed. -/
theorem NodeWF_emptyBlock : NodeWF emptyBlock := by
  refine NodeWF_build _ _ "Block" rfl rfl (by decide) ?_
  intro c hc
  have : childNodes emptyBlock = [] := rfl
  rw [this] at hc
  cases hc

theorem NodeWF.typed {v : JVal} (h : NodeWF v) : NodeTyped v := by
  induction h with
  | mk f t ht hu hc ih => exact NodeTyped.mk _ t ht ih

theorem stripArr_toList_of_no_undef : (l : JArr) → (∀ c ∈ l.toList, c ≠ .undef) →
    (stripArr l).toList = l.toList.map stripUndef
  | .nil, _ => rfl
  | .cons v rest, h => by
    have hrest := stripArr_toList_of_no_undef rest
      (fun c hcm => h c (by simp [JArr.toList, hcm]))
    cases v with
    | undef => exact absurd rfl (h .undef (by simp [JArr.toList]))
    | null => simp [stripArr, JArr.toList, hrest, stripUndef]
    | bool b => simp [stripArr, JArr.toList, hrest, stripUndef]
    | num n => simp [stripArr, JArr.toList, hrest, stripUndef]
    | str s => simp [stripArr, JArr.toList, hrest, stripUndef]
    | arr l2 => simp [stripArr, JArr.toList, hrest, stripUndef]
    | obj g => simp [stripArr, JArr.toList, hrest, stripUndef]

theorem strip_objChild_typed {b : JVal} (ihb : ∀ c ∈ objChild b, NodeTyped (stripUndef c)) :
    ∀ c' ∈ objChild (stripUndef b), NodeTyped c' := by
  cases b with
  | obj g =>
    intro c' hc'
    have hce : c' = stripUndef (.obj g) := by simpa [stripUndef, objChild] using hc'
    rw [hce]
    exact ihb (.obj g) (by simp [objChild])
  | undef => intro c' hc'; simp [stripUndef, objChild] at hc'
  | null => intro c' hc'; simp [stripUndef, objChild] at hc'
  | bool b => intro c' hc'; simp [stripUndef, objChild] at hc'
  | num n => intro c' hc'; simp [stripUndef, objChild] at hc'
  | str s => intro c' hc'; simp [stripUndef, objChild] at hc'
  | arr l => intro c' hc'; simp [stripUndef, objChild] at hc'

theorem strip_nodes_typed {a : JVal} (ha : ∀ c ∈ a.getArrList, NodeWF c)
    (iha : ∀ c ∈ a.getArrList, NodeTyped (stripUndef c)) :
    ∀ c' ∈ (stripUndef a).getArrList, NodeTyped c' := by
  cases a with
  | arr l =>
    intro c' hc'
    have hnd : ∀ c ∈ l.toList, c ≠ .undef := by
      intro c hcmem hcu
      obtain ⟨g, hg⟩ := (ha c (by simpa [JVal.getArrList] using hcmem)).isObj
      rw [hcu] at hg
      cases hg
    have he : (stripArr l).toList = l.toList.map stripUndef :=
      stripArr_toList_of_no_undef l hnd
    rw [show (stripUndef (.arr l)).getArrList = (stripArr l).toList from rfl, he] at hc'
    obtain ⟨c, hcm, rfl⟩ := List.mem_map.mp hc'
    exact iha c (by simpa [JVal.getArrList] using hcm)
  | undef => intro c' hc'; simp [stripUndef, JVal.getArrList] at hc'
  | null => intro c' hc'; simp [stripUndef, JVal.getArrList] at hc'
  | bool b => intro c' hc'; simp [stripUndef, JVal.getArrList] at hc'
  | num n => intro c' hc'; simp [stripUndef, JVal.getArrList] at hc'
  | str s => intro c' hc'; simp [stripUndef, JVal.getArrList] at hc'
  | obj g => intro c' hc'; simp [stripUndef, JVal.getArrList] at hc'

/-- Well-formed nodes stay fully typed after the JSON round trip. -/
theorem NodeWF.typed_strip {v : JVal} (h : NodeWF v) : NodeTyped (stripUndef v) := by
  induction h with
  | mk f t ht hu hc ih =>
    refine NodeTyped.mk (.obj (stripObj f)) t ?_ ?_
    · show JObj.get (stripObj f) "type" = .str t
      rw [uniq_get_strip f "type" hu, ht]
      rfl
    · intro c' hc'
      have e1 : (JVal.obj (stripObj f)).get "nodes" = stripUndef ((JVal.obj f).get "nodes") :=
        uniq_get_strip f "nodes" hu
      have e2 : (JVal.obj (stripObj f)).get "block" = stripUndef ((JVal.obj f).get "block") :=
        uniq_get_strip f "block" hu
      have e3 : (JVal.obj (stripObj f)).get "code" = stripUndef ((JVal.obj f).get "code") :=
        uniq_get_strip f "code" hu
      have e4 : (JVal.obj (stripObj f)).get "alternative" =
          stripUndef ((JVal.obj f).get "alternative") :=
        uniq_get_strip f "alternative" hu
      unfold childNodes at hc'
      rw [e1, e2, e3, e4] at hc'
      simp only [List.mem_append] at hc'
      rcases hc' with ((hA | hB) | hC) | hD
      · exact strip_nodes_typed (fun c hm => hc c (mem_childNodes_nodes hm))
          (fun c hm => ih c (mem_childNodes_nodes hm)) c' hA
      · exact strip_objChild_typed (fun c hm => ih c (mem_childNodes_block hm)) c' hB
      · exact strip_objChild_typed (fun c hm => ih c (mem_childNodes_code hm)) c' hC
      · exact strip_objChild_typed (fun c hm => ih c (mem_childNodes_alternative hm)) c' hD

theorem NodeWF_leaf (v : JVal) (f : JObj) (t : String) (hv : v = .obj f)
    (ht : JObj.get f "type" = .str t) (hu : dupFree (keysOf f) = true)
    (hch : childNodes v = []) : NodeWF v := by
  refine NodeWF_build v f t hv ht hu ?_
  intro c hc
  rw [hch] at hc
  cases hc

theorem NodeWF_block_literal (v : JVal) (f : JObj) (t : String) (b : JVal) (hv : v = .obj f)
    (ht : JObj.get f "type" = .str t) (hu : dupFree (keysOf f) = true)
    (hch : childNodes v = objChild b) (hb : NodeWF b) : NodeWF v := by
  refine NodeWF_build v f t hv ht hu ?_
  intro c hc
  rw [hch] at hc
  exact objChild_of_wf hb c hc

theorem NodeWF_nodes_literal (v : JVal) (f : JObj) (t : String) (ns : List JVal)
    (hv : v = .obj f) (ht : JObj.get f "type" = .str t) (hu : dupFree (keysOf f) = true)
    (hch : childNodes v = ns) (hns : ∀ x ∈ ns, NodeWF x) : NodeWF v := by
  refine NodeWF_build v f t hv ht hu ?_
  intro c hc
  rw [hch] at hc
  exact hns c hc

theorem NodeWF.mergeHtml {c : JVal} (h : NodeWF c) (v : String) : NodeWF (mergeHtmlVal c v) :=
  h.set_other "val" _ (by decide) (by decide) (by decide) (by decide) (by decide)

theorem htmlMergeFold_wf : (ns : List JVal) → (acc : List JVal) → (cur : Option JVal) →
    (∀ x ∈ ns, NodeWF x) → (∀ x ∈ acc, NodeWF x) → (∀ c, cur = some c → NodeWF c) →
    (∀ x ∈ (htmlMergeFold ns acc cur).1, NodeWF x) ∧
      (∀ c, (htmlMergeFold ns acc cur).2 = some c → NodeWF c)
  | [], acc, cur, _, hacc, hcur => ⟨hacc, hcur⟩
  | nd :: rest, acc, cur, hns, hacc, hcur => by
    rw [htmlMergeFold.eq_def]
    dsimp only
    by_cases hh : truthy (nd.get "isHtml") = true
    · rw [if_pos hh]
      cases cur with
      | none =>
        exact htmlMergeFold_wf rest acc (some nd) (fun x hx => hns x (by simp [hx])) hacc
          (fun c hc => by injection hc with hc; rw [← hc]; exact hns nd (by simp))
      | some c =>
        exact htmlMergeFold_wf rest acc (some (mergeHtmlVal c (asStr (nd.get "val"))))
          (fun x hx => hns x (by simp [hx])) hacc
          (fun c' hc => by
            injection hc with hc
            rw [← hc]
            exact (hcur c rfl).mergeHtml _)
    · rw [if_neg hh]
      refine htmlMergeFold_wf rest (acc ++ flushCur cur ++ [nd]) none
        (fun x hx => hns x (by simp [hx])) ?_ (fun c hc => by cases hc)
      intro x hx
      simp only [List.mem_append] at hx
      rcases hx with (hx | hx) | hx
      · exact hacc x hx
      · cases cur with
        | none => simp [flushCur] at hx
        | some c =>
          have : x = c := by simpa [flushCur] using hx
          rw [this]
          exact hcur c rfl
      · have : x = nd := by simpa using hx
        rw [this]
        exact hns nd (by simp)

theorem parseDoctype_wf (p : Parser) (v : JVal) (p' : Parser)
    (h : Parser.parseDoctype p = .ok (v, p')) : NodeWF v := by
  unfold Parser.parseDoctype at h
  cases he : p.expect "doctype" with
  | error e => rw [he] at h; simp [Bind.bind, Except.bind] at h
  | ok r =>
    rw [he] at h
    simp only [Bind.bind, Except.bind] at h
    injection h with h1
    injection h1 with h1 h2
    rw [← h1]
    exact NodeWF_leaf _ _ "Doctype" rfl rfl rfl rfl

theorem parseExtends_wf (p : Parser) (v : JVal) (p' : Parser)
    (h : Parser.parseExtends p = .ok (v, p')) : NodeWF v := by
  unfold Parser.parseExtends at h
  cases he : p.expect "extends" with
  | error e => rw [he] at h; simp [Bind.bind, Except.bind] at h
  | ok r =>
    rw [he] at h
    simp only [Bind.bind, Except.bind] at h
    injection h with h1
    injection h1 with h1 h2
    rw [← h1]
    exact NodeWF_leaf _ _ "Extends" rfl rfl rfl rfl

theorem parseMixinBlock_wf (p : Parser) (v : JVal) (p' : Parser)
    (h : Parser.parseMixinBlock p = .ok (v, p')) : NodeWF v := by
  unfold Parser.parseMixinBlock at h
  cases he : p.expect "mixin-block" with
  | error e => rw [he] at h; simp [Bind.bind, Except.bind] at h
  | ok r =>
    rw [he] at h
    simp only [Bind.bind, Except.bind] at h
    split at h
    · simp at h
    · injection h with h1
      injection h1 with h1 h2
      rw [← h1]
      exact NodeWF_leaf _ _ "MixinBlock" rfl rfl rfl rfl

theorem wf_append_one {acc : List JVal} {nd : JVal} (hacc : ∀ x ∈ acc, NodeWF x)
    (hnd : NodeWF nd) : ∀ x ∈ acc ++ [nd], NodeWF x := by
  intro x hx
  rcases List.mem_append.mp hx with hx | hx
  · exact hacc x hx
  · rw [List.mem_singleton.mp hx]
    exact hnd

theorem NodeWF_blockList (ns : List JVal) (hns : ∀ x ∈ ns, NodeWF x) :
    NodeWF (mkObj [("type", JVal.str "Block"), ("nodes", mkArr ns)]) := by
  refine NodeWF_nodes_literal _ _ "Block" ns rfl rfl rfl ?_ hns
  show (mkArr ns).getArrList ++ [] ++ [] ++ [] = ns
  simp [mkArr, JVal.getArrList, JArr.ofList_toList]

theorem NodeWF_textNode (s : String) :
    NodeWF (mkObj [("type", JVal.str "Text"), ("val", JVal.str s)]) :=
  NodeWF_leaf _ _ "Text" rfl rfl rfl rfl

/-- The attrs-entry loop preserves node well-formedness and the
object-or-absent shape of the `code` field. -/
theorem attrEntries_wf : (al : List Attr) → (tg : JVal) → (names : List String) →
    (tg' : JVal) → (names' : List String) → NodeWF tg →
    (truthy (tg.get "code") = true → ∃ g, tg.get "code" = .obj g) →
    attrEntries al tg names = .ok (tg', names') →
    NodeWF tg' ∧ (truthy (tg'.get "code") = true → ∃ g, tg'.get "code" = .obj g)
  | [], tg, names, tg', names', hwf, hco, h => by
    rw [attrEntries] at h
    injection h with h1
    injection h1 with h1 h2
    rw [← h1]
    exact ⟨hwf, hco⟩
  | a :: rest, tg, names, tg', names', hwf, hco, h => by
    rw [attrEntries] at h
    split at h
    · cases h
    · refine attrEntries_wf rest _ _ tg' names'
        (hwf.push_other "attrs" (by decide) (by decide) (by decide) (by decide) (by decide))
        ?_ h
      rw [JVal.pushKey_get_other tg "attrs" "code" _ (by decide)]
      exact hco

/-- Children of a node's `block` field are well-formed. -/
theorem get_block_objChild_wf {v : JVal} (h : NodeWF v) :
    ∀ c ∈ objChild (v.get "block"), NodeWF c := by
  obtain ⟨f, rfl⟩ := h.isObj
  exact fun c hc => h.children c (mem_childNodes_block hc)

/-- Elements of a node's `nodes` array are well-formed. -/
theorem get_nodes_list_wf {v : JVal} (h : NodeWF v) :
    ∀ x ∈ (v.get "nodes").getArrList, NodeWF x := by
  obtain ⟨f, rfl⟩ := h.isObj
  exact fun x hx => h.children x (mem_childNodes_nodes hx)

/-- Pushing a well-formed node onto the `nodes` of a value with
well-formed object content keeps its object content well-formed. -/
theorem push_objChild_wf {b : JVal} (hb : ∀ c ∈ objChild b, NodeWF c) {x : JVal}
    (hx : NodeWF x) : ∀ c ∈ objChild (b.pushKey "nodes" x), NodeWF c := by
  cases b with
  | obj bf =>
    intro c hc
    rw [objChild_cases _ c hc]
    exact NodeWF.push_nodes (hb _ (by simp [objChild])) hx
  | undef => intro c hc; simp [JVal.pushKey, JVal.get, objChild] at hc
  | null => intro c hc; simp [JVal.pushKey, JVal.get, objChild] at hc
  | bool v2 => intro c hc; simp [JVal.pushKey, JVal.get, objChild] at hc
  | num v2 => intro c hc; simp [JVal.pushKey, JVal.get, objChild] at hc
  | str v2 => intro c hc; simp [JVal.pushKey, JVal.get, objChild] at hc
  | arr v2 => intro c hc; simp [JVal.pushKey, JVal.get, objChild] at hc

/-- `concatNodes` keeps object content well-formed when the appended
nodes are well-formed. -/
theorem concat_objChild_wf {b : JVal} (hb : ∀ c ∈ objChild b, NodeWF c) {ns : List JVal}
    (hns : ∀ x ∈ ns, NodeWF x) : ∀ c ∈ objChild (concatNodes b ns), NodeWF c := by
  cases b with
  | obj bf =>
    intro c hc
    rw [objChild_cases _ c hc]
    exact NodeWF.concat (hb _ (by simp [objChild])) hns
  | undef => intro c hc; simp [concatNodes, JVal.get, objChild] at hc
  | null => intro c hc; simp [concatNodes, JVal.get, objChild] at hc
  | bool v2 => intro c hc; simp [concatNodes, JVal.get, objChild] at hc
  | num v2 => intro c hc; simp [concatNodes, JVal.get, objChild] at hc
  | str v2 => intro c hc; simp [concatNodes, JVal.get, objChild] at hc
  | arr v2 => intro c hc; simp [concatNodes, JVal.get, objChild] at hc

/-- Every node any parsing routine returns is well-formed (`NodeWF`):
an object with distinct keys, a string `type`, and well-formed children —
provided the node accumulators fed into the loops are well-formed. -/
theorem parserWF (fuel : Nat) :
    (∀ p v p', Parser.parseExpr fuel p = .ok (v, p') → NodeWF v) ∧
    (∀ p bo v p', Parser.parseText fuel p bo = .ok (v, p') → NodeWF v) ∧
    (∀ p bo acc v p', (∀ x ∈ acc, NodeWF x) →
      Parser.parseTextLoop fuel p bo acc = .ok (v, p') → ∀ x ∈ v, NodeWF x) ∧
    (∀ p ns p', Parser.parseTextHtml fuel p = .ok (ns, p') → ∀ x ∈ ns, NodeWF x) ∧
    (∀ p acc cur ns p', (∀ x ∈ acc, NodeWF x) → (∀ c, cur = some c → NodeWF c) →
      Parser.textHtmlLoop fuel p acc cur = .ok (ns, p') → ∀ x ∈ ns, NodeWF x) ∧
    (∀ p v p', Parser.parseBlockExpansion fuel p = .ok (v, p') → NodeWF v) ∧
    (∀ p v p', Parser.parseCase fuel p = .ok (v, p') → NodeWF v) ∧
    (∀ p blk v p', NodeWF blk → Parser.caseLoop fuel p blk = .ok (v, p') → NodeWF v) ∧
    (∀ p v p', Parser.parseWhen fuel p = .ok (v, p') → NodeWF v) ∧
    (∀ p v p', Parser.parseDefault fuel p = .ok (v, p') → NodeWF v) ∧
    (∀ p v p', Parser.parseCode fuel p = .ok (v, p') → NodeWF v) ∧
    (∀ p v p', Parser.parseComment fuel p = .ok (v, p') → NodeWF v) ∧
    (∀ p v p', Parser.parseFilter fuel p = .ok (v, p') → NodeWF v) ∧
    (∀ p v p', Parser.parseEach fuel p = .ok (v, p') → NodeWF v) ∧
    (∀ p v p', Parser.parseBlock fuel p = .ok (v, p') → NodeWF v) ∧
    (∀ p v p', Parser.parseInclude fuel p = .ok (v, p') → NodeWF v) ∧
    (∀ p v p', Parser.parseCall fuel p = .ok (v, p') → NodeWF v) ∧
    (∀ p v p', Parser.parseMixin fuel p = .ok (v, p') → NodeWF v) ∧
    (∀ p ob p', Parser.parseTextBlock fuel p = .ok (ob, p') →
      ∀ b, ob = some b → NodeWF b) ∧
    (∀ p blk v p', NodeWF blk → Parser.textBlockLoop fuel p blk = .ok (v, p') → NodeWF v) ∧
    (∀ p v p', Parser.block fuel p = .ok (v, p') → NodeWF v) ∧
    (∀ p blk v p', NodeWF blk → Parser.blockLoop fuel p blk = .ok (v, p') → NodeWF v) ∧
    (∀ p v p', Parser.parseInterpolation fuel p = .ok (v, p') → NodeWF v) ∧
    (∀ p v p', Parser.parseTag fuel p = .ok (v, p') → NodeWF v) ∧
    (∀ p tg seen names v p', NodeWF tg →
      (truthy (tg.get "code") = true → ∃ g, tg.get "code" = .obj g) →
      Parser.tagAttrs fuel p tg seen names = .ok (v, p') →
      NodeWF v ∧ (truthy (v.get "code") = true → ∃ g, v.get "code" = .obj g)) ∧
    (∀ p tg v p', NodeWF tg →
      (truthy (tg.get "code") = true → ∃ g, tg.get "code" = .obj g) →
      Parser.tag fuel p tg = .ok (v, p') →
      NodeWF v ∧ (truthy (v.get "code") = true → ∃ g, v.get "code" = .obj g)) ∧
    (∀ p blk v p', NodeWF blk → Parser.parseLoop fuel p blk = .ok (v, p') → NodeWF v) := by
  induction fuel with
  | zero =>
    refine ⟨fun p v p' h => by simp [Parser.parseExpr] at h,
      fun p bo v p' h => by simp [Parser.parseText] at h,
      fun p bo acc v p' _ h => by simp [Parser.parseTextLoop] at h,
      fun p ns p' h => by simp [Parser.parseTextHtml] at h,
      fun p acc cur ns p' _ _ h => by simp [Parser.textHtmlLoop] at h,
      fun p v p' h => by simp [Parser.parseBlockExpansion] at h,
      fun p v p' h => by simp [Parser.parseCase] at h,
      fun p blk v p' _ h => by simp [Parser.caseLoop] at h,
      fun p v p' h => by simp [Parser.parseWhen] at h,
      fun p v p' h => by simp [Parser.parseDefault] at h,
      fun p v p' h => by simp [Parser.parseCode] at h,
      fun p v p' h => by simp [Parser.parseComment] at h,
      fun p v p' h => by simp [Parser.parseFilter] at h,
      fun p v p' h => by simp [Parser.parseEach] at h,
      fun p v p' h => by simp [Parser.parseBlock] at h,
      fun p v p' h => by simp [Parser.parseInclude] at h,
      fun p v p' h => by simp [Parser.parseCall] at h,
      fun p v p' h => by simp [Parser.parseMixin] at h,
      fun p ob p' h => by simp [Parser.parseTextBlock] at h,
      fun p blk v p' _ h => by simp [Parser.textBlockLoop] at h,
      fun p v p' h => by simp [Parser.block] at h,
      fun p blk v p' _ h => by simp [Parser.blockLoop] at h,
      fun p v p' h => by simp [Parser.parseInterpolation] at h,
      fun p v p' h => by simp [Parser.parseTag] at h,
      fun p tg seen names v p' _ _ h => by simp [Parser.tagAttrs] at h,
      fun p tg v p' _ _ h => by simp [Parser.tag] at h,
      fun p blk v p' _ h => by simp [Parser.parseLoop] at h⟩
  | succ n ih =>
    obtain ⟨ihExpr, ihText, ihTextLoop, ihTextHtml, ihHtmlLoop, ihBlockExp, ihCase,
      ihCaseLoop, ihWhen, ihDefault, ihCode, ihComment, ihFilter, ihEach, ihBlockN,
      ihInclude, ihCall, ihMixin, ihTextBlock, ihTextBlockLoop, ihBlock, ihBlockLoop,
      ihInterp, ihTag, ihTagAttrs, ihTagFn, ihParseLoop⟩ := ih
    refine ⟨?_, ?_, ?_, ?_, ?_, ?_, ?_, ?_, ?_, ?_, ?_, ?_, ?_, ?_, ?_, ?_, ?_, ?_, ?_,
      ?_, ?_, ?_, ?_, ?_, ?_, ?_, ?_⟩
    · intro p v p' h
      rw [Parser.parseExpr] at h
      split at h
      · exact ihTag _ _ _ h
      · exact ihMixin _ _ _ h
      · exact ihBlockN _ _ _ h
      · exact parseMixinBlock_wf _ _ _ h
      · exact ihCase _ _ _ h
      · exact parseExtends_wf _ _ _ h
      · exact ihInclude _ _ _ h
      · exact parseDoctype_wf _ _ _ h
      · exact ihFilter _ _ _ h
      · exact ihComment _ _ _ h
      · exact ihText _ _ _ _ h
      · exact ihText _ _ _ _ h
      · exact ihEach _ _ _ h
      · exact ihCode _ _ _ h
      · exact ihCall _ _ _ h
      · exact ihInterp _ _ _ h
      · have h' : Except.ok (emptyBlock.set "yield" (.bool true), p.advance.2) =
            Except.ok (v, p') := h
        injection h' with h1
        injection h1 with h1 h2
        rw [← h1]
        exact NodeWF_emptyBlock.set_other "yield" _ (by decide) (by decide) (by decide)
          (by decide) (by decide)
      · exact ihExpr _ _ _ h
      · exact ihExpr _ _ _ h
      · simp at h
    · intro p bo v p' h
      rw [Parser.parseText] at h
      cases hl : Parser.parseTextLoop n p bo [] with
      | error e => rw [hl] at h; simp [Bind.bind, Except.bind] at h
      | ok r =>
        obtain ⟨tags, p1⟩ := r
        rw [hl] at h
        simp only [Bind.bind, Except.bind] at h
        have hall : ∀ x ∈ tags, NodeWF x :=
          ihTextLoop p bo [] tags p1 (fun x hx => absurd hx (List.not_mem_nil x)) hl
        split at h
        · next hlen =>
          injection h with h1
          injection h1 with h1 h2
          rw [← h1]
          cases tags with
          | nil => simp at hlen
          | cons x xs => exact hall x (by simp)
        · injection h with h1
          injection h1 with h1 h2
          rw [← h1]
          exact NodeWF_blockList tags hall
    · intro p bo acc v p' hacc h
      rw [Parser.parseTextLoop] at h
      split at h
      · have h' : Parser.parseTextLoop n p.advance.2 bo
            (acc ++ [mkObj [("type", JVal.str "Text"), ("val", JVal.str p.advance.1.val)]]) =
            .ok (v, p') := h
        exact ihTextLoop _ _ _ _ _ (wf_append_one hacc (NodeWF_textNode _)) h'
      · split at h
        · have h' : (if (p.advance.2.peek.type == "text") = true then
                Parser.parseTextLoop n p.advance.2 bo
                  (acc ++ [mkObj [("type", JVal.str "Text"), ("val", JVal.str "\n")]])
              else Parser.parseTextLoop n p.advance.2 bo acc) = .ok (v, p') := h
          split at h'
          · exact ihTextLoop _ _ _ _ _ (wf_append_one hacc (NodeWF_textNode _)) h'
          · exact ihTextLoop _ _ _ _ _ hacc h'
        · split at h
          · cases he1 : p.expect "start-jade-interpolation" with
            | error e => rw [he1] at h; simp [Bind.bind, Except.bind] at h
            | ok r1 =>
              obtain ⟨tk1, p1⟩ := r1
              rw [he1] at h
              simp only [Bind.bind, Except.bind] at h
              cases hex : Parser.parseExpr n p1 with
              | error e => rw [hex] at h; simp [Except.bind] at h
              | ok r2 =>
                obtain ⟨e2, p2⟩ := r2
                rw [hex] at h
                simp only [Except.bind] at h
                cases he2 : p2.expect "end-jade-interpolation" with
                | error e => rw [he2] at h; simp [Except.bind] at h
                | ok r3 =>
                  obtain ⟨tk3, p3⟩ := r3
                  rw [he2] at h
                  simp only [Except.bind] at h
                  exact ihTextLoop _ _ _ _ _ (wf_append_one hacc (ihExpr _ _ _ hex)) h
          · injection h with h1
            injection h1 with h1 h2
            rw [← h1]
            exact fun x hx => hacc x hx
    · intro p ns p' h
      rw [Parser.parseTextHtml] at h
      exact ihHtmlLoop _ _ _ _ _ (fun x hx => absurd hx (List.not_mem_nil x))
        (fun c hc => by cases hc) h
    · intro p acc cur ns p' hacc hcur h
      rcases hadv : p.advance with ⟨tok1, p1⟩
      rw [Parser.textHtmlLoop] at h
      split at h
      · cases cur with
        | none =>
          simp only [hadv] at h
          have hcl : ∀ c, some (mkObj [("type", JVal.str "Text"),
              ("val", JVal.str tok1.val), ("filename", JVal.str p1.filename),
              ("line", JVal.num tok1.line), ("isHtml", JVal.bool true)]) = some c →
              NodeWF c := by
            intro c hc
            injection hc with hc
            rw [← hc]
            exact NodeWF_leaf _ _ "Text" rfl rfl rfl rfl
          split at h
          · cases hb : Parser.block n p1 with
            | error e => rw [hb] at h; simp [Bind.bind, Except.bind] at h
            | ok r =>
              obtain ⟨blk, p2⟩ := r
              rw [hb] at h
              simp only [Bind.bind, Except.bind] at h
              have hblk := ihBlock _ _ _ hb
              obtain ⟨g, hg⟩ := hblk.isObj
              have hns : ∀ x ∈ (blk.get "nodes").getArrList, NodeWF x := by
                intro x hx
                refine hblk.children x ?_
                rw [hg] at hx ⊢
                exact mem_childNodes_nodes hx
              have hfold := htmlMergeFold_wf ((blk.get "nodes").getArrList) acc _ hns hacc hcl
              exact ihHtmlLoop _ _ _ _ _ hfold.1 hfold.2 h
          · split at h
            · exact ihHtmlLoop _ _ _ _ _ hacc hcl h
            · exact ihHtmlLoop _ _ _ _ _ hacc hcl h
        | some c0 =>
          simp only [hadv] at h
          have hcl : ∀ c, some (mergeHtmlVal c0 tok1.val) = some c → NodeWF c := by
            intro c hc
            injection hc with hc
            rw [← hc]
            exact (hcur c0 rfl).mergeHtml _
          split at h
          · cases hb : Parser.block n p1 with
            | error e => rw [hb] at h; simp [Bind.bind, Except.bind] at h
            | ok r =>
              obtain ⟨blk, p2⟩ := r
              rw [hb] at h
              simp only [Bind.bind, Except.bind] at h
              have hblk := ihBlock _ _ _ hb
              obtain ⟨g, hg⟩ := hblk.isObj
              have hns : ∀ x ∈ (blk.get "nodes").getArrList, NodeWF x := by
                intro x hx
                refine hblk.children x ?_
                rw [hg] at hx ⊢
                exact mem_childNodes_nodes hx
              have hfold := htmlMergeFold_wf ((blk.get "nodes").getArrList) acc _ hns hacc hcl
              exact ihHtmlLoop _ _ _ _ _ hfold.1 hfold.2 h
          · split at h
            · exact ihHtmlLoop _ _ _ _ _ hacc hcl h
            · exact ihHtmlLoop _ _ _ _ _ hacc hcl h
      · injection h with h1
        injection h1 with h1 h2
        rw [← h1]
        intro x hx
        rcases List.mem_append.mp hx with hx | hx
        · exact hacc x hx
        · cases cur with
          | none => simp [flushCur] at hx
          | some c0 =>
            have : x = c0 := by simpa [flushCur] using hx
            rw [this]
            exact hcur c0 rfl
    · intro p v p' h
      rw [Parser.parseBlockExpansion] at h
      split at h
      · have h' : Except.bind (Parser.parseExpr n p.advance.2) (fun r =>
            Except.ok (mkObj [("type", JVal.str "Block"), ("nodes", mkArr [r.1])], r.2)) =
            .ok (v, p') := h
        cases hex : Parser.parseExpr n p.advance.2 with
        | error e => rw [hex] at h'; simp [Except.bind] at h'
        | ok r =>
          obtain ⟨e1, p1⟩ := r
          rw [hex] at h'
          simp only [Except.bind] at h'
          injection h' with h1
          injection h1 with h1 h2
          rw [← h1]
          refine NodeWF_blockList [e1] ?_
          intro x hx
          rw [List.mem_singleton.mp hx]
          exact ihExpr _ _ _ hex
      · exact ihBlock _ _ _ h
    · intro p v p' h
      rw [Parser.parseCase] at h
      cases he1 : p.expect "case" with
      | error e => rw [he1] at h; simp [Bind.bind, Except.bind] at h
      | ok r1 =>
        obtain ⟨tok, p1⟩ := r1
        rw [he1] at h
        simp only [Bind.bind, Except.bind] at h
        cases he2 : p1.expect "indent" with
        | error e => rw [he2] at h; simp [Except.bind] at h
        | ok r2 =>
          obtain ⟨tk2, p2⟩ := r2
          rw [he2] at h
          simp only [Except.bind] at h
          cases hcl : Parser.caseLoop n p2 (emptyBlock.set "filename" (.str p1.filename)) with
          | error e => rw [hcl] at h; simp [Except.bind] at h
          | ok r3 =>
            obtain ⟨blk, p3⟩ := r3
            rw [hcl] at h
            simp only [Except.bind] at h
            cases he3 : p3.expect "outdent" with
            | error e => rw [he3] at h; simp [Except.bind] at h
            | ok r4 =>
              obtain ⟨tk4, p4⟩ := r4
              rw [he3] at h
              simp only [Except.bind] at h
              injection h with h1
              injection h1 with h1 h2
              rw [← h1]
              have hblk := ihCaseLoop _ _ _ _ (NodeWF_emptyBlock.set_other "filename" _
                (by decide) (by decide) (by decide) (by decide) (by decide)) hcl
              exact NodeWF.set_block (NodeWF_leaf _ _ "Case" rfl rfl rfl rfl)
                (objChild_of_wf hblk)
    · intro p blk v p' hblk h
      rw [Parser.caseLoop] at h
      split at h
      · injection h with h1
        injection h1 with h1 h2
        rw [← h1]
        exact hblk
      · split at h
        · exact ihCaseLoop _ _ _ _ hblk h
        · cases hw : Parser.parseWhen n p with
          | error e => rw [hw] at h; simp [Bind.bind, Except.bind] at h
          | ok r =>
            obtain ⟨w, p1⟩ := r
            rw [hw] at h
            simp only [Bind.bind, Except.bind] at h
            exact ihCaseLoop _ _ _ _ (hblk.push_nodes (ihWhen _ _ _ hw)) h
        · cases hw : Parser.parseDefault n p with
          | error e => rw [hw] at h; simp [Bind.bind, Except.bind] at h
          | ok r =>
            obtain ⟨w, p1⟩ := r
            rw [hw] at h
            simp only [Bind.bind, Except.bind] at h
            exact ihCaseLoop _ _ _ _ (hblk.push_nodes (ihDefault _ _ _ hw)) h
        · simp at h
    · intro p v p' h
      rw [Parser.parseWhen] at h
      cases he : p.expect "when" with
      | error e => rw [he] at h; simp [Bind.bind, Except.bind] at h
      | ok r =>
        obtain ⟨tok, p1⟩ := r
        rw [he] at h
        simp only [Bind.bind, Except.bind] at h
        split at h
        · cases hb : Parser.parseBlockExpansion n p1 with
          | error e => rw [hb] at h; simp [Except.bind] at h
          | ok r2 =>
            obtain ⟨blk, p2⟩ := r2
            rw [hb] at h
            simp only [Except.bind] at h
            injection h with h1
            injection h1 with h1 h2
            rw [← h1]
            exact NodeWF_block_literal _ _ "When" blk rfl rfl rfl
              (by simp [childNodes, mkObj, JVal.get, JObj.get, JVal.getArrList, objChild])
              (ihBlockExp _ _ _ hb)
        · injection h with h1
          injection h1 with h1 h2
          rw [← h1]
          exact NodeWF_leaf _ _ "When" rfl rfl rfl rfl
    · intro p v p' h
      rw [Parser.parseDefault] at h
      cases he : p.expect "default" with
      | error e => rw [he] at h; simp [Bind.bind, Except.bind] at h
      | ok r =>
        obtain ⟨tok, p1⟩ := r
        rw [he] at h
        simp only [Bind.bind, Except.bind] at h
        cases hb : Parser.parseBlockExpansion n p1 with
        | error e => rw [hb] at h; simp [Except.bind] at h
        | ok r2 =>
          obtain ⟨blk, p2⟩ := r2
          rw [hb] at h
          simp only [Except.bind] at h
          injection h with h1
          injection h1 with h1 h2
          rw [← h1]
          exact NodeWF_block_literal _ _ "When" blk rfl rfl rfl
            (by simp [childNodes, mkObj, JVal.get, JObj.get, JVal.getArrList, objChild])
            (ihBlockExp _ _ _ hb)
    · intro p v p' h
      rw [Parser.parseCode] at h
      cases he : p.expect "code" with
      | error e => rw [he] at h; simp [Bind.bind, Except.bind] at h
      | ok r =>
        obtain ⟨tok, p1⟩ := r
        rw [he] at h
        simp only [Bind.bind, Except.bind] at h
        split at h
        · simp at h
        · have hnode : NodeWF ((if matchElse tok.val then
              (mkObj [("type", JVal.str "Code"), ("val", JVal.str tok.val),
                ("buffer", JVal.bool tok.buffer),
                ("escape", JVal.bool tok.escape)]).set "debug" (JVal.bool false)
            else
              mkObj [("type", JVal.str "Code"), ("val", JVal.str tok.val),
                ("buffer", JVal.bool tok.buffer),
                ("escape", JVal.bool tok.escape)]).set "line" (JVal.num p1.line)) := by
            split
            · refine NodeWF.set_other (NodeWF.set_other ?_ "debug" _ (by decide) (by decide)
                (by decide) (by decide) (by decide)) "line" _ (by decide) (by decide)
                (by decide) (by decide) (by decide)
              exact NodeWF_leaf _ _ "Code" rfl rfl rfl rfl
            · refine NodeWF.set_other ?_ "line" _ (by decide) (by decide) (by decide)
                (by decide) (by decide)
              exact NodeWF_leaf _ _ "Code" rfl rfl rfl rfl
          split at h
          · cases hbn : Parser.block n p1 with
            | error e => rw [hbn] at h; simp [Except.bind] at h
            | ok r2 =>
              obtain ⟨b, p2⟩ := r2
              rw [hbn] at h
              simp only [Except.bind, pure, Except.pure] at h
              have hbwf := objChild_of_wf (ihBlock _ _ _ hbn)
              split at h
              · injection h with h1
                injection h1 with h1 h2
                rw [← h1]
                exact (hnode.set_block hbwf).set_block (objChild_of_wf NodeWF_emptyBlock)
              · injection h with h1
                injection h1 with h1 h2
                rw [← h1]
                exact hnode.set_block hbwf
          · simp only [Except.bind, pure, Except.pure] at h
            split at h
            · injection h with h1
              injection h1 with h1 h2
              rw [← h1]
              exact hnode.set_block (objChild_of_wf NodeWF_emptyBlock)
            · injection h with h1
              injection h1 with h1 h2
              rw [← h1]
              exact hnode
    · intro p v p' h
      rw [Parser.parseComment] at h
      cases he : p.expect "comment" with
      | error e => rw [he] at h; simp [Bind.bind, Except.bind] at h
      | ok r =>
        obtain ⟨tok, p1⟩ := r
        rw [he] at h
        simp only [Bind.bind, Except.bind] at h
        cases htb : Parser.parseTextBlock n p1 with
        | error e => rw [htb] at h; simp [Except.bind] at h
        | ok r2 =>
          obtain ⟨ob, p2⟩ := r2
          rw [htb] at h
          simp only [Except.bind] at h
          cases ob with
          | some blk =>
            injection h with h1
            injection h1 with h1 h2
            rw [← h1]
            exact NodeWF_block_literal _ _ "BlockComment" blk rfl rfl rfl
              (by simp [childNodes, mkObj, JVal.get, JObj.get, JVal.getArrList, objChild])
              (ihTextBlock _ _ _ htb blk rfl)
          | none =>
            injection h with h1
            injection h1 with h1 h2
            rw [← h1]
            exact NodeWF_leaf _ _ "Comment" rfl rfl rfl rfl
    · intro p v p' h
      rw [Parser.parseFilter] at h
      cases he : p.expect "filter" with
      | error e => rw [he] at h; simp [Bind.bind, Except.bind] at h
      | ok r =>
        obtain ⟨tok, p1⟩ := r
        rw [he] at h
        simp only [Bind.bind, Except.bind] at h
        cases hacc : p1.accept "attrs" with
        | none =>
          rw [hacc] at h
          simp only [Option.map, Option.getD] at h
          cases htb : Parser.parseTextBlock n p1 with
          | error e => rw [htb] at h; simp [Except.bind] at h
          | ok r2 =>
            obtain ⟨ob, p2⟩ := r2
            rw [htb] at h
            simp only [Except.bind] at h
            cases ob with
            | some b =>
              injection h with h1
              injection h1 with h1 h2
              rw [← h1]
              exact NodeWF_block_literal _ _ "Filter" b rfl rfl rfl
                (by simp [childNodes, mkObj, JVal.get, JObj.get, JVal.getArrList, objChild,
                  Option.getD])
                (ihTextBlock _ _ _ htb b rfl)
            | none =>
              injection h with h1
              injection h1 with h1 h2
              rw [← h1]
              exact NodeWF_block_literal _ _ "Filter" emptyBlock rfl rfl rfl
                (by simp [childNodes, mkObj, JVal.get, JObj.get, JVal.getArrList, objChild,
                  Option.getD])
                NodeWF_emptyBlock
        | some r2 =>
          obtain ⟨at2, p2⟩ := r2
          rw [hacc] at h
          simp only [Option.map, Option.getD] at h
          cases htb : Parser.parseTextBlock n p2 with
          | error e => rw [htb] at h; simp [Except.bind] at h
          | ok r3 =>
            obtain ⟨ob, p3⟩ := r3
            rw [htb] at h
            simp only [Except.bind] at h
            cases ob with
            | some b =>
              injection h with h1
              injection h1 with h1 h2
              rw [← h1]
              exact NodeWF_block_literal _ _ "Filter" b rfl rfl rfl
                (by simp [childNodes, mkObj, JVal.get, JObj.get, JVal.getArrList, objChild,
                  Option.getD])
                (ihTextBlock _ _ _ htb b rfl)
            | none =>
              injection h with h1
              injection h1 with h1 h2
              rw [← h1]
              exact NodeWF_block_literal _ _ "Filter" emptyBlock rfl rfl rfl
                (by simp [childNodes, mkObj, JVal.get, JObj.get, JVal.getArrList, objChild,
                  Option.getD])
                NodeWF_emptyBlock
    · intro p v p' h
      rw [Parser.parseEach] at h
      cases he : p.expect "each" with
      | error e => rw [he] at h; simp [Bind.bind, Except.bind] at h
      | ok r =>
        obtain ⟨tok, p1⟩ := r
        rw [he] at h
        simp only [Bind.bind, Except.bind] at h
        cases hb : Parser.block n p1 with
        | error e => rw [hb] at h; simp [Except.bind] at h
        | ok r2 =>
          obtain ⟨blk, p2⟩ := r2
          rw [hb] at h
          simp only [Except.bind] at h
          have hnode : NodeWF (mkObj [("type", JVal.str "Each"), ("obj", JVal.str tok.code),
              ("val", JVal.str tok.val), ("key", optStrNullJ tok.key), ("block", blk),
              ("line", JVal.num tok.line)]) :=
            NodeWF_block_literal _ _ "Each" blk rfl rfl rfl
              (by simp [childNodes, mkObj, JVal.get, JObj.get, JVal.getArrList, objChild])
              (ihBlock _ _ _ hb)
          split at h
          · split at h
            · simp at h
            · rename_i r3 heq3
              obtain ⟨alt, p4⟩ := r3
              injection h with h1
              injection h1 with h1 h2
              rw [← h1]
              exact hnode.set_alternative (objChild_of_wf (ihBlock _ _ _ heq3))
          · injection h with h1
            injection h1 with h1 h2
            rw [← h1]
            exact hnode
    · intro p v p' h
      rw [Parser.parseBlock] at h
      cases he : p.expect "block" with
      | error e => rw [he] at h; simp [Bind.bind, Except.bind] at h
      | ok r =>
        obtain ⟨tok, p1⟩ := r
        rw [he] at h
        simp only [Bind.bind, Except.bind] at h
        split at h
        · cases hb : Parser.block n p1 with
          | error e => rw [hb] at h; simp [Except.bind] at h
          | ok r2 =>
            obtain ⟨node, p2⟩ := r2
            rw [hb] at h
            simp only [Except.bind, pure, Except.pure] at h
            injection h with h1
            injection h1 with h1 h2
            rw [← h1]
            exact ((((ihBlock _ _ _ hb).set_type "NamedBlock").set_other "name" _
              (by decide) (by decide) (by decide) (by decide) (by decide)).set_other
              "mode" _ (by decide) (by decide) (by decide) (by decide) (by decide)).set_other
              "line" _ (by decide) (by decide) (by decide) (by decide) (by decide)
        · simp only [Except.bind, pure, Except.pure] at h
          injection h with h1
          injection h1 with h1 h2
          rw [← h1]
          exact (((NodeWF_emptyBlock.set_type "NamedBlock").set_other "name" _
            (by decide) (by decide) (by decide) (by decide) (by decide)).set_other
            "mode" _ (by decide) (by decide) (by decide) (by decide) (by decide)).set_other
            "line" _ (by decide) (by decide) (by decide) (by decide) (by decide)
    · intro p v p' h
      rw [Parser.parseInclude] at h
      cases he : p.expect "include" with
      | error e => rw [he] at h; simp [Bind.bind, Except.bind] at h
      | ok r =>
        obtain ⟨tok, p1⟩ := r
        rw [he] at h
        simp only [Bind.bind, Except.bind] at h
        split at h
        · cases hb : Parser.block n p1 with
          | error e => rw [hb] at h; simp [Except.bind] at h
          | ok r2 =>
            obtain ⟨blk, p2⟩ := r2
            rw [hb] at h
            simp only [Except.bind, pure, Except.pure] at h
            injection h with h1
            injection h1 with h1 h2
            rw [← h1]
            exact NodeWF_block_literal _ _ "Include" blk rfl rfl rfl
              (by simp [childNodes, mkObj, JVal.get, JObj.get, JVal.getArrList, objChild])
              (ihBlock _ _ _ hb)
        · simp only [Except.bind, pure, Except.pure] at h
          injection h with h1
          injection h1 with h1 h2
          rw [← h1]
          exact NodeWF_block_literal _ _ "Include" emptyBlock rfl rfl rfl
            (by simp [childNodes, mkObj, JVal.get, JObj.get, JVal.getArrList, objChild])
            NodeWF_emptyBlock
    · intro p v p' h
      rw [Parser.parseCall] at h
      cases he : p.expect "call" with
      | error e => rw [he] at h; simp [Bind.bind, Except.bind] at h
      | ok r =>
        obtain ⟨tok, p1⟩ := r
        rw [he] at h
        simp only [Bind.bind, Except.bind] at h
        cases ht : Parser.tag n p1 (mkObj [("type", JVal.str "Mixin"),
            ("name", JVal.str tok.val), ("args", optStrNullJ tok.args),
            ("block", emptyBlock), ("call", JVal.bool true), ("attrs", mkArr []),
            ("attributeBlocks", mkArr [])]) with
        | error e => rw [ht] at h; simp [Except.bind] at h
        | ok r2 =>
          obtain ⟨m2, p2⟩ := r2
          rw [ht] at h
          simp only [Except.bind] at h
          have hmwf : NodeWF (mkObj [("type", JVal.str "Mixin"),
              ("name", JVal.str tok.val), ("args", optStrNullJ tok.args),
              ("block", emptyBlock), ("call", JVal.bool true), ("attrs", mkArr []),
              ("attributeBlocks", mkArr [])]) :=
            NodeWF_block_literal _ _ "Mixin" emptyBlock rfl rfl rfl
              (by simp [childNodes, mkObj, JVal.get, JObj.get, JVal.getArrList, objChild])
              NodeWF_emptyBlock
          obtain ⟨hm2, hcode2⟩ := ihTagFn _ _ _ _ hmwf
            (fun hc => by simp [truthy, mkObj, JVal.get, JObj.get] at hc) ht
          obtain ⟨f2, rfl⟩ := hm2.isObj
          split at h
          · rename_i hc
            obtain ⟨g, hg⟩ := hcode2 hc
            have hcodewf : NodeWF ((JVal.obj f2).get "code") :=
              hm2.children _ (mem_childNodes_code (by rw [hg]; simp [objChild]))
            have hpush : ∀ c ∈ objChild (((JVal.obj f2).get "block").pushKey "nodes"
                ((JVal.obj f2).get "code")), NodeWF c := by
              cases hblk : (JVal.obj f2).get "block" with
              | obj bf =>
                intro c hc2
                rw [objChild_cases _ c hc2]
                exact (hm2.children _ (mem_childNodes_block
                  (by rw [hblk]; simp [objChild]))).push_nodes hcodewf
              | undef =>
                intro c hc2
                simp [JVal.pushKey, JVal.get, objChild] at hc2
              | null =>
                intro c hc2
                simp [JVal.pushKey, JVal.get, objChild] at hc2
              | bool b =>
                intro c hc2
                simp [JVal.pushKey, JVal.get, objChild] at hc2
              | num m =>
                intro c hc2
                simp [JVal.pushKey, JVal.get, objChild] at hc2
              | str s =>
                intro c hc2
                simp [JVal.pushKey, JVal.get, objChild] at hc2
              | arr l =>
                intro c hc2
                simp [JVal.pushKey, JVal.get, objChild] at hc2
            have hm3t := (hm2.set_block hpush).del_code
            split at h
            · injection h with h1
              injection h1 with h1 h2
              rw [← h1]
              refine NodeWF.set_block hm3t ?_
              intro c hc2
              simp [objChild] at hc2
            · injection h with h1
              injection h1 with h1 h2
              rw [← h1]
              exact hm3t
          · split at h
            · injection h with h1
              injection h1 with h1 h2
              rw [← h1]
              refine NodeWF.set_block hm2 ?_
              intro c hc2
              simp [objChild] at hc2
            · injection h with h1
              injection h1 with h1 h2
              rw [← h1]
              exact hm2
    · intro p v p' h
      rw [Parser.parseMixin] at h
      cases he : p.expect "mixin" with
      | error e => rw [he] at h; simp [Bind.bind, Except.bind] at h
      | ok r =>
        obtain ⟨tok, p1⟩ := r
        rw [he] at h
        simp only [Bind.bind, Except.bind] at h
        split at h
        · cases hb : Parser.block n { p1 with inMixin := true } with
          | error e => rw [hb] at h; simp [Except.bind] at h
          | ok r2 =>
            obtain ⟨blk, p2⟩ := r2
            rw [hb] at h
            simp only [Except.bind] at h
            injection h with h1
            injection h1 with h1 h2
            rw [← h1]
            exact NodeWF_block_literal _ _ "Mixin" blk rfl rfl rfl
              (by simp [childNodes, mkObj, JVal.get, JObj.get, JVal.getArrList, objChild])
              (ihBlock _ _ _ hb)
        · injection h with h1
          injection h1 with h1 h2
          rw [← h1]
          exact NodeWF_leaf _ _ "Mixin" rfl rfl rfl rfl
    · intro p ob p' h
      rw [Parser.parseTextBlock] at h
      split at h
      · injection h with h1
        injection h1 with h1 h2
        intro b hb
        rw [← h1] at hb
        cases hb
      · split at h
        rename_i tok1 p1 hadv
        cases htl : Parser.textBlockLoop n p1 emptyBlock with
        | error e => rw [htl] at h; simp [Bind.bind, Except.bind] at h
        | ok r =>
          obtain ⟨blk, p2⟩ := r
          rw [htl] at h
          simp only [Bind.bind, Except.bind] at h
          injection h with h1
          injection h1 with h1 h2
          intro b hb
          rw [← h1] at hb
          injection hb with hb
          rw [← hb]
          exact ihTextBlockLoop _ _ _ _ NodeWF_emptyBlock htl
    · intro p blk v p' hblk h
      rw [Parser.textBlockLoop] at h
      split at h
      · injection h with h1
        injection h1 with h1 h2
        rw [← h1]
        exact hblk
      · split at h
        rename_i tok1 p1 hadv
        split at h
        · exact ihTextBlockLoop _ _ _ _ (hblk.push_nodes (NodeWF_textNode _)) h
        · exact ihTextBlockLoop _ _ _ _ (hblk.push_nodes (NodeWF_textNode _)) h
        · cases hx : Parser.parseExpr n p1 with
          | error e => rw [hx] at h; simp [Bind.bind, Except.bind] at h
          | ok r =>
            obtain ⟨e1, p2⟩ := r
            rw [hx] at h
            simp only [Bind.bind, Except.bind] at h
            cases hex : p2.expect "end-jade-interpolation" with
            | error e => rw [hex] at h; simp [Except.bind] at h
            | ok r2 =>
              obtain ⟨t2, p3⟩ := r2
              rw [hex] at h
              simp only [Except.bind] at h
              exact ihTextBlockLoop _ _ _ _ (hblk.push_nodes (ihExpr _ _ _ hx)) h
        · simp at h
    · intro p v p' h
      rw [Parser.block] at h
      cases he : p.expect "indent" with
      | error e => rw [he] at h; simp [Bind.bind, Except.bind] at h
      | ok r =>
        obtain ⟨t1, p1⟩ := r
        rw [he] at h
        simp only [Bind.bind, Except.bind] at h
        cases hbl : Parser.blockLoop n p1
            ((emptyBlock.set "line" (JVal.num p.line)).set "filename"
              (JVal.str p.filename)) with
        | error e => rw [hbl] at h; simp [Except.bind] at h
        | ok r2 =>
          obtain ⟨blk2, p2⟩ := r2
          rw [hbl] at h
          simp only [Except.bind] at h
          cases he2 : p2.expect "outdent" with
          | error e => rw [he2] at h; simp [Except.bind] at h
          | ok r3 =>
            obtain ⟨t3, p3⟩ := r3
            rw [he2] at h
            simp only [Except.bind] at h
            injection h with h1
            injection h1 with h1 h2
            rw [← h1]
            exact ihBlockLoop _ _ _ _
              ((NodeWF_emptyBlock.set_other "line" _ (by decide) (by decide) (by decide)
                (by decide) (by decide)).set_other "filename" _ (by decide) (by decide)
                (by decide) (by decide) (by decide)) hbl
    · intro p blk v p' hblk h
      rw [Parser.blockLoop] at h
      split at h
      · injection h with h1
        injection h1 with h1 h2
        rw [← h1]
        exact hblk
      · split at h
        · exact ihBlockLoop _ _ _ _ hblk h
        · split at h
          · cases hth : Parser.parseTextHtml n p with
            | error e => rw [hth] at h; simp [Bind.bind, Except.bind] at h
            | ok r =>
              obtain ⟨ns, p2⟩ := r
              rw [hth] at h
              simp only [Bind.bind, Except.bind] at h
              exact ihBlockLoop _ _ _ _ (hblk.concat (ihTextHtml _ _ _ hth)) h
          · cases hx : Parser.parseExpr n p with
            | error e => rw [hx] at h; simp [Bind.bind, Except.bind] at h
            | ok r =>
              obtain ⟨e1, p2⟩ := r
              rw [hx] at h
              simp only [Bind.bind, Except.bind] at h
              exact ihBlockLoop _ _ _ _ (hblk.push_nodes ((ihExpr _ _ _ hx).set_other
                "filename" _ (by decide) (by decide) (by decide) (by decide) (by decide))) h
    · intro p v p' h
      rw [Parser.parseInterpolation] at h
      split at h
      rename_i tok1 p1 hadv
      have htg : NodeWF (mkObj [("type", JVal.str "Tag"), ("name", JVal.str tok1.val),
          ("selfClosing", optBoolJ tok1.selfClosing), ("block", emptyBlock),
          ("attrs", mkArr []), ("attributeBlocks", mkArr []),
          ("buffer", JVal.bool true), ("isInline", JVal.bool false)]) :=
        NodeWF_block_literal _ _ "Tag" emptyBlock rfl rfl rfl
          (by simp [childNodes, mkObj, JVal.get, JObj.get, JVal.getArrList, objChild])
          NodeWF_emptyBlock
      exact (ihTagFn _ _ _ _ htg
        (fun hc => by simp [truthy, mkObj, JVal.get, JObj.get] at hc) h).1
    · intro p v p' h
      rw [Parser.parseTag] at h
      split at h
      rename_i tok1 p1 hadv
      have htg : NodeWF (mkObj [("type", JVal.str "Tag"), ("name", JVal.str tok1.val),
          ("selfClosing", optBoolJ tok1.selfClosing), ("block", emptyBlock),
          ("attrs", mkArr []), ("attributeBlocks", mkArr []),
          ("isInline", JVal.bool (inlineTags.contains tok1.val))]) :=
        NodeWF_block_literal _ _ "Tag" emptyBlock rfl rfl rfl
          (by simp [childNodes, mkObj, JVal.get, JObj.get, JVal.getArrList, objChild])
          NodeWF_emptyBlock
      exact (ihTagFn _ _ _ _ htg
        (fun hc => by simp [truthy, mkObj, JVal.get, JObj.get] at hc) h).1
    · intro p tg seen names v p' hwf hco h
      rw [Parser.tagAttrs] at h
      split at h
      · split at h
        rename_i tok1 p1 hadv
        split at h
        · simp at h
        · exact ihTagAttrs _ _ _ _ _ _
            (hwf.push_other "attrs" (by decide) (by decide) (by decide) (by decide)
              (by decide))
            (by rw [JVal.pushKey_get_other tg "attrs" "code" _ (by decide)]; exact hco) h
      · split at h
        · split at h
          rename_i tok1 p1 hadv
          split at h
          · simp only [] at h
            cases hae : attrEntries tok1.attrs (tg.set "selfClosing" (JVal.bool true))
                names with
            | error e => rw [hae] at h; simp at h
            | ok r2 =>
              obtain ⟨tg2, names2⟩ := r2
              rw [hae] at h
              obtain ⟨hwf2, hco2⟩ := attrEntries_wf _ _ _ _ _
                (hwf.set_other "selfClosing" _ (by decide) (by decide) (by decide)
                  (by decide) (by decide))
                (by rw [JVal.get_set_other tg "selfClosing" "code" _ (by decide)]; exact hco)
                hae
              exact ihTagAttrs _ _ _ _ _ _ hwf2 hco2 h
          · simp only [] at h
            cases hae : attrEntries tok1.attrs tg names with
            | error e => rw [hae] at h; simp at h
            | ok r2 =>
              obtain ⟨tg2, names2⟩ := r2
              rw [hae] at h
              obtain ⟨hwf2, hco2⟩ := attrEntries_wf _ _ _ _ _ hwf hco hae
              exact ihTagAttrs _ _ _ _ _ _ hwf2 hco2 h
        · split at h
          · split at h
            rename_i tok1 p1 hadv
            exact ihTagAttrs _ _ _ _ _ _
              (hwf.push_other "attributeBlocks" (by decide) (by decide) (by decide)
                (by decide) (by decide))
              (by rw [JVal.pushKey_get_other tg "attributeBlocks" "code" _ (by decide)]
                  exact hco) h
          · injection h with h1
            injection h1 with h1 h2
            rw [← h1]
            exact ⟨hwf, hco⟩
    · intro p tg v p' hwf hco h
      rw [Parser.tag] at h
      simp only [Bind.bind, Except.bind] at h
      cases ha : Parser.tagAttrs n p (tg.set "line" (JVal.num p.line)) false [] with
      | error e => rw [ha] at h; simp [Except.bind] at h
      | ok r =>
        obtain ⟨tg2, p2⟩ := r
        rw [ha] at h
        simp only [Except.bind] at h
        obtain ⟨hwf2, hco2⟩ := ihTagAttrs _ _ _ _ _ _
          (hwf.set_other "line" _ (by decide) (by decide) (by decide) (by decide)
            (by decide))
          (by rw [JVal.get_set_other tg "line" "code" _ (by decide)]; exact hco) ha
        by_cases hdot : (p2.peek.type == "dot") = true
        · rw [if_pos hdot] at h
          dsimp only at h
          have hwf3 : NodeWF (tg2.set "textOnly" (JVal.bool true)) :=
            hwf2.set_other "textOnly" _ (by decide) (by decide) (by decide) (by decide)
            (by decide)
          have hco3 : truthy ((tg2.set "textOnly" (JVal.bool true)).get "code") = true →
              ∃ g, (tg2.set "textOnly" (JVal.bool true)).get "code" = JVal.obj g := by
            rw [JVal.get_set_other _ "textOnly" "code" _ (by decide)]
            exact hco2
          split at h
          · cases ht2 : Parser.parseText n p2.advance.2 false with
            | error e => rw [ht2] at h; simp [Except.bind] at h
            | ok r2 =>
              obtain ⟨t2, p4⟩ := r2
              rw [ht2] at h
              simp only [Except.bind, pure, Except.pure] at h
              have hwf4 : NodeWF (((tg2.set "textOnly" (JVal.bool true)).set "block" (((tg2.set "textOnly" (JVal.bool true)).get "block").pushKey "nodes" t2))) :=
                hwf3.set_block (push_objChild_wf (get_block_objChild_wf hwf3)
                  (ihText _ _ _ _ ht2))
              have hco4 : truthy (((tg2.set "textOnly" (JVal.bool true)).set "block" (((tg2.set "textOnly" (JVal.bool true)).get "block").pushKey "nodes" t2)).get "code") = true →
                  ∃ g, ((tg2.set "textOnly" (JVal.bool true)).set "block" (((tg2.set "textOnly" (JVal.bool true)).get "block").pushKey "nodes" t2)).get "code" = JVal.obj g := by
                rw [JVal.get_set_other _ "block" "code" _ (by decide)]
                exact hco3
              split at h
              · cases htb : Parser.parseTextBlock n p4.skipNewlines with
                | error e => rw [htb] at h; simp [Except.bind] at h
                | ok r3 =>
                  obtain ⟨ob, p6⟩ := r3
                  rw [htb] at h
                  simp only [Except.bind] at h
                  injection h with h1
                  injection h1 with h1 h2
                  rw [← h1]
                  constructor
                  · refine NodeWF.set_block hwf4 ?_
                    cases ob with
                    | none =>
                      intro c hc3
                      rw [objChild_cases _ c hc3]
                      exact NodeWF_emptyBlock
                    | some b =>
                      intro c hc3
                      rw [objChild_cases _ c hc3]
                      exact ihTextBlock _ _ _ htb b rfl
                  · rw [JVal.get_set_other _ "block" "code" _ (by decide)]
                    exact hco4
              · split at h
                · cases hb2 : Parser.block n p4.skipNewlines with
                  | error e => rw [hb2] at h; simp [Except.bind] at h
                  | ok r3 =>
                    obtain ⟨blk, p6⟩ := r3
                    rw [hb2] at h
                    simp only [Except.bind] at h
                    injection h with h1
                    injection h1 with h1 h2
                    rw [← h1]
                    constructor
                    · exact NodeWF.set_block hwf4 (concat_objChild_wf
                        (get_block_objChild_wf hwf4) (get_nodes_list_wf (ihBlock _ _ _ hb2)))
                    · rw [JVal.get_set_other _ "block" "code" _ (by decide)]
                      exact hco4
                · injection h with h1
                  injection h1 with h1 h2
                  rw [← h1]
                  exact ⟨hwf4, hco4⟩
          · cases hc2 : Parser.parseCode n p2.advance.2 with
            | error e => rw [hc2] at h; simp [Except.bind] at h
            | ok r2 =>
              obtain ⟨c2, p4⟩ := r2
              rw [hc2] at h
              simp only [Except.bind, pure, Except.pure] at h
              have hwf4 : NodeWF ((tg2.set "textOnly" (JVal.bool true)).set "code" c2) :=
                hwf3.set_code (objChild_of_wf (ihCode _ _ _ hc2))
              have hco4 : truthy (((tg2.set "textOnly" (JVal.bool true)).set "code" c2).get "code") = true →
                  ∃ g, ((tg2.set "textOnly" (JVal.bool true)).set "code" c2).get "code" = JVal.obj g := by
                intro hc
                obtain ⟨f3, hf3⟩ := hwf3.isObj
                obtain ⟨g2, hg2⟩ := (ihCode _ _ _ hc2).isObj
                refine ⟨g2, ?_⟩
                rw [hf3, JVal.get_set_self_obj f3 "code" c2, hg2]
              split at h
              · cases htb : Parser.parseTextBlock n p4.skipNewlines with
                | error e => rw [htb] at h; simp [Except.bind] at h
                | ok r3 =>
                  obtain ⟨ob, p6⟩ := r3
                  rw [htb] at h
                  simp only [Except.bind] at h
                  injection h with h1
                  injection h1 with h1 h2
                  rw [← h1]
                  constructor
                  · refine NodeWF.set_block hwf4 ?_
                    cases ob with
                    | none =>
                      intro c hc3
                      rw [objChild_cases _ c hc3]
                      exact NodeWF_emptyBlock
                    | some b =>
                      intro c hc3
                      rw [objChild_cases _ c hc3]
                      exact ihTextBlock _ _ _ htb b rfl
                  · rw [JVal.get_set_other _ "block" "code" _ (by decide)]
                    exact hco4
              · split at h
                · cases hb2 : Parser.block n p4.skipNewlines with
                  | error e => rw [hb2] at h; simp [Except.bind] at h
                  | ok r3 =>
                    obtain ⟨blk, p6⟩ := r3
                    rw [hb2] at h
                    simp only [Except.bind] at h
                    injection h with h1
                    injection h1 with h1 h2
                    rw [← h1]
                    constructor
                    · exact NodeWF.set_block hwf4 (concat_objChild_wf
                        (get_block_objChild_wf hwf4) (get_nodes_list_wf (ihBlock _ _ _ hb2)))
                    · rw [JVal.get_set_other _ "block" "code" _ (by decide)]
                      exact hco4
                · injection h with h1
                  injection h1 with h1 h2
                  rw [← h1]
                  exact ⟨hwf4, hco4⟩
          · cases he2 : Parser.parseExpr n (p2.advance.2).advance.2 with
            | error e => rw [he2] at h; simp [Except.bind] at h
            | ok r2 =>
              obtain ⟨e2, p4⟩ := r2
              rw [he2] at h
              simp only [Except.bind, pure, Except.pure] at h
              have hwf4 : NodeWF ((tg2.set "textOnly" (JVal.bool true)).set "block" (mkObj [("type", JVal.str "Block"), ("nodes", mkArr [e2])])) :=
                hwf3.set_block (objChild_of_wf (NodeWF_blockList [e2] (fun x hx => by
                  rw [List.mem_singleton.mp hx]; exact ihExpr _ _ _ he2)))
              have hco4 : truthy (((tg2.set "textOnly" (JVal.bool true)).set "block" (mkObj [("type", JVal.str "Block"), ("nodes", mkArr [e2])])).get "code") = true →
                  ∃ g, ((tg2.set "textOnly" (JVal.bool true)).set "block" (mkObj [("type", JVal.str "Block"), ("nodes", mkArr [e2])])).get "code" = JVal.obj g := by
                rw [JVal.get_set_other _ "block" "code" _ (by decide)]
                exact hco3
              split at h
              · cases htb : Parser.parseTextBlock n p4.skipNewlines with
                | error e => rw [htb] at h; simp [Except.bind] at h
                | ok r3 =>
                  obtain ⟨ob, p6⟩ := r3
                  rw [htb] at h
                  simp only [Except.bind] at h
                  injection h with h1
                  injection h1 with h1 h2
                  rw [← h1]
                  constructor
                  · refine NodeWF.set_block hwf4 ?_
                    cases ob with
                    | none =>
                      intro c hc3
                      rw [objChild_cases _ c hc3]
                      exact NodeWF_emptyBlock
                    | some b =>
                      intro c hc3
                      rw [objChild_cases _ c hc3]
                      exact ihTextBlock _ _ _ htb b rfl
                  · rw [JVal.get_set_other _ "block" "code" _ (by decide)]
                    exact hco4
              · split at h
                · cases hb2 : Parser.block n p4.skipNewlines with
                  | error e => rw [hb2] at h; simp [Except.bind] at h
                  | ok r3 =>
                    obtain ⟨blk, p6⟩ := r3
                    rw [hb2] at h
                    simp only [Except.bind] at h
                    injection h with h1
                    injection h1 with h1 h2
                    rw [← h1]
                    constructor
                    · exact NodeWF.set_block hwf4 (concat_objChild_wf
                        (get_block_objChild_wf hwf4) (get_nodes_list_wf (ihBlock _ _ _ hb2)))
                    · rw [JVal.get_set_other _ "block" "code" _ (by decide)]
                      exact hco4
                · injection h with h1
                  injection h1 with h1 h2
                  rw [← h1]
                  exact ⟨hwf4, hco4⟩
          · simp only [Except.bind, pure, Except.pure] at h
            split at h
            · cases htb : Parser.parseTextBlock n (p2.advance.2).skipNewlines with
              | error e => rw [htb] at h; simp [Except.bind] at h
              | ok r3 =>
                obtain ⟨ob, p6⟩ := r3
                rw [htb] at h
                simp only [Except.bind] at h
                injection h with h1
                injection h1 with h1 h2
                rw [← h1]
                constructor
                · refine NodeWF.set_block hwf3 ?_
                  cases ob with
                  | none =>
                    intro c hc3
                    rw [objChild_cases _ c hc3]
                    exact NodeWF_emptyBlock
                  | some b =>
                    intro c hc3
                    rw [objChild_cases _ c hc3]
                    exact ihTextBlock _ _ _ htb b rfl
                · rw [JVal.get_set_other _ "block" "code" _ (by decide)]
                  exact hco3
            · split at h
              · cases hb2 : Parser.block n (p2.advance.2).skipNewlines with
                | error e => rw [hb2] at h; simp [Except.bind] at h
                | ok r3 =>
                  obtain ⟨blk, p6⟩ := r3
                  rw [hb2] at h
                  simp only [Except.bind] at h
                  injection h with h1
                  injection h1 with h1 h2
                  rw [← h1]
                  constructor
                  · exact NodeWF.set_block hwf3 (concat_objChild_wf
                      (get_block_objChild_wf hwf3) (get_nodes_list_wf (ihBlock _ _ _ hb2)))
                  · rw [JVal.get_set_other _ "block" "code" _ (by decide)]
                    exact hco3
              · injection h with h1
                injection h1 with h1 h2
                rw [← h1]
                exact ⟨hwf3, hco3⟩
          · simp only [Except.bind, pure, Except.pure] at h
            split at h
            · cases htb : Parser.parseTextBlock n (p2.advance.2).skipNewlines with
              | error e => rw [htb] at h; simp [Except.bind] at h
              | ok r3 =>
                obtain ⟨ob, p6⟩ := r3
                rw [htb] at h
                simp only [Except.bind] at h
                injection h with h1
                injection h1 with h1 h2
                rw [← h1]
                constructor
                · refine NodeWF.set_block hwf3 ?_
                  cases ob with
                  | none =>
                    intro c hc3
                    rw [objChild_cases _ c hc3]
                    exact NodeWF_emptyBlock
                  | some b =>
                    intro c hc3
                    rw [objChild_cases _ c hc3]
                    exact ihTextBlock _ _ _ htb b rfl
                · rw [JVal.get_set_other _ "block" "code" _ (by decide)]
                  exact hco3
            · split at h
              · cases hb2 : Parser.block n (p2.advance.2).skipNewlines with
                | error e => rw [hb2] at h; simp [Except.bind] at h
                | ok r3 =>
                  obtain ⟨blk, p6⟩ := r3
                  rw [hb2] at h
                  simp only [Except.bind] at h
                  injection h with h1
                  injection h1 with h1 h2
                  rw [← h1]
                  constructor
                  · exact NodeWF.set_block hwf3 (concat_objChild_wf
                      (get_block_objChild_wf hwf3) (get_nodes_list_wf (ihBlock _ _ _ hb2)))
                  · rw [JVal.get_set_other _ "block" "code" _ (by decide)]
                    exact hco3
              · injection h with h1
                injection h1 with h1 h2
                rw [← h1]
                exact ⟨hwf3, hco3⟩
          · simp only [Except.bind, pure, Except.pure] at h
            split at h
            · cases htb : Parser.parseTextBlock n (p2.advance.2).skipNewlines with
              | error e => rw [htb] at h; simp [Except.bind] at h
              | ok r3 =>
                obtain ⟨ob, p6⟩ := r3
                rw [htb] at h
                simp only [Except.bind] at h
                injection h with h1
                injection h1 with h1 h2
                rw [← h1]
                constructor
                · refine NodeWF.set_block hwf3 ?_
                  cases ob with
                  | none =>
                    intro c hc3
                    rw [objChild_cases _ c hc3]
                    exact NodeWF_emptyBlock
                  | some b =>
                    intro c hc3
                    rw [objChild_cases _ c hc3]
                    exact ihTextBlock _ _ _ htb b rfl
                · rw [JVal.get_set_other _ "block" "code" _ (by decide)]
                  exact hco3
            · split at h
              · cases hb2 : Parser.block n (p2.advance.2).skipNewlines with
                | error e => rw [hb2] at h; simp [Except.bind] at h
                | ok r3 =>
                  obtain ⟨blk, p6⟩ := r3
                  rw [hb2] at h
                  simp only [Except.bind] at h
                  injection h with h1
                  injection h1 with h1 h2
                  rw [← h1]
                  constructor
                  · exact NodeWF.set_block hwf3 (concat_objChild_wf
                      (get_block_objChild_wf hwf3) (get_nodes_list_wf (ihBlock _ _ _ hb2)))
                  · rw [JVal.get_set_other _ "block" "code" _ (by decide)]
                    exact hco3
              · injection h with h1
                injection h1 with h1 h2
                rw [← h1]
                exact ⟨hwf3, hco3⟩
          · simp only [Except.bind, pure, Except.pure] at h
            split at h
            · cases htb : Parser.parseTextBlock n (p2.advance.2).skipNewlines with
              | error e => rw [htb] at h; simp [Except.bind] at h
              | ok r3 =>
                obtain ⟨ob, p6⟩ := r3
                rw [htb] at h
                simp only [Except.bind] at h
                injection h with h1
                injection h1 with h1 h2
                rw [← h1]
                constructor
                · refine NodeWF.set_block hwf3 ?_
                  cases ob with
                  | none =>
                    intro c hc3
                    rw [objChild_cases _ c hc3]
                    exact NodeWF_emptyBlock
                  | some b =>
                    intro c hc3
                    rw [objChild_cases _ c hc3]
                    exact ihTextBlock _ _ _ htb b rfl
                · rw [JVal.get_set_other _ "block" "code" _ (by decide)]
                  exact hco3
            · split at h
              · cases hb2 : Parser.block n (p2.advance.2).skipNewlines with
                | error e => rw [hb2] at h; simp [Except.bind] at h
                | ok r3 =>
                  obtain ⟨blk, p6⟩ := r3
                  rw [hb2] at h
                  simp only [Except.bind] at h
                  injection h with h1
                  injection h1 with h1 h2
                  rw [← h1]
                  constructor
                  · exact NodeWF.set_block hwf3 (concat_objChild_wf
                      (get_block_objChild_wf hwf3) (get_nodes_list_wf (ihBlock _ _ _ hb2)))
                  · rw [JVal.get_set_other _ "block" "code" _ (by decide)]
                    exact hco3
              · injection h with h1
                injection h1 with h1 h2
                rw [← h1]
                exact ⟨hwf3, hco3⟩
          · simp only [Except.bind, pure, Except.pure] at h
            split at h
            · cases htb : Parser.parseTextBlock n (p2.advance.2).skipNewlines with
              | error e => rw [htb] at h; simp [Except.bind] at h
              | ok r3 =>
                obtain ⟨ob, p6⟩ := r3
                rw [htb] at h
                simp only [Except.bind] at h
                injection h with h1
                injection h1 with h1 h2
                rw [← h1]
                constructor
                · refine NodeWF.set_block hwf3 ?_
                  cases ob with
                  | none =>
                    intro c hc3
                    rw [objChild_cases _ c hc3]
                    exact NodeWF_emptyBlock
                  | some b =>
                    intro c hc3
                    rw [objChild_cases _ c hc3]
                    exact ihTextBlock _ _ _ htb b rfl
                · rw [JVal.get_set_other _ "block" "code" _ (by decide)]
                  exact hco3
            · split at h
              · cases hb2 : Parser.block n (p2.advance.2).skipNewlines with
                | error e => rw [hb2] at h; simp [Except.bind] at h
                | ok r3 =>
                  obtain ⟨blk, p6⟩ := r3
                  rw [hb2] at h
                  simp only [Except.bind] at h
                  injection h with h1
                  injection h1 with h1 h2
                  rw [← h1]
                  constructor
                  · exact NodeWF.set_block hwf3 (concat_objChild_wf
                      (get_block_objChild_wf hwf3) (get_nodes_list_wf (ihBlock _ _ _ hb2)))
                  · rw [JVal.get_set_other _ "block" "code" _ (by decide)]
                    exact hco3
              · injection h with h1
                injection h1 with h1 h2
                rw [← h1]
                exact ⟨hwf3, hco3⟩
          · simp [Except.bind] at h
        · rw [if_neg hdot] at h
          dsimp only at h
          have hwf3 : NodeWF (tg2) :=
            hwf2
          have hco3 : truthy ((tg2).get "code") = true →
              ∃ g, (tg2).get "code" = JVal.obj g := hco2
          split at h
          · cases ht2 : Parser.parseText n p2 false with
            | error e => rw [ht2] at h; simp [Except.bind] at h
            | ok r2 =>
              obtain ⟨t2, p4⟩ := r2
              rw [ht2] at h
              simp only [Except.bind, pure, Except.pure] at h
              have hwf4 : NodeWF (((tg2).set "block" (((tg2).get "block").pushKey "nodes" t2))) :=
                hwf3.set_block (push_objChild_wf (get_block_objChild_wf hwf3)
                  (ihText _ _ _ _ ht2))
              have hco4 : truthy (((tg2).set "block" (((tg2).get "block").pushKey "nodes" t2)).get "code") = true →
                  ∃ g, ((tg2).set "block" (((tg2).get "block").pushKey "nodes" t2)).get "code" = JVal.obj g := by
                rw [JVal.get_set_other _ "block" "code" _ (by decide)]
                exact hco3
              split at h
              · cases htb : Parser.parseTextBlock n p4.skipNewlines with
                | error e => rw [htb] at h; simp [Except.bind] at h
                | ok r3 =>
                  obtain ⟨ob, p6⟩ := r3
                  rw [htb] at h
                  simp only [Except.bind] at h
                  injection h with h1
                  injection h1 with h1 h2
                  rw [← h1]
                  constructor
                  · refine NodeWF.set_block hwf4 ?_
                    cases ob with
                    | none =>
                      intro c hc3
                      rw [objChild_cases _ c hc3]
                      exact NodeWF_emptyBlock
                    | some b =>
                      intro c hc3
                      rw [objChild_cases _ c hc3]
                      exact ihTextBlock _ _ _ htb b rfl
                  · rw [JVal.get_set_other _ "block" "code" _ (by decide)]
                    exact hco4
              · split at h
                · cases hb2 : Parser.block n p4.skipNewlines with
                  | error e => rw [hb2] at h; simp [Except.bind] at h
                  | ok r3 =>
                    obtain ⟨blk, p6⟩ := r3
                    rw [hb2] at h
                    simp only [Except.bind] at h
                    injection h with h1
                    injection h1 with h1 h2
                    rw [← h1]
                    constructor
                    · exact NodeWF.set_block hwf4 (concat_objChild_wf
                        (get_block_objChild_wf hwf4) (get_nodes_list_wf (ihBlock _ _ _ hb2)))
                    · rw [JVal.get_set_other _ "block" "code" _ (by decide)]
                      exact hco4
                · injection h with h1
                  injection h1 with h1 h2
                  rw [← h1]
                  exact ⟨hwf4, hco4⟩
          · cases hc2 : Parser.parseCode n p2 with
            | error e => rw [hc2] at h; simp [Except.bind] at h
            | ok r2 =>
              obtain ⟨c2, p4⟩ := r2
              rw [hc2] at h
              simp only [Except.bind, pure, Except.pure] at h
              have hwf4 : NodeWF ((tg2).set "code" c2) :=
                hwf3.set_code (objChild_of_wf (ihCode _ _ _ hc2))
              have hco4 : truthy (((tg2).set "code" c2).get "code") = true →
                  ∃ g, ((tg2).set "code" c2).get "code" = JVal.obj g := by
                intro hc
                obtain ⟨f3, hf3⟩ := hwf3.isObj
                obtain ⟨g2, hg2⟩ := (ihCode _ _ _ hc2).isObj
                refine ⟨g2, ?_⟩
                rw [hf3, JVal.get_set_self_obj f3 "code" c2, hg2]
              split at h
              · cases htb : Parser.parseTextBlock n p4.skipNewlines with
                | error e => rw [htb] at h; simp [Except.bind] at h
                | ok r3 =>
                  obtain ⟨ob, p6⟩ := r3
                  rw [htb] at h
                  simp only [Except.bind] at h
                  injection h with h1
                  injection h1 with h1 h2
                  rw [← h1]
                  constructor
                  · refine NodeWF.set_block hwf4 ?_
                    cases ob with
                    | none =>
                      intro c hc3
                      rw [objChild_cases _ c hc3]
                      exact NodeWF_emptyBlock
                    | some b =>
                      intro c hc3
                      rw [objChild_cases _ c hc3]
                      exact ihTextBlock _ _ _ htb b rfl
                  · rw [JVal.get_set_other _ "block" "code" _ (by decide)]
                    exact hco4
              · split at h
                · cases hb2 : Parser.block n p4.skipNewlines with
                  | error e => rw [hb2] at h; simp [Except.bind] at h
                  | ok r3 =>
                    obtain ⟨blk, p6⟩ := r3
                    rw [hb2] at h
                    simp only [Except.bind] at h
                    injection h with h1
                    injection h1 with h1 h2
                    rw [← h1]
                    constructor
                    · exact NodeWF.set_block hwf4 (concat_objChild_wf
                        (get_block_objChild_wf hwf4) (get_nodes_list_wf (ihBlock _ _ _ hb2)))
                    · rw [JVal.get_set_other _ "block" "code" _ (by decide)]
                      exact hco4
                · injection h with h1
                  injection h1 with h1 h2
                  rw [← h1]
                  exact ⟨hwf4, hco4⟩
          · cases he2 : Parser.parseExpr n (p2).advance.2 with
            | error e => rw [he2] at h; simp [Except.bind] at h
            | ok r2 =>
              obtain ⟨e2, p4⟩ := r2
              rw [he2] at h
              simp only [Except.bind, pure, Except.pure] at h
              have hwf4 : NodeWF ((tg2).set "block" (mkObj [("type", JVal.str "Block"), ("nodes", mkArr [e2])])) :=
                hwf3.set_block (objChild_of_wf (NodeWF_blockList [e2] (fun x hx => by
                  rw [List.mem_singleton.mp hx]; exact ihExpr _ _ _ he2)))
              have hco4 : truthy (((tg2).set "block" (mkObj [("type", JVal.str "Block"), ("nodes", mkArr [e2])])).get "code") = true →
                  ∃ g, ((tg2).set "block" (mkObj [("type", JVal.str "Block"), ("nodes", mkArr [e2])])).get "code" = JVal.obj g := by
                rw [JVal.get_set_other _ "block" "code" _ (by decide)]
                exact hco3
              split at h
              · cases htb : Parser.parseTextBlock n p4.skipNewlines with
                | error e => rw [htb] at h; simp [Except.bind] at h
                | ok r3 =>
                  obtain ⟨ob, p6⟩ := r3
                  rw [htb] at h
                  simp only [Except.bind] at h
                  injection h with h1
                  injection h1 with h1 h2
                  rw [← h1]
                  constructor
                  · refine NodeWF.set_block hwf4 ?_
                    cases ob with
                    | none =>
                      intro c hc3
                      rw [objChild_cases _ c hc3]
                      exact NodeWF_emptyBlock
                    | some b =>
                      intro c hc3
                      rw [objChild_cases _ c hc3]
                      exact ihTextBlock _ _ _ htb b rfl
                  · rw [JVal.get_set_other _ "block" "code" _ (by decide)]
                    exact hco4
              · split at h
                · cases hb2 : Parser.block n p4.skipNewlines with
                  | error e => rw [hb2] at h; simp [Except.bind] at h
                  | ok r3 =>
                    obtain ⟨blk, p6⟩ := r3
                    rw [hb2] at h
                    simp only [Except.bind] at h
                    injection h with h1
                    injection h1 with h1 h2
                    rw [← h1]
                    constructor
                    · exact NodeWF.set_block hwf4 (concat_objChild_wf
                        (get_block_objChild_wf hwf4) (get_nodes_list_wf (ihBlock _ _ _ hb2)))
                    · rw [JVal.get_set_other _ "block" "code" _ (by decide)]
                      exact hco4
                · injection h with h1
                  injection h1 with h1 h2
                  rw [← h1]
                  exact ⟨hwf4, hco4⟩
          · simp only [Except.bind, pure, Except.pure] at h
            split at h
            · cases htb : Parser.parseTextBlock n (p2).skipNewlines with
              | error e => rw [htb] at h; simp [Except.bind] at h
              | ok r3 =>
                obtain ⟨ob, p6⟩ := r3
                rw [htb] at h
                simp only [Except.bind] at h
                injection h with h1
                injection h1 with h1 h2
                rw [← h1]
                constructor
                · refine NodeWF.set_block hwf3 ?_
                  cases ob with
                  | none =>
                    intro c hc3
                    rw [objChild_cases _ c hc3]
                    exact NodeWF_emptyBlock
                  | some b =>
                    intro c hc3
                    rw [objChild_cases _ c hc3]
                    exact ihTextBlock _ _ _ htb b rfl
                · rw [JVal.get_set_other _ "block" "code" _ (by decide)]
                  exact hco3
            · split at h
              · cases hb2 : Parser.block n (p2).skipNewlines with
                | error e => rw [hb2] at h; simp [Except.bind] at h
                | ok r3 =>
                  obtain ⟨blk, p6⟩ := r3
                  rw [hb2] at h
                  simp only [Except.bind] at h
                  injection h with h1
                  injection h1 with h1 h2
                  rw [← h1]
                  constructor
                  · exact NodeWF.set_block hwf3 (concat_objChild_wf
                      (get_block_objChild_wf hwf3) (get_nodes_list_wf (ihBlock _ _ _ hb2)))
                  · rw [JVal.get_set_other _ "block" "code" _ (by decide)]
                    exact hco3
              · injection h with h1
                injection h1 with h1 h2
                rw [← h1]
                exact ⟨hwf3, hco3⟩
          · simp only [Except.bind, pure, Except.pure] at h
            split at h
            · cases htb : Parser.parseTextBlock n (p2).skipNewlines with
              | error e => rw [htb] at h; simp [Except.bind] at h
              | ok r3 =>
                obtain ⟨ob, p6⟩ := r3
                rw [htb] at h
                simp only [Except.bind] at h
                injection h with h1
                injection h1 with h1 h2
                rw [← h1]
                constructor
                · refine NodeWF.set_block hwf3 ?_
                  cases ob with
                  | none =>
                    intro c hc3
                    rw [objChild_cases _ c hc3]
                    exact NodeWF_emptyBlock
                  | some b =>
                    intro c hc3
                    rw [objChild_cases _ c hc3]
                    exact ihTextBlock _ _ _ htb b rfl
                · rw [JVal.get_set_other _ "block" "code" _ (by decide)]
                  exact hco3
            · split at h
              · cases hb2 : Parser.block n (p2).skipNewlines with
                | error e => rw [hb2] at h; simp [Except.bind] at h
                | ok r3 =>
                  obtain ⟨blk, p6⟩ := r3
                  rw [hb2] at h
                  simp only [Except.bind] at h
                  injection h with h1
                  injection h1 with h1 h2
                  rw [← h1]
                  constructor
                  · exact NodeWF.set_block hwf3 (concat_objChild_wf
                      (get_block_objChild_wf hwf3) (get_nodes_list_wf (ihBlock _ _ _ hb2)))
                  · rw [JVal.get_set_other _ "block" "code" _ (by decide)]
                    exact hco3
              · injection h with h1
                injection h1 with h1 h2
                rw [← h1]
                exact ⟨hwf3, hco3⟩
          · simp only [Except.bind, pure, Except.pure] at h
            split at h
            · cases htb : Parser.parseTextBlock n (p2).skipNewlines with
              | error e => rw [htb] at h; simp [Except.bind] at h
              | ok r3 =>
                obtain ⟨ob, p6⟩ := r3
                rw [htb] at h
                simp only [Except.bind] at h
                injection h with h1
                injection h1 with h1 h2
                rw [← h1]
                constructor
                · refine NodeWF.set_block hwf3 ?_
                  cases ob with
                  | none =>
                    intro c hc3
                    rw [objChild_cases _ c hc3]
                    exact NodeWF_emptyBlock
                  | some b =>
                    intro c hc3
                    rw [objChild_cases _ c hc3]
                    exact ihTextBlock _ _ _ htb b rfl
                · rw [JVal.get_set_other _ "block" "code" _ (by decide)]
                  exact hco3
            · split at h
              · cases hb2 : Parser.block n (p2).skipNewlines with
                | error e => rw [hb2] at h; simp [Except.bind] at h
                | ok r3 =>
                  obtain ⟨blk, p6⟩ := r3
                  rw [hb2] at h
                  simp only [Except.bind] at h
                  injection h with h1
                  injection h1 with h1 h2
                  rw [← h1]
                  constructor
                  · exact NodeWF.set_block hwf3 (concat_objChild_wf
                      (get_block_objChild_wf hwf3) (get_nodes_list_wf (ihBlock _ _ _ hb2)))
                  · rw [JVal.get_set_other _ "block" "code" _ (by decide)]
                    exact hco3
              · injection h with h1
                injection h1 with h1 h2
                rw [← h1]
                exact ⟨hwf3, hco3⟩
          · simp only [Except.bind, pure, Except.pure] at h
            split at h
            · cases htb : Parser.parseTextBlock n (p2).skipNewlines with
              | error e => rw [htb] at h; simp [Except.bind] at h
              | ok r3 =>
                obtain ⟨ob, p6⟩ := r3
                rw [htb] at h
                simp only [Except.bind] at h
                injection h with h1
                injection h1 with h1 h2
                rw [← h1]
                constructor
                · refine NodeWF.set_block hwf3 ?_
                  cases ob with
                  | none =>
                    intro c hc3
                    rw [objChild_cases _ c hc3]
                    exact NodeWF_emptyBlock
                  | some b =>
                    intro c hc3
                    rw [objChild_cases _ c hc3]
                    exact ihTextBlock _ _ _ htb b rfl
                · rw [JVal.get_set_other _ "block" "code" _ (by decide)]
                  exact hco3
            · split at h
              · cases hb2 : Parser.block n (p2).skipNewlines with
                | error e => rw [hb2] at h; simp [Except.bind] at h
                | ok r3 =>
                  obtain ⟨blk, p6⟩ := r3
                  rw [hb2] at h
                  simp only [Except.bind] at h
                  injection h with h1
                  injection h1 with h1 h2
                  rw [← h1]
                  constructor
                  · exact NodeWF.set_block hwf3 (concat_objChild_wf
                      (get_block_objChild_wf hwf3) (get_nodes_list_wf (ihBlock _ _ _ hb2)))
                  · rw [JVal.get_set_other _ "block" "code" _ (by decide)]
                    exact hco3
              · injection h with h1
                injection h1 with h1 h2
                rw [← h1]
                exact ⟨hwf3, hco3⟩
          · simp only [Except.bind, pure, Except.pure] at h
            split at h
            · cases htb : Parser.parseTextBlock n (p2).skipNewlines with
              | error e => rw [htb] at h; simp [Except.bind] at h
              | ok r3 =>
                obtain ⟨ob, p6⟩ := r3
                rw [htb] at h
                simp only [Except.bind] at h
                injection h with h1
                injection h1 with h1 h2
                rw [← h1]
                constructor
                · refine NodeWF.set_block hwf3 ?_
                  cases ob with
                  | none =>
                    intro c hc3
                    rw [objChild_cases _ c hc3]
                    exact NodeWF_emptyBlock
                  | some b =>
                    intro c hc3
                    rw [objChild_cases _ c hc3]
                    exact ihTextBlock _ _ _ htb b rfl
                · rw [JVal.get_set_other _ "block" "code" _ (by decide)]
                  exact hco3
            · split at h
              · cases hb2 : Parser.block n (p2).skipNewlines with
                | error e => rw [hb2] at h; simp [Except.bind] at h
                | ok r3 =>
                  obtain ⟨blk, p6⟩ := r3
                  rw [hb2] at h
                  simp only [Except.bind] at h
                  injection h with h1
                  injection h1 with h1 h2
                  rw [← h1]
                  constructor
                  · exact NodeWF.set_block hwf3 (concat_objChild_wf
                      (get_block_objChild_wf hwf3) (get_nodes_list_wf (ihBlock _ _ _ hb2)))
                  · rw [JVal.get_set_other _ "block" "code" _ (by decide)]
                    exact hco3
              · injection h with h1
                injection h1 with h1 h2
                rw [← h1]
                exact ⟨hwf3, hco3⟩
          · simp [Except.bind] at h
    · intro p blk v p' hblk h
      rw [Parser.parseLoop] at h
      split at h
      · injection h with h1
        injection h1 with h1 h2
        rw [← h1]
        exact hblk
      · split at h
        · exact ihParseLoop _ _ _ _ hblk h
        · split at h
          · cases hth : Parser.parseTextHtml n p with
            | error e => rw [hth] at h; simp [Bind.bind, Except.bind] at h
            | ok r =>
              obtain ⟨ns, p2⟩ := r
              rw [hth] at h
              simp only [Bind.bind, Except.bind] at h
              exact ihParseLoop _ _ _ _ (hblk.concat (ihTextHtml _ _ _ hth)) h
          · simp only [Bind.bind, Except.bind] at h
            cases hx : Parser.parseExpr n p with
            | error e => rw [hx] at h; simp [Except.bind] at h
            | ok r =>
              obtain ⟨e1, p2⟩ := r
              rw [hx] at h
              simp only [Except.bind] at h
              refine ihParseLoop _ _ _ _ (hblk.push_nodes ?_) h
              refine NodeWF.set_other (NodeWF.set_other (ihExpr _ _ _ hx) "filename" _
                (by decide) (by decide) (by decide) (by decide) (by decide)) "line" _
                (by decide) (by decide) (by decide) (by decide) (by decide)

/-- C3 (amended): every AST node the parse produces, at any nesting depth
and of any variant, carries a string `type` field; the root `Block`
additionally carries `line` 0 and the parse's `filename`. (`line` and
`filename` are not present on every node — see the counterexample.) -/
theorem C3_node_fields (fuel : Nat) (ts : List Tok) (fn : String) (b : JVal)
    (h : parse fuel ts fn = .ok b) :
    NodeTyped b ∧ b.get "type" = .str "Block" ∧ b.get "line" = .num 0 ∧
      b.get "filename" = .str fn := by
  cases fuel with
  | zero => simp [parse, Parser.parse] at h
  | succ n =>
    unfold parse at h
    cases hp : Parser.parse (n + 1) { tokens := ts, filename := fn } with
    | error e => rw [hp] at h; simp at h
    | ok r =>
      rw [hp] at h
      obtain ⟨a, p2⟩ := r
      have hb : jsonRound a = b := by injection h
      simp only [Parser.parse] at hp
      have hroot := ((NodeWF_blockList []
        (fun x hx => absurd hx (List.not_mem_nil x))).set_other
        "line" (JVal.num 0) (by decide) (by decide) (by decide) (by decide)
        (by decide)).set_other
        "filename" (JVal.str fn) (by decide) (by decide) (by decide) (by decide) (by decide)
      have hwf : NodeWF a := by
        obtain ⟨-, -, -, -, -, -, -, -, -, -, -, -, -, -, -, -, -, -, -, -, -, -, -, -,
          -, -, hloop⟩ := parserWF n
        exact hloop _ _ _ _ hroot hp
      have h1 : a.get "type" = .str "Block" :=
        (parseLoop_get n _ _ _ _ hp "type" (by decide)).trans (by rfl)
      have h2 : a.get "line" = .num 0 :=
        (parseLoop_get n _ _ _ _ hp "line" (by decide)).trans (by rfl)
      have h3 : a.get "filename" = .str fn :=
        (parseLoop_get n _ _ _ _ hp "filename" (by decide)).trans (by rfl)
      subst hb
      refine ⟨hwf.typed_strip, ?_⟩
      cases a with
      | obj f =>
        simp only [JVal.get] at h1 h2 h3
        refine ⟨?_, ?_, ?_⟩
        · show (stripUndef (.obj f)).get "type" = _
          simp only [stripUndef, JVal.get]
          rw [JObj.get_strip_of_ne f "type" (by rw [h1]; intro hx; cases hx), h1]
          rfl
        · show (stripUndef (.obj f)).get "line" = _
          simp only [stripUndef, JVal.get]
          rw [JObj.get_strip_of_ne f "line" (by rw [h2]; intro hx; cases hx), h2]
          rfl
        · show (stripUndef (.obj f)).get "filename" = _
          simp only [stripUndef, JVal.get]
          rw [JObj.get_strip_of_ne f "filename" (by rw [h3]; intro hx; cases hx), h3]
          rfl
      | undef => simp [JVal.get] at h1
      | null => simp [JVal.get] at h1
      | bool b' => simp [JVal.get] at h1
      | num n' => simp [JVal.get] at h1
      | str s' => simp [JVal.get] at h1
      | arr l => simp [JVal.get] at h1

/-- Witness for the amended C3 at the one-token stream `[eos]`. -/
theorem C3_node_fields_witness :
    NodeTyped (JVal.obj (.cons "type" (.str "Block") (.cons "nodes" (.arr .nil)
        (.cons "line" (.num 0) (.cons "filename" (.str "f") .nil))))) ∧
      (JVal.obj (.cons "type" (.str "Block") (.cons "nodes" (.arr .nil)
        (.cons "line" (.num 0) (.cons "filename" (.str "f") .nil))))).get "type" =
        .str "Block" ∧
      (JVal.obj (.cons "type" (.str "Block") (.cons "nodes" (.arr .nil)
        (.cons "line" (.num 0) (.cons "filename" (.str "f") .nil))))).get "line" = .num 0 ∧
      (JVal.obj (.cons "type" (.str "Block") (.cons "nodes" (.arr .nil)
        (.cons "line" (.num 0) (.cons "filename" (.str "f") .nil))))).get "filename" =
        .str "f" :=
  C3_node_fields 5 [eosTok] "f" _ (by rfl)
